import Mathlib

/-!
# libc6-shim: socket and mmap ABI translation

A shallow embedding of `src/libc/sys/socket.c`, `src/libc/sys/mman.c` and of the file
opening wrapper of `src/libc/stdio.c`.

Conventions of the embedding:

* a C `int` flag word is its 32-bit two's-complement bit pattern, a `Nat`;
* memory reached through a pointer is a function from byte offset to byte value;
* a failed `assert` is `Outcome.abort`, a store through a null pointer is
  `Outcome.fault`; a loop is modelled with fuel and reports `Outcome.fuel` when the
  fuel runs out;
* constants, struct sizes and helpers that come from headers which are not part of
  the translated sources (`socket.h`, `shim.h`, the host system headers) are fields
  of the structure `Abi`; `freebsd` gives their values for a Linux guest on a
  FreeBSD host.
-/

namespace Libc6Shim

/-! ## Outcomes -/

/-- Result of running a C function of the shim. -/
inductive Outcome (α : Type) where
  | done (a : α)
  | abort
  | fault
  | fuel

/-! ## Constants taken from headers -/

/-- Constants and helpers that the translated sources use but do not define. -/
structure Abi where
  LINUX_MSG_OOB : Nat
  LINUX_MSG_PEEK : Nat
  LINUX_MSG_DONTROUTE : Nat
  LINUX_MSG_CTRUNC : Nat
  LINUX_MSG_TRUNC : Nat
  LINUX_MSG_DONTWAIT : Nat
  LINUX_MSG_EOR : Nat
  LINUX_MSG_WAITALL : Nat
  LINUX_MSG_NOSIGNAL : Nat
  LINUX_MSG_WAITFORONE : Nat
  LINUX_MSG_CMSG_CLOEXEC : Nat
  KNOWN_LINUX_MSG_FLAGS : Nat
  MSG_OOB : Nat
  MSG_PEEK : Nat
  MSG_DONTROUTE : Nat
  MSG_CTRUNC : Nat
  MSG_TRUNC : Nat
  MSG_DONTWAIT : Nat
  MSG_EOR : Nat
  MSG_WAITALL : Nat
  MSG_NOSIGNAL : Nat
  MSG_WAITFORONE : Nat
  MSG_CMSG_CLOEXEC : Nat
  MSG_EOF : Nat
  KNOWN_NATIVE_MSG_FLAGS : Nat
  LINUX_SOL_SOCKET : Nat
  LINUX_SOL_IP : Nat
  LINUX_SOL_TCP : Nat
  LINUX_SOL_UDP : Nat
  SOL_SOCKET : Nat
  IPPROTO_IP : Nat
  IPPROTO_TCP : Nat
  IPPROTO_UDP : Nat
  LINUX_SCM_RIGHTS : Nat
  SCM_RIGHTS : Nat
  LINUX_PF_UNIX : Nat
  LINUX_PF_INET : Nat
  PF_UNIX : Nat
  PF_INET : Nat
  /-- The value of `sizeof(struct linux_sockaddr_in)`. -/
  sizeof_linux_sockaddr_in : Nat
  /-- The value of `sizeof(linux_sockaddr_un)`. -/
  sizeof_linux_sockaddr_un : Nat
  /-- The value of `sizeof(sun_path)` in the guest's `linux_sockaddr_un`. -/
  sizeof_linux_sun_path : Nat
  /-- The value of `sizeof(struct sockaddr_in)` on the host. -/
  sizeof_sockaddr_in : Nat
  /-- The value of `sizeof(struct sockaddr_un)` on the host. -/
  sizeof_sockaddr_un : Nat
  /-- The value of `sizeof(sun_path)` in the host's `struct sockaddr_un`. -/
  sizeof_sun_path : Nat
  MAP_SHARED : Nat
  MAP_PRIVATE : Nat
  MAP_FIXED : Nat
  MAP_ANON : Nat
  /-- The errno translator `native_to_linux_errno`, defined outside the translated sources. -/
  native_to_linux_errno : Int → Int
  LINUX_SOCK_STREAM : Nat
  LINUX_SOCK_DGRAM : Nat
  LINUX_SOCK_NONBLOCK : Nat
  LINUX_SOCK_CLOEXEC : Nat
  KNOWN_LINUX_SOCKET_TYPES : Nat
  SOCK_STREAM : Nat
  SOCK_DGRAM : Nat
  SOCK_NONBLOCK : Nat
  SOCK_CLOEXEC : Nat
  LINUX_SO_BROADCAST : Int
  LINUX_SO_SNDBUF : Int
  LINUX_SO_RCVBUF : Int
  LINUX_SO_KEEPALIVE : Int
  SO_BROADCAST : Int
  SO_SNDBUF : Int
  SO_RCVBUF : Int
  SO_KEEPALIVE : Int
  LINUX_TCP_NODELAY : Int
  LINUX_TCP_USER_TIMEOUT : Int
  TCP_NODELAY : Int
  /-- The host error code `EACCES`. -/
  EACCES : Int

/-- Values of the constants for a Linux guest on a FreeBSD host. The two masks of
message flags are taken to be the union of the flags that the translators name, the
host mask with `MSG_EOF`, which `native_to_linux_msg_flags` tests after the mask. Of the
errno table only four entries are listed (`EAGAIN`, `EADDRINUSE`, `ECONNREFUSED`,
`ENOPROTOOPT`); no theorem depends on the others. -/
def freebsd : Abi where
  LINUX_MSG_OOB := 0x1
  LINUX_MSG_PEEK := 0x2
  LINUX_MSG_DONTROUTE := 0x4
  LINUX_MSG_CTRUNC := 0x8
  LINUX_MSG_TRUNC := 0x20
  LINUX_MSG_DONTWAIT := 0x40
  LINUX_MSG_EOR := 0x80
  LINUX_MSG_WAITALL := 0x100
  LINUX_MSG_NOSIGNAL := 0x4000
  LINUX_MSG_WAITFORONE := 0x10000
  LINUX_MSG_CMSG_CLOEXEC := 0x40000000
  KNOWN_LINUX_MSG_FLAGS := 0x400141ef
  MSG_OOB := 0x1
  MSG_PEEK := 0x2
  MSG_DONTROUTE := 0x4
  MSG_CTRUNC := 0x20
  MSG_TRUNC := 0x10
  MSG_DONTWAIT := 0x80
  MSG_EOR := 0x8
  MSG_WAITALL := 0x40
  MSG_NOSIGNAL := 0x20000
  MSG_WAITFORONE := 0x80000
  MSG_CMSG_CLOEXEC := 0x40000
  MSG_EOF := 0x100
  KNOWN_NATIVE_MSG_FLAGS := 0xe01ff
  LINUX_SOL_SOCKET := 1
  LINUX_SOL_IP := 0
  LINUX_SOL_TCP := 6
  LINUX_SOL_UDP := 17
  SOL_SOCKET := 0xffff
  IPPROTO_IP := 0
  IPPROTO_TCP := 6
  IPPROTO_UDP := 17
  LINUX_SCM_RIGHTS := 1
  SCM_RIGHTS := 1
  LINUX_PF_UNIX := 1
  LINUX_PF_INET := 2
  PF_UNIX := 1
  PF_INET := 2
  sizeof_linux_sockaddr_in := 16
  sizeof_linux_sockaddr_un := 110
  sizeof_linux_sun_path := 108
  sizeof_sockaddr_in := 16
  sizeof_sockaddr_un := 106
  sizeof_sun_path := 104
  MAP_SHARED := 0x1
  MAP_PRIVATE := 0x2
  MAP_FIXED := 0x10
  MAP_ANON := 0x1000
  native_to_linux_errno := fun e =>
    if e = 35 then 11 else if e = 48 then 98 else if e = 61 then 111
    else if e = 42 then 92 else e
  LINUX_SOCK_STREAM := 1
  LINUX_SOCK_DGRAM := 2
  LINUX_SOCK_NONBLOCK := 0x800
  LINUX_SOCK_CLOEXEC := 0x80000
  KNOWN_LINUX_SOCKET_TYPES := 0x80803
  SOCK_STREAM := 1
  SOCK_DGRAM := 2
  SOCK_NONBLOCK := 0x20000000
  SOCK_CLOEXEC := 0x10000000
  LINUX_SO_BROADCAST := 6
  LINUX_SO_SNDBUF := 7
  LINUX_SO_RCVBUF := 8
  LINUX_SO_KEEPALIVE := 9
  SO_BROADCAST := 0x20
  SO_SNDBUF := 0x1001
  SO_RCVBUF := 0x1002
  SO_KEEPALIVE := 0x8
  LINUX_TCP_NODELAY := 1
  LINUX_TCP_USER_TIMEOUT := 18
  TCP_NODELAY := 1
  EACCES := 13

/-! ## Message flags (`socket.c`, lines 51-95) -/

/-- One statement `if (src & bit) acc |= out;`. -/
def orIf (src bit out acc : Nat) : Nat :=
  if src &&& bit ≠ 0 then acc ||| out else acc

/-- Translation of `linux_to_native_msg_flags`. -/
def linux_to_native_msg_flags (abi : Abi) (linux_flags : Nat) : Outcome Nat :=
  if linux_flags &&& abi.KNOWN_LINUX_MSG_FLAGS ≠ linux_flags then .abort else
  let flags := 0
  let flags := orIf linux_flags abi.LINUX_MSG_OOB abi.MSG_OOB flags
  let flags := orIf linux_flags abi.LINUX_MSG_PEEK abi.MSG_PEEK flags
  let flags := orIf linux_flags abi.LINUX_MSG_DONTROUTE abi.MSG_DONTROUTE flags
  let flags := orIf linux_flags abi.LINUX_MSG_CTRUNC abi.MSG_CTRUNC flags
  let flags := orIf linux_flags abi.LINUX_MSG_TRUNC abi.MSG_TRUNC flags
  let flags := orIf linux_flags abi.LINUX_MSG_DONTWAIT abi.MSG_DONTWAIT flags
  let flags := orIf linux_flags abi.LINUX_MSG_EOR abi.MSG_EOR flags
  let flags := orIf linux_flags abi.LINUX_MSG_WAITALL abi.MSG_WAITALL flags
  let flags := orIf linux_flags abi.LINUX_MSG_NOSIGNAL abi.MSG_NOSIGNAL flags
  let flags := orIf linux_flags abi.LINUX_MSG_WAITFORONE abi.MSG_WAITFORONE flags
  let flags := orIf linux_flags abi.LINUX_MSG_CMSG_CLOEXEC abi.MSG_CMSG_CLOEXEC flags
  .done flags

/-- Translation of `native_to_linux_msg_flags`. -/
def native_to_linux_msg_flags (abi : Abi) (flags : Nat) : Outcome Nat :=
  if flags &&& abi.KNOWN_NATIVE_MSG_FLAGS ≠ flags then .abort else
  let linux_flags := 0
  if flags &&& abi.MSG_EOF ≠ 0 then .abort else
  let linux_flags := orIf flags abi.MSG_OOB abi.LINUX_MSG_OOB linux_flags
  let linux_flags := orIf flags abi.MSG_PEEK abi.LINUX_MSG_PEEK linux_flags
  let linux_flags := orIf flags abi.MSG_DONTROUTE abi.LINUX_MSG_DONTROUTE linux_flags
  let linux_flags := orIf flags abi.MSG_CTRUNC abi.LINUX_MSG_CTRUNC linux_flags
  let linux_flags := orIf flags abi.MSG_TRUNC abi.LINUX_MSG_TRUNC linux_flags
  let linux_flags := orIf flags abi.MSG_DONTWAIT abi.LINUX_MSG_DONTWAIT linux_flags
  let linux_flags := orIf flags abi.MSG_EOR abi.LINUX_MSG_EOR linux_flags
  let linux_flags := orIf flags abi.MSG_WAITALL abi.LINUX_MSG_WAITALL linux_flags
  let linux_flags := orIf flags abi.MSG_NOSIGNAL abi.LINUX_MSG_NOSIGNAL linux_flags
  let linux_flags := orIf flags abi.MSG_WAITFORONE abi.LINUX_MSG_WAITFORONE linux_flags
  let linux_flags := orIf flags abi.MSG_CMSG_CLOEXEC abi.LINUX_MSG_CMSG_CLOEXEC linux_flags
  .done linux_flags

/-- The eleven (guest bit, host bit) pairs, in the order of the source. -/
def Abi.msgFlagPairs (abi : Abi) : List (Nat × Nat) :=
  [(abi.LINUX_MSG_OOB, abi.MSG_OOB), (abi.LINUX_MSG_PEEK, abi.MSG_PEEK),
   (abi.LINUX_MSG_DONTROUTE, abi.MSG_DONTROUTE), (abi.LINUX_MSG_CTRUNC, abi.MSG_CTRUNC),
   (abi.LINUX_MSG_TRUNC, abi.MSG_TRUNC), (abi.LINUX_MSG_DONTWAIT, abi.MSG_DONTWAIT),
   (abi.LINUX_MSG_EOR, abi.MSG_EOR), (abi.LINUX_MSG_WAITALL, abi.MSG_WAITALL),
   (abi.LINUX_MSG_NOSIGNAL, abi.MSG_NOSIGNAL), (abi.LINUX_MSG_WAITFORONE, abi.MSG_WAITFORONE),
   (abi.LINUX_MSG_CMSG_CLOEXEC, abi.MSG_CMSG_CLOEXEC)]

/-- A flag constant that is a single bit of a 32-bit word. -/
@[reducible] def isBit (x : Nat) : Prop := x ∈ (List.range 32).map (fun k => 2 ^ k)

/-- What the flag translators need of the header constants: every named flag is a
single bit, the host bits are pairwise different, none is `MSG_EOF`, the guest mask is
the union of the eleven guest bits and the host mask contains the eleven host bits. -/
@[reducible] def Abi.MsgFlagsOK (abi : Abi) : Prop :=
  (∀ p ∈ abi.msgFlagPairs,
      isBit p.1 ∧ isBit p.2 ∧ p.2 &&& abi.KNOWN_NATIVE_MSG_FLAGS = p.2 ∧ p.2 &&& abi.MSG_EOF = 0) ∧
  (abi.msgFlagPairs.map Prod.snd).Nodup ∧
  abi.KNOWN_LINUX_MSG_FLAGS = (abi.msgFlagPairs.map Prod.fst).foldr (fun g acc => g ||| acc) 0

/-! ## Memory -/

/-- Memory reached through a pointer: the cell at each byte offset from it. -/
abbrev Mem := Nat → Nat

/-- Little-endian read of an unsigned field of `w` bytes at offset `off`. -/
def rd (m : Mem) (off : Nat) : Nat → Nat
  | 0 => 0
  | w + 1 => m off % 256 + 256 * rd m (off + 1) w

/-- Little-endian store of `v` into a field of `w` bytes at offset `off`; a value
wider than the field keeps its low `w` bytes. -/
def wr (m : Mem) (off w v : Nat) : Mem :=
  fun i => if off ≤ i ∧ i < off + w then v / 256 ^ (i - off) % 256 else m i

/-- The call `memcpy(dst + doff, src + soff, n)`. Memory here has no end, so the copy is
defined for every length; a copy that leaves the buffers, where the program would fault,
is kept out by the conditions of the statements on the records copied. -/
def memcpy (dst : Mem) (doff : Nat) (src : Mem) (soff n : Nat) : Mem :=
  fun i => if doff ≤ i ∧ i < doff + n then src (soff + (i - doff)) else dst i

/-- The call `memset(m, 0, n)`. -/
def memset0 (m : Mem) (n : Nat) : Mem :=
  fun i => if i < n then 0 else m i

/-- The `n` cells starting at offset `off`. -/
def bytes (m : Mem) (off n : Nat) : List Nat :=
  (List.range n).map (fun k => m (off + k))

/-- Memory holding the cells of a list, and zero after them. -/
def memOfList (l : List Nat) : Mem :=
  fun i => l.getD i 0

/-- The C string at offset `off`, read up to its terminator and through at most `n`
cells. -/
def cstrN (m : Mem) (off n : Nat) : List Nat :=
  (bytes m off n).takeWhile (fun c => c ≠ 0)

/-- The call `strlcpy(dst + doff, src + soff, dsize)`: the string is copied, cut to
`dsize - 1` characters, and terminated. The returned length is cut at `dsize`: the
callers only compare it with `dsize`. -/
def strlcpy (dst : Mem) (doff : Nat) (src : Mem) (soff dsize : Nat) : Mem × Nat :=
  let n := (cstrN src soff dsize).length
  let k := min n (dsize - 1)
  (if dsize = 0 then dst
   else fun i => if doff ≤ i ∧ i < doff + k then src (soff + (i - doff))
     else if i = doff + k then 0 else dst i,
   n)

/-- The characters of `"/var/run/"`. -/
def varRun : List Nat := [47, 118, 97, 114, 47, 114, 117, 110, 47]

/-- The call `snprintf(dst, size, "/var/run/%s", src + soff)`: the formatted string is
cut to `size - 1` characters and terminated. Of the argument string only the first
`size` cells can reach the output, so only they are read. -/
def snprintf_var_run (dst : Mem) (size : Nat) (src : Mem) (soff : Nat) : Mem :=
  let s := varRun ++ cstrN src soff size
  let k := min s.length (size - 1)
  if size = 0 then dst
  else fun i => if i < k then s.getD i 0 else if i = k then 0 else dst i

/-! ## Socket addresses (`socket.c`, lines 97-135)

The guest structures are read and written through a pointer to guest memory, with the
guest layout: `sa_family` is the 16-bit field at offset 0; in `linux_sockaddr_in` the
port is at offset 2, the address at offset 4 and `sin_zero` at offset 8; in
`linux_sockaddr_un` the path starts at offset 2. -/

/-- The host `struct sockaddr_in`. -/
structure sockaddr_in where
  sin_len : Nat
  sin_family : Nat
  sin_port : List Nat
  sin_addr : List Nat
  sin_zero : List Nat

/-- The host `struct sockaddr_un`; `sun_path` is the array seen from its first cell. -/
structure sockaddr_un where
  sun_len : Nat
  sun_family : Nat
  sun_path : Mem

/-- Store of a list of cells at offset `off`. -/
def wrBytes (m : Mem) (off : Nat) (l : List Nat) : Mem :=
  fun i => if off ≤ i ∧ i < off + l.length then l.getD (i - off) 0 else m i

/-- Translation of `linux_to_native_sockaddr_in`. -/
def linux_to_native_sockaddr_in (abi : Abi) (dest : sockaddr_in) (src : Mem) (addrlen : Nat) :
    Outcome sockaddr_in :=
  if addrlen ≠ abi.sizeof_linux_sockaddr_in then .abort else
  let dest := { dest with sin_len := 0 }
  let dest := { dest with sin_family := abi.PF_INET }
  let dest := { dest with sin_port := bytes src 2 2 }
  let dest := { dest with sin_addr := bytes src 4 4 }
  .done { dest with sin_zero := bytes src 8 8 }

/-- Translation of `linux_to_native_sockaddr_un`. -/
def linux_to_native_sockaddr_un (abi : Abi) (dest : sockaddr_un) (src : Mem) (addrlen : Nat) :
    Outcome sockaddr_un :=
  if addrlen ≠ abi.sizeof_linux_sockaddr_un then .abort else
  let dest := { dest with sun_len := 0 }
  let dest := { dest with sun_family := abi.PF_UNIX }
  if src 2 = 0 then
    .done { dest with sun_path := snprintf_var_run dest.sun_path abi.sizeof_sun_path src 3 }
  else
    let r := strlcpy dest.sun_path 0 src 2 abi.sizeof_sun_path
    if ¬ (r.2 < abi.sizeof_sun_path) then .abort else
    .done { dest with sun_path := r.1 }

/-- Translation of `native_to_linux_sockaddr_in`; `dest` is the guest memory written. -/
def native_to_linux_sockaddr_in (abi : Abi) (dest : Mem) (src : sockaddr_in)
    (_addrlen : Nat) : Mem :=
  let dest := wr dest 0 2 abi.LINUX_PF_INET
  let dest := wrBytes dest 2 src.sin_port
  let dest := wrBytes dest 4 src.sin_addr
  wrBytes dest 8 src.sin_zero

/-- Translation of `native_to_linux_sockaddr_un`; `dest` is the guest memory written. -/
def native_to_linux_sockaddr_un (abi : Abi) (dest : Mem) (src : sockaddr_un)
    (_addrlen : Nat) : Outcome Mem :=
  let dest := wr dest 0 2 abi.LINUX_PF_UNIX
  let r := strlcpy dest 2 src.sun_path 0 abi.sizeof_linux_sun_path
  if ¬ (r.2 < abi.sizeof_linux_sun_path) then .abort else
  .done r.1

/-! ## Socket levels (`socket.c`, lines 15-35) -/

/-- Translation of `linux_to_native_sock_level`. -/
def linux_to_native_sock_level (abi : Abi) (level : Nat) : Outcome Nat :=
  if level = abi.LINUX_SOL_SOCKET then .done abi.SOL_SOCKET
  else if level = abi.LINUX_SOL_IP then .done abi.IPPROTO_IP
  else if level = abi.LINUX_SOL_TCP then .done abi.IPPROTO_TCP
  else if level = abi.LINUX_SOL_UDP then .done abi.IPPROTO_UDP
  else .abort

/-- Translation of `native_to_linux_sock_level`. -/
def native_to_linux_sock_level (abi : Abi) (level : Nat) : Outcome Nat :=
  if level = abi.SOL_SOCKET then .done abi.LINUX_SOL_SOCKET
  else if level = abi.IPPROTO_IP then .done abi.LINUX_SOL_IP
  else if level = abi.IPPROTO_TCP then .done abi.LINUX_SOL_TCP
  else if level = abi.IPPROTO_UDP then .done abi.LINUX_SOL_UDP
  else .abort

/-! ## Message headers and control messages (`socket.c`, lines 200-281)

The two build targets of the `#ifdef` in the record loop are the two values of `Arch`.
The guest record header `struct linux_cmsghdr` holds `cmsg_len` (a `size_t`) at offset
0, `cmsg_level` after it and `cmsg_type` after that. The host record header
`struct cmsghdr` holds `cmsg_len` (a `socklen_t`, four bytes) at offset 0, `cmsg_level`
at offset 4 and `cmsg_type` at offset 8. The host macros `CMSG_FIRSTHDR` and
`CMSG_NXTHDR` are applied by the source to guest and host headers alike, and read
`cmsg_len` as the host does. -/

/-- The build target. -/
inductive Arch where
  | x86_64
  | i386
  deriving DecidableEq

/-- The literal offset of the record data in the `memcpy` calls of the record loop. -/
def Arch.cmsgData : Arch → Nat
  | .x86_64 => 16
  | .i386 => 12

/-- The value of `sizeof(size_t)`, which is also the alignment unit of the host. -/
def Arch.word : Arch → Nat
  | .x86_64 => 8
  | .i386 => 4

/-- The value of `sizeof(struct cmsghdr)` on the host. -/
def sizeof_cmsghdr : Nat := 12

/-- The host macro `_ALIGN`: rounding up to the alignment unit. -/
def ALIGN (arch : Arch) (n : Nat) : Nat :=
  (n + (arch.word - 1)) / arch.word * arch.word

/-- The guest `struct linux_msghdr`. A pointer to guest memory is the memory it
reaches, or `none` when null; `msg_iov` is kept as an address. -/
structure linux_msghdr where
  msg_name : Option Mem
  msg_namelen : Nat
  msg_iov : Nat
  msg_iovlen : Nat
  msg_control : Option Mem
  msg_controllen : Nat
  msg_flags : Nat

/-- The host `struct msghdr`. -/
structure msghdr where
  msg_name : Option Mem
  msg_namelen : Nat
  msg_iov : Nat
  msg_iovlen : Nat
  msg_control : Option Mem
  msg_controllen : Nat
  msg_flags : Nat

/-- The record loop of `linux_to_native_msghdr` (lines 216-234), entered with the
record at offset `off` of the guest control buffer `src` of length `len`, writing into
the host control buffer `dst`. -/
def linux_to_native_cmsgs (arch : Arch) (abi : Abi) :
    Nat → Nat → Mem → Nat → Mem → Outcome Mem
  | 0, _, _, _, _ => .fuel
  | fuel + 1, len, src, off, dst =>
    if rd src (off + arch.word + 4) 4 ≠ abi.LINUX_SCM_RIGHTS then .abort else
    let cmsg_len := rd src off arch.word
    let dst := wr dst off 4 cmsg_len
    match linux_to_native_sock_level abi (rd src (off + arch.word) 4) with
    | .done level =>
      let dst := wr dst (off + 4) 4 level
      let dst := wr dst (off + 8) 4 abi.SCM_RIGHTS
      let dst := memcpy dst (off + arch.cmsgData) src (off + arch.cmsgData)
        ((cmsg_len + 2 ^ (8 * arch.word) - arch.cmsgData) % 2 ^ (8 * arch.word))
      let next := off + ALIGN arch (rd src off 4)
      if next + ALIGN arch sizeof_cmsghdr > len then .done dst
      else linux_to_native_cmsgs arch abi fuel len src next dst
    | .abort => .abort
    | .fault => .fault
    | .fuel => .fuel

/-- Translation of `linux_to_native_msghdr`. -/
def linux_to_native_msghdr (arch : Arch) (abi : Abi) (fuel : Nat) (msg : msghdr)
    (linux_msg : linux_msghdr) : Outcome msghdr :=
  let msg := { msg with msg_name := linux_msg.msg_name }
  let msg := { msg with msg_namelen := linux_msg.msg_namelen }
  let msg := { msg with msg_iov := linux_msg.msg_iov }
  let msg := { msg with msg_iovlen := linux_msg.msg_iovlen }
  match linux_to_native_msg_flags abi linux_msg.msg_flags with
  | .done flags =>
    let msg := { msg with msg_flags := flags }
    if linux_msg.msg_controllen > 0 then
      if ¬ (msg.msg_controllen ≥ linux_msg.msg_controllen) then .abort else
      let msg := { msg with msg_controllen := linux_msg.msg_controllen % 2 ^ 32 }
      match msg.msg_control with
      | none => .fault
      | some buf =>
        let buf := memset0 buf linux_msg.msg_controllen
        let first := if linux_msg.msg_controllen ≥ sizeof_cmsghdr
          then linux_msg.msg_control else none
        match first with
        | none => .done { msg with msg_control := some buf }
        | some src =>
          match linux_to_native_cmsgs arch abi fuel linux_msg.msg_controllen src 0 buf with
          | .done buf => .done { msg with msg_control := some buf }
          | .abort => .abort
          | .fault => .fault
          | .fuel => .fuel
    else
      let msg := { msg with msg_control := none }
      .done { msg with msg_controllen := 0 }
  | .abort => .abort
  | .fault => .fault
  | .fuel => .fuel

/-- The record loop of `native_to_linux_msghdr` (lines 257-275), entered with the
record at offset `off` of the host control buffer `src` of length `len`, writing into
the guest control buffer `dst`. -/
def native_to_linux_cmsgs (arch : Arch) (abi : Abi) :
    Nat → Nat → Mem → Nat → Mem → Outcome Mem
  | 0, _, _, _, _ => .fuel
  | fuel + 1, len, src, off, dst =>
    if rd src (off + 8) 4 ≠ abi.SCM_RIGHTS then .abort else
    let cmsg_len := rd src off 4
    let dst := wr dst off arch.word cmsg_len
    match native_to_linux_sock_level abi (rd src (off + 4) 4) with
    | .done level =>
      let dst := wr dst (off + arch.word) 4 level
      let dst := wr dst (off + arch.word + 4) 4 abi.LINUX_SCM_RIGHTS
      let dst := memcpy dst (off + arch.cmsgData) src (off + arch.cmsgData)
        ((cmsg_len + 2 ^ 32 - arch.cmsgData) % 2 ^ 32)
      let next := off + ALIGN arch (rd src off 4)
      if next + ALIGN arch sizeof_cmsghdr > len then .done dst
      else native_to_linux_cmsgs arch abi fuel len src next dst
    | .abort => .abort
    | .fault => .fault
    | .fuel => .fuel

/-- Translation of `native_to_linux_msghdr`. -/
def native_to_linux_msghdr (arch : Arch) (abi : Abi) (fuel : Nat) (linux_msg : linux_msghdr)
    (msg : msghdr) : Outcome linux_msghdr :=
  let linux_msg := { linux_msg with msg_name := msg.msg_name }
  let linux_msg := { linux_msg with msg_namelen := msg.msg_namelen }
  let linux_msg := { linux_msg with msg_iov := msg.msg_iov }
  let linux_msg := { linux_msg with msg_iovlen := msg.msg_iovlen }
  match native_to_linux_msg_flags abi msg.msg_flags with
  | .done flags =>
    let linux_msg := { linux_msg with msg_flags := flags }
    if msg.msg_controllen > 0 then
      if ¬ (linux_msg.msg_controllen ≥ msg.msg_controllen) then .abort else
      let linux_msg := { linux_msg with msg_controllen := msg.msg_controllen }
      match linux_msg.msg_control with
      | none => .fault
      | some buf =>
        let buf := memset0 buf msg.msg_controllen
        let first := if msg.msg_controllen ≥ sizeof_cmsghdr then msg.msg_control else none
        match first with
        | none => .done { linux_msg with msg_control := some buf }
        | some src =>
          match native_to_linux_cmsgs arch abi fuel msg.msg_controllen src 0 buf with
          | .done buf => .done { linux_msg with msg_control := some buf }
          | .abort => .abort
          | .fault => .fault
          | .fuel => .fuel
    else
      let linux_msg := { linux_msg with msg_control := none }
      .done { linux_msg with msg_controllen := 0 }
  | .abort => .abort
  | .fault => .fault
  | .fuel => .fuel

/-! ## Host calls -/

/-- A socket address in host layout, as handed to a host call. -/
inductive HostAddr where
  | un (a : sockaddr_un)
  | inet (a : sockaddr_in)

/-- A call of a host function, with its arguments. Pointers to data that the shim does
not inspect are kept as addresses. -/
inductive HostCall where
  | bind (s : Int) (addr : HostAddr) (addrlen : Nat)
  | connect (s : Int) (name : HostAddr) (namelen : Nat)
  | sendmsg (s : Int) (msg : msghdr) (flags : Nat)
  | recvmsg (s : Int) (msg : msghdr) (flags : Nat)
  | sendto (s : Int) (msg : Nat) (len : Nat) (flags : Nat) (dest : HostAddr) (tolen : Nat)
  | mmap (addr len prot flags : Nat) (fd : Int) (offset : Int)
  | socket (domain type : Nat) (protocol : Int)
  | socketpair (domain type : Nat) (protocol : Int) (sv : Nat)
  | recv (fd : Int) (buf len : Nat) (flags : Nat)
  | getsockopt (s : Int) (level : Nat) (optname : Int) (optval optlen : Nat)
  | setsockopt (s : Int) (level : Nat) (optname : Int) (optval : Option Mem) (optlen : Nat)
  | fmemopen (buf size : Nat) (mode : String)
  | fwrite (ptr : List Nat) (size nitems : Nat) (stream : Int)
  | rewind (stream : Int)
  | fopen (path mode : String)

/-- What lies outside the translated functions: the answer of the host to each call
(return value and `errno` afterwards, given `errno` before), the message header as a
host `recvmsg` leaves it, and the contents of uninitialised stack storage. -/
structure World where
  syscall : HostCall → Int → Int × Int
  recvmsg_msg : HostCall → msghdr
  stack_in : sockaddr_in
  stack_un : sockaddr_un
  stack_msg : msghdr
  stack_buf : Mem

/-- One run of an entry point: the host calls it issued, in order, and how it ended. -/
structure Run (α : Type) where
  calls : List HostCall
  out : Outcome α

/-- Continue an entry point with the value of a step that issues no host call; when the
step does not return, the entry point ends there, before any host call. -/
def Outcome.andThen {α β : Type} (o : Outcome α) (k : α → Run β) : Run β :=
  match o with
  | .done a => k a
  | .abort => ⟨[], .abort⟩
  | .fault => ⟨[], .fault⟩
  | .fuel => ⟨[], .fuel⟩

/-! ## Entry points of `socket.c` (lines 147-198 and 283-383)

An entry point returns the pair of its return value and the value of `errno` when it
returns. -/

/-- Translation of `shim_bind_impl`. -/
def shim_bind_impl (abi : Abi) (w : World) (errno : Int) (s : Int) (linux_addr : Mem)
    (addrlen : Nat) : Run (Int × Int) :=
  if rd linux_addr 0 2 = abi.LINUX_PF_UNIX then
    (linux_to_native_sockaddr_un abi w.stack_un linux_addr addrlen).andThen fun addr =>
      let c := HostCall.bind s (.un addr) abi.sizeof_sockaddr_un
      ⟨[c], .done (w.syscall c errno)⟩
  else if rd linux_addr 0 2 = abi.LINUX_PF_INET then
    (linux_to_native_sockaddr_in abi w.stack_in linux_addr addrlen).andThen fun addr =>
      let c := HostCall.bind s (.inet addr) abi.sizeof_sockaddr_in
      ⟨[c], .done (w.syscall c errno)⟩
  else ⟨[], .abort⟩

/-- Translation of `shim_connect_impl`. -/
def shim_connect_impl (abi : Abi) (w : World) (errno : Int) (s : Int) (linux_name : Mem)
    (namelen : Nat) : Run (Int × Int) :=
  if rd linux_name 0 2 = abi.LINUX_PF_UNIX then
    (linux_to_native_sockaddr_un abi w.stack_un linux_name namelen).andThen fun addr =>
      let c := HostCall.connect s (.un addr) abi.sizeof_sockaddr_un
      ⟨[c], .done (w.syscall c errno)⟩
  else if rd linux_name 0 2 = abi.LINUX_PF_INET then
    (linux_to_native_sockaddr_in abi w.stack_in linux_name namelen).andThen fun addr =>
      let c := HostCall.connect s (.inet addr) abi.sizeof_sockaddr_in
      ⟨[c], .done (w.syscall c errno)⟩
  else ⟨[], .abort⟩

/-- The tail shared by the message entry points: `if (err == -1) errno =
native_to_linux_errno(errno);`. -/
def translate_errno (abi : Abi) (r : Int × Int) : Int × Int :=
  if r.1 = -1 then (r.1, abi.native_to_linux_errno r.2) else r

/-- Translation of `shim_sendmsg_impl`. -/
def shim_sendmsg_impl (arch : Arch) (abi : Abi) (fuel : Nat) (w : World) (errno : Int)
    (s : Int) (linux_msg : linux_msghdr) (linux_flags : Nat) : Run (Int × Int) :=
  let msg := w.stack_msg
  let msg := { msg with msg_control := some w.stack_buf }
  let msg := { msg with msg_controllen := linux_msg.msg_controllen % 2 ^ 32 }
  (linux_to_native_msghdr arch abi fuel msg linux_msg).andThen fun msg =>
    (linux_to_native_msg_flags abi linux_flags).andThen fun flags =>
      let c := HostCall.sendmsg s msg flags
      ⟨[c], .done (translate_errno abi (w.syscall c errno))⟩

/-- Translation of `shim_recvmsg_impl`; the result carries the guest header as the call
leaves it. -/
def shim_recvmsg_impl (arch : Arch) (abi : Abi) (fuel : Nat) (w : World) (errno : Int)
    (s : Int) (linux_msg : linux_msghdr) (linux_flags : Nat) :
    Run (Int × Int × linux_msghdr) :=
  let msg := w.stack_msg
  let msg := { msg with msg_name := linux_msg.msg_name }
  let msg := { msg with msg_namelen := linux_msg.msg_namelen }
  let msg := { msg with msg_iov := linux_msg.msg_iov }
  let msg := { msg with msg_iovlen := linux_msg.msg_iovlen }
  let msg := { msg with msg_control := some w.stack_buf }
  let msg := { msg with msg_controllen := linux_msg.msg_controllen % 2 ^ 32 }
  (linux_to_native_msg_flags abi linux_msg.msg_flags).andThen fun mflags =>
    let msg := { msg with msg_flags := mflags }
    (linux_to_native_msg_flags abi linux_flags).andThen fun flags =>
      let c := HostCall.recvmsg s msg flags
      let r := w.syscall c errno
      if r.1 ≠ -1 then
        match native_to_linux_msghdr arch abi fuel linux_msg (w.recvmsg_msg c) with
        | .done linux_msg => ⟨[c], .done (r.1, r.2, linux_msg)⟩
        | .abort => ⟨[c], .abort⟩
        | .fault => ⟨[c], .fault⟩
        | .fuel => ⟨[c], .fuel⟩
      else ⟨[c], .done (r.1, abi.native_to_linux_errno r.2, linux_msg)⟩

/-- Translation of `shim_sendto_impl`. -/
def shim_sendto_impl (abi : Abi) (w : World) (errno : Int) (s : Int) (msg len : Nat)
    (linux_flags : Nat) (linux_to : Mem) (tolen : Nat) : Run (Int × Int) :=
  if rd linux_to 0 2 = abi.LINUX_PF_UNIX then
    (linux_to_native_sockaddr_un abi w.stack_un linux_to tolen).andThen fun addr =>
      (linux_to_native_msg_flags abi linux_flags).andThen fun flags =>
        let c := HostCall.sendto s msg len flags (.un addr) abi.sizeof_sockaddr_un
        ⟨[c], .done (translate_errno abi (w.syscall c errno))⟩
  else if rd linux_to 0 2 = abi.LINUX_PF_INET then
    (linux_to_native_sockaddr_in abi w.stack_in linux_to tolen).andThen fun addr =>
      (linux_to_native_msg_flags abi linux_flags).andThen fun flags =>
        let c := HostCall.sendto s msg len flags (.inet addr) abi.sizeof_sockaddr_in
        ⟨[c], .done (translate_errno abi (w.syscall c errno))⟩
  else ⟨[], .abort⟩

/-! ## Sockets, bounds-checked receive and socket options (`socket.c`, lines 37-49,
137-145 and 394-447) -/

/-- Translation of `linux_to_native_sock_type`. -/
def linux_to_native_sock_type (abi : Abi) (linux_type : Nat) : Outcome Nat :=
  if linux_type &&& abi.KNOWN_LINUX_SOCKET_TYPES ≠ linux_type then .abort else
  let type := 0
  let type := orIf linux_type abi.LINUX_SOCK_STREAM abi.SOCK_STREAM type
  let type := orIf linux_type abi.LINUX_SOCK_DGRAM abi.SOCK_DGRAM type
  let type := orIf linux_type abi.LINUX_SOCK_NONBLOCK abi.SOCK_NONBLOCK type
  let type := orIf linux_type abi.LINUX_SOCK_CLOEXEC abi.SOCK_CLOEXEC type
  .done type

/-- Translation of `shim_socket_impl`. -/
def shim_socket_impl (abi : Abi) (w : World) (errno : Int) (domain type : Nat)
    (protocol : Int) : Run (Int × Int) :=
  if ¬ (domain = abi.LINUX_PF_UNIX ∨ domain = abi.LINUX_PF_INET) then ⟨[], .abort⟩ else
  (linux_to_native_sock_type abi type).andThen fun t =>
    let c := HostCall.socket domain t protocol
    ⟨[c], .done (w.syscall c errno)⟩

/-- Translation of `shim_socketpair_impl`. -/
def shim_socketpair_impl (abi : Abi) (w : World) (errno : Int) (domain type : Nat)
    (protocol : Int) (sv : Nat) : Run (Int × Int) :=
  if ¬ (domain = abi.LINUX_PF_UNIX ∨ domain = abi.LINUX_PF_INET) then ⟨[], .abort⟩ else
  (linux_to_native_sock_type abi type).andThen fun t =>
    let c := HostCall.socketpair domain t protocol sv
    ⟨[c], .done (w.syscall c errno)⟩

/-- Translation of `shim___recv_chk_impl`. -/
def shim___recv_chk_impl (w : World) (errno : Int) (fd : Int) (buf len buflen : Nat)
    (flags : Nat) : Run (Int × Int) :=
  if ¬ (len ≤ buflen) then ⟨[], .abort⟩ else
  let c := HostCall.recv fd buf len flags
  ⟨[c], .done (w.syscall c errno)⟩

/-- Translation of `linux_to_native_so_opt`. -/
def linux_to_native_so_opt (abi : Abi) (optname : Int) : Outcome Int :=
  if optname = abi.LINUX_SO_BROADCAST then .done abi.SO_BROADCAST
  else if optname = abi.LINUX_SO_SNDBUF then .done abi.SO_SNDBUF
  else if optname = abi.LINUX_SO_RCVBUF then .done abi.SO_RCVBUF
  else if optname = abi.LINUX_SO_KEEPALIVE then .done abi.SO_KEEPALIVE
  else .abort

/-- Translation of `linux_to_native_tcp_opt`. -/
def linux_to_native_tcp_opt (abi : Abi) (optname : Int) : Outcome Int :=
  if optname = abi.LINUX_TCP_NODELAY then .done abi.TCP_NODELAY
  else if optname = abi.LINUX_TCP_USER_TIMEOUT then .done (-1)
  else .abort

/-- The test `optval && *((int*)optval) == 0`. -/
def optval_is_zero (optval : Option Mem) : Bool :=
  match optval with
  | some m => decide (rd m 0 4 = 0)
  | none => false

/-- Translation of `shim_setsockopt_impl`. -/
def shim_setsockopt_impl (abi : Abi) (w : World) (errno : Int) (s : Int) (linux_level : Nat)
    (linux_optname : Int) (optval : Option Mem) (optlen : Nat) : Run (Int × Int) :=
  if linux_level = abi.LINUX_SOL_SOCKET then
    if linux_optname = abi.LINUX_SO_SNDBUF ∧ optval_is_zero optval = true then
      ⟨[], .done (0, errno)⟩
    else
      (linux_to_native_so_opt abi linux_optname).andThen fun optname =>
        let c := HostCall.setsockopt s abi.SOL_SOCKET optname optval optlen
        ⟨[c], .done (w.syscall c errno)⟩
  else if linux_level = abi.LINUX_SOL_TCP then
    (linux_to_native_tcp_opt abi linux_optname).andThen fun optname =>
      let c := HostCall.setsockopt s abi.IPPROTO_TCP optname optval optlen
      ⟨[c], .done (w.syscall c errno)⟩
  else ⟨[], .abort⟩

/-! ## Memory mapping (`mman.c`) -/

def LINUX_MAP_SHARED : Nat := 0x0001
def LINUX_MAP_PRIVATE : Nat := 0x0002
def LINUX_MAP_FIXED : Nat := 0x0010
def LINUX_MAP_ANON : Nat := 0x0020
def LINUX_MAP_EXECUTABLE : Nat := 0x1000
def LINUX_MAP_NORESERVE : Nat := 0x4000

def KNOWN_LINUX_MMAP_FLAGS : Nat :=
  LINUX_MAP_SHARED ||| LINUX_MAP_PRIVATE ||| LINUX_MAP_FIXED ||| LINUX_MAP_ANON ||| 0x40 |||
  LINUX_MAP_EXECUTABLE ||| LINUX_MAP_NORESERVE

/-- Translation of `shim_mmap64_impl`. The result of the host `mmap` is returned as it
is; the `perror` call on failure only prints. -/
def shim_mmap64_impl (abi : Abi) (w : World) (errno : Int) (addr len prot linux_flags : Nat)
    (fd : Int) (offset : Int) : Run (Int × Int) :=
  if linux_flags &&& KNOWN_LINUX_MMAP_FLAGS ≠ linux_flags then ⟨[], .abort⟩ else
  let flags := 0
  let flags := if linux_flags &&& LINUX_MAP_SHARED ≠ 0 then flags ||| abi.MAP_SHARED else flags
  let flags := if linux_flags &&& LINUX_MAP_PRIVATE ≠ 0
    then (flags ||| abi.MAP_PRIVATE) ||| (if fd = -1 then abi.MAP_ANON else 0) else flags
  let flags := if linux_flags &&& LINUX_MAP_FIXED ≠ 0 then flags ||| abi.MAP_FIXED else flags
  if linux_flags &&& LINUX_MAP_ANON ≠ 0 then
    let flags := flags ||| abi.MAP_ANON
    if ¬ (fd = -1 ∨ fd = 0) then ⟨[], .abort⟩ else
    let fd := -1
    let c := HostCall.mmap addr len prot flags fd offset
    ⟨[c], .done (w.syscall c errno)⟩
  else
    let c := HostCall.mmap addr len prot flags fd offset
    ⟨[c], .done (w.syscall c errno)⟩

/-- Translation of `shim_mmap_impl`. -/
def shim_mmap_impl (abi : Abi) (w : World) (errno : Int) (addr len prot linux_flags : Nat)
    (fd : Int) (offset : Int) : Run (Int × Int) :=
  shim_mmap64_impl abi w errno addr len prot linux_flags fd offset

/-! ## File opening (`stdio.c`, lines 11-38) -/

/-- Modelled from the spec: `str_starts_with` is declared outside the translated
sources; the spec speaks of a path under a reserved path prefix, so the test is that
the second string is an initial part of the first. -/
def str_starts_with (str start : String) : Bool :=
  str.toList.take start.length == start.toList

/-- The array `char str[] = "ModifyDeviceFiles: 0\n"`: the characters of the literal and
the terminator that ends the array. -/
def paramsStr : List Nat :=
  ("ModifyDeviceFiles: 0\n".toList.map Char.toNat) ++ [0]

/-- Translation of `shim_fopen_impl`. A stream is the value the host returned for it;
the entry point returns that value, or 0 for `NULL`, and `errno`. -/
def shim_fopen_impl (abi : Abi) (w : World) (errno : Int) (path mode : String) :
    Run (Int × Int) :=
  if str_starts_with path "/proc/" = true then
    if path = "/proc/driver/nvidia/params" then
      if ¬ (mode = "r") then ⟨[], .abort⟩ else
      let c1 := HostCall.fmemopen 0 paramsStr.length "r+"
      let mem := w.syscall c1 errno
      let c2 := HostCall.fwrite paramsStr 1 paramsStr.length mem.1
      let r2 := w.syscall c2 mem.2
      let c3 := HostCall.rewind mem.1
      let r3 := w.syscall c3 r2.2
      ⟨[c1, c2, c3], .done (mem.1, r3.2)⟩
    else ⟨[], .done (0, abi.EACCES)⟩
  else if str_starts_with path "/sys/" = true then ⟨[], .done (0, abi.EACCES)⟩
  else
    let c := HostCall.fopen path mode
    ⟨[c], .done (w.syscall c errno)⟩

/-! ## Vocabulary of the statements -/

/-- The guest flag word of `mmap` with the chosen ones of the six named bits. -/
def mmapGuestFlags (shared priv fixed anon noreserve executable : Bool) : Nat :=
  (if shared then LINUX_MAP_SHARED else 0) ||| (if priv then LINUX_MAP_PRIVATE else 0) |||
  (if fixed then LINUX_MAP_FIXED else 0) ||| (if anon then LINUX_MAP_ANON else 0) |||
  (if noreserve then LINUX_MAP_NORESERVE else 0) |||
  (if executable then LINUX_MAP_EXECUTABLE else 0)

/-- The host bits that answer the guest bits shared, private, fixed and anonymous when
no descriptor is given: private brings `MAP_ANON` along. -/
def mmapHostFlags (abi : Abi) (shared priv fixed anon : Bool) : Nat :=
  (if shared then abi.MAP_SHARED else 0) |||
  (if priv then abi.MAP_PRIVATE ||| abi.MAP_ANON else 0) |||
  (if fixed then abi.MAP_FIXED else 0) ||| (if anon then abi.MAP_ANON else 0)

/-- The check that `linux_to_native_sockaddr_un` makes on a guest Unix address: the
length is not the guest struct size, or the path is not abstract and no terminator lies
within the first `sizeof(sun_path)` cells of it (it does not fit the host array). -/
@[reducible] def unixRejected (abi : Abi) (addr : Mem) (len : Nat) : Prop :=
  len ≠ abi.sizeof_linux_sockaddr_un ∨
  (addr 2 ≠ 0 ∧ abi.sizeof_sun_path ≤ (cstrN addr 2 abi.sizeof_sun_path).length)

/-- The check that `linux_to_native_sockaddr_in` makes on a guest Inet address. -/
@[reducible] def inetRejected (abi : Abi) (len : Nat) : Prop :=
  len ≠ abi.sizeof_linux_sockaddr_in

/-- A family that the entry points accept: Unix or Inet. -/
@[reducible] def familySupported (abi : Abi) (family : Nat) : Prop :=
  family = abi.LINUX_PF_UNIX ∨ family = abi.LINUX_PF_INET

/-- The size and path condition on a guest address of family Unix or Inet. -/
@[reducible] def addressRejected (abi : Abi) (addr : Mem) (len : Nat) : Prop :=
  if rd addr 0 2 = abi.LINUX_PF_UNIX then unixRejected abi addr len else inetRejected abi len

/-- The offsets of the records that the host macros reach in a control buffer of
length `len`, from the record at offset `off` on: `CMSG_NXTHDR` steps by the aligned
`cmsg_len` (read as the host reads it) while a further header still fits. -/
def cmsgOffsets (arch : Arch) : Nat → Nat → Mem → Nat → List Nat
  | 0, _, _, _ => []
  | fuel + 1, len, m, off =>
    off :: (if off + ALIGN arch (rd m off 4) + ALIGN arch sizeof_cmsghdr > len then []
      else cmsgOffsets arch fuel len m (off + ALIGN arch (rd m off 4)))

/-- The offsets of the records that a walk over a control buffer of length `len` reaches
within `fuel` steps: `CMSG_FIRSTHDR` gives the record at offset 0 when a host record
header fits the buffer and no record otherwise, and `CMSG_NXTHDR` gives the following
ones. -/
def walkOffsets (arch : Arch) (fuel len : Nat) (m : Mem) : List Nat :=
  if len ≥ sizeof_cmsghdr then cmsgOffsets arch fuel len m 0 else []

/-- A descriptor-passing record of the guest at offset `off` of a control buffer of
length `len`: its type is `LINUX_SCM_RIGHTS`, its level is one of the four known
levels, and it holds its header and lies within the buffer. -/
@[reducible] def guestRecordOK (arch : Arch) (abi : Abi) (len : Nat) (m : Mem) (off : Nat) : Prop :=
  rd m (off + arch.word + 4) 4 = abi.LINUX_SCM_RIGHTS ∧
  rd m (off + arch.word) 4 ∈
    [abi.LINUX_SOL_SOCKET, abi.LINUX_SOL_IP, abi.LINUX_SOL_TCP, abi.LINUX_SOL_UDP] ∧
  arch.cmsgData ≤ rd m off arch.word ∧ off + rd m off arch.word ≤ len

/-- What the control-message translators need of the header constants: the four host
levels are pairwise different (they label one `switch`), and the host levels and
`SCM_RIGHTS` are values of a 32-bit `int` field. -/
@[reducible] def Abi.CmsgOK (abi : Abi) : Prop :=
  [abi.SOL_SOCKET, abi.IPPROTO_IP, abi.IPPROTO_TCP, abi.IPPROTO_UDP].Nodup ∧
  ∀ c ∈ [abi.SOL_SOCKET, abi.IPPROTO_IP, abi.IPPROTO_TCP, abi.IPPROTO_UDP, abi.SCM_RIGHTS],
    c < 2 ^ 32

/-- The characters of `"ModifyDeviceFiles: 0\n"`. -/
def paramsText : List Nat :=
  [77, 111, 100, 105, 102, 121, 68, 101, 118, 105, 99, 101, 70, 105, 108, 101, 115, 58, 32,
    48, 10]

/-- A host on which every call succeeds with 0 and leaves `errno` alone; uninitialised
storage holds zeros. -/
def World.idle : World where
  syscall := fun _ e => (0, e)
  recvmsg_msg := fun _ => ⟨none, 0, 0, 0, none, 0, 0⟩
  stack_in := ⟨0, 0, [0, 0], [0, 0, 0, 0], [0, 0, 0, 0, 0, 0, 0, 0]⟩
  stack_un := ⟨0, 0, fun _ => 0⟩
  stack_msg := ⟨none, 0, 0, 0, none, 0, 0⟩
  stack_buf := fun _ => 0

/-- A host on which every call fails with `errno` set to `e`. -/
def World.failing (e : Int) : World :=
  { World.idle with syscall := fun _ _ => (-1, e) }

/-- A host on which every call returns `v` and leaves `errno` alone. -/
def World.answering (v : Int) : World :=
  { World.idle with syscall := fun _ e => (v, e) }

/-- A guest control buffer of 24 bytes for x86_64 with one record: `cmsg_len` 20 (16 and
4 data bytes), level 1, type 1, one descriptor 5. -/
def sampleCmsg : Mem :=
  memOfList [20, 0, 0, 0, 0, 0, 0, 0, 1, 0, 0, 0, 1, 0, 0, 0, 5, 0, 0, 0]

/-- A guest control buffer of 48 bytes for x86_64 with two records: the one of
`sampleCmsg` at offset 0 and, at offset 24, a record with `cmsg_len` 24, level 1,
type 1 and the two descriptors 6 and 7. -/
def sampleChain : Mem :=
  memOfList [20, 0, 0, 0, 0, 0, 0, 0, 1, 0, 0, 0, 1, 0, 0, 0, 5, 0, 0, 0, 0, 0, 0, 0,
    24, 0, 0, 0, 0, 0, 0, 0, 1, 0, 0, 0, 1, 0, 0, 0, 6, 0, 0, 0, 7, 0, 0, 0]

/-- The guest control buffer `sampleChain` with the type of its second record changed
to 2 (credentials). -/
def sampleOtherType : Mem :=
  memOfList [20, 0, 0, 0, 0, 0, 0, 0, 1, 0, 0, 0, 1, 0, 0, 0, 5, 0, 0, 0, 0, 0, 0, 0,
    24, 0, 0, 0, 0, 0, 0, 0, 1, 0, 0, 0, 2, 0, 0, 0, 6, 0, 0, 0, 7, 0, 0, 0]

/-- The host control buffer `sampleHostChain` with the type of its second record changed
to 2. -/
def sampleHostChainOtherType : Mem :=
  memOfList [20, 0, 0, 0, 255, 255, 0, 0, 1, 0, 0, 0, 0, 0, 0, 0, 5, 0, 0, 0, 0, 0, 0, 0,
    24, 0, 0, 0, 255, 255, 0, 0, 2, 0, 0, 0, 0, 0, 0, 0, 6, 0, 0, 0, 7, 0, 0, 0]

/-- A host control buffer of 48 bytes for x86_64 with two records: at offset 0 one with
`cmsg_len` 20, level 0xffff, type 1 and the descriptor 5, and at offset 24 one with
`cmsg_len` 24, level 0xffff, type 1 and the two descriptors 6 and 7. -/
def sampleHostChain : Mem :=
  memOfList [20, 0, 0, 0, 255, 255, 0, 0, 1, 0, 0, 0, 0, 0, 0, 0, 5, 0, 0, 0, 0, 0, 0, 0,
    24, 0, 0, 0, 255, 255, 0, 0, 1, 0, 0, 0, 0, 0, 0, 0, 6, 0, 0, 0, 7, 0, 0, 0]

/-- A guest control buffer of 48 bytes for i386 with four records of `cmsg_len` 12 (a
header and no data), level 1 and type 1. -/
def sampleDense : Mem :=
  memOfList [12, 0, 0, 0, 1, 0, 0, 0, 1, 0, 0, 0, 12, 0, 0, 0, 1, 0, 0, 0, 1, 0, 0, 0,
    12, 0, 0, 0, 1, 0, 0, 0, 1, 0, 0, 0, 12, 0, 0, 0, 1, 0, 0, 0, 1, 0, 0, 0]

/-- A guest Inet address: family 2, port 80, address 127.0.0.1. -/
def sampleInet : Mem :=
  memOfList [2, 0, 0, 80, 127, 0, 0, 1, 0, 0, 0, 0, 0, 0, 0, 0]

/-- The guest Unix address with the abstract name `"myservice"`: family 1, a NUL, the
name. -/
def sampleAbstract : Mem :=
  memOfList [1, 0, 0, 109, 121, 115, 101, 114, 118, 105, 99, 101]

/-- A guest address of a family that is neither Unix nor Inet (10, the guest's Inet6). -/
def sampleOther : Mem :=
  memOfList [10, 0, 0, 80]

/-- The characters of `"/var/run/myservice"`. -/
def varRunMyservice : List Nat :=
  [47, 118, 97, 114, 47, 114, 117, 110, 47, 109, 121, 115, 101, 114, 118, 105, 99, 101]

/-- The guest Unix address with an abstract name of 95 letters `a`; with its terminator
the name lies within the 108 cells of the guest path array. -/
def sampleLongAbstract : Mem :=
  memOfList ([1, 0, 0] ++ List.replicate 95 97)

/-- The guest Unix address with the path `"/tmp/s.sock"`. -/
def sampleTmpSock : Mem :=
  memOfList [1, 0, 47, 116, 109, 112, 47, 115, 46, 115, 111, 99, 107]

/-- The characters of `"/tmp/s.sock"`. -/
def tmpSock : List Nat := [47, 116, 109, 112, 47, 115, 46, 115, 111, 99, 107]

/-- The path string held by a translated host Unix address, if the translation returned. -/
def hostPath (abi : Abi) (o : Outcome sockaddr_un) : Option (List Nat) :=
  match o with
  | .done a => some (cstrN a.sun_path 0 abi.sizeof_sun_path)
  | _ => none

/-- Folding `orIf` over a table of (source bit, output bit) pairs. -/
def orTable (tbl : List (Nat × Nat)) (src acc : Nat) : Nat :=
  tbl.foldl (fun a p => orIf src p.1 p.2 a) acc

/-- A record loop in the shape shared by the two translators: `step` handles the record
at `off`, then `CMSG_NXTHDR` decides whether and where to go on. -/
def recordLoop (arch : Arch) (step : Mem → Nat → Mem → Outcome Mem) :
    Nat → Nat → Mem → Nat → Mem → Outcome Mem
  | 0, _, _, _, _ => .fuel
  | fuel + 1, len, src, off, dst =>
    match step src off dst with
    | .done dst =>
      if off + ALIGN arch (rd src off 4) + ALIGN arch sizeof_cmsghdr > len then .done dst
      else recordLoop arch step fuel len src (off + ALIGN arch (rd src off 4)) dst
    | .abort => .abort
    | .fault => .fault
    | .fuel => .fuel

/-- The body of the record loop of `linux_to_native_msghdr`, up to the `memcpy`. -/
def linux_to_native_record (arch : Arch) (abi : Abi) (src : Mem) (off : Nat) (dst : Mem) :
    Outcome Mem :=
  if rd src (off + arch.word + 4) 4 ≠ abi.LINUX_SCM_RIGHTS then .abort else
  match linux_to_native_sock_level abi (rd src (off + arch.word) 4) with
  | .done level =>
    .done (memcpy (wr (wr (wr dst off 4 (rd src off arch.word)) (off + 4) 4 level)
        (off + 8) 4 abi.SCM_RIGHTS) (off + arch.cmsgData) src (off + arch.cmsgData)
      ((rd src off arch.word + 2 ^ (8 * arch.word) - arch.cmsgData) % 2 ^ (8 * arch.word)))
  | .abort => .abort
  | .fault => .fault
  | .fuel => .fuel

/-- The body of the record loop of `native_to_linux_msghdr`, up to the `memcpy`. -/
def native_to_linux_record (arch : Arch) (abi : Abi) (src : Mem) (off : Nat) (dst : Mem) :
    Outcome Mem :=
  if rd src (off + 8) 4 ≠ abi.SCM_RIGHTS then .abort else
  match native_to_linux_sock_level abi (rd src (off + 4) 4) with
  | .done level =>
    .done (memcpy (wr (wr (wr dst off arch.word (rd src off 4)) (off + arch.word) 4 level)
        (off + arch.word + 4) 4 abi.LINUX_SCM_RIGHTS) (off + arch.cmsgData) src
      (off + arch.cmsgData) ((rd src off 4 + 2 ^ 32 - arch.cmsgData) % 2 ^ 32))
  | .abort => .abort
  | .fault => .fault
  | .fuel => .fuel

/-- The host record written for the guest record at `off` of `src`: same length, the
translated level, the type `SCM_RIGHTS`, the same data cells. -/
def hostRecordOf (arch : Arch) (abi : Abi) (src : Mem) (off : Nat) (d : Mem) : Prop :=
  rd d off 4 = rd src off arch.word ∧
  (∃ level, linux_to_native_sock_level abi (rd src (off + arch.word) 4) = .done level ∧
    rd d (off + 4) 4 = level) ∧
  rd d (off + 8) 4 = abi.SCM_RIGHTS ∧
  ∀ i, off + arch.cmsgData ≤ i → i < off + rd src off arch.word → d i = src i

/-- A descriptor-passing record of the host at offset `off` of a control buffer of
length `len`. -/
def hostRecordOK (arch : Arch) (abi : Abi) (len : Nat) (m : Mem) (off : Nat) : Prop :=
  rd m (off + 8) 4 = abi.SCM_RIGHTS ∧
  (∃ level, native_to_linux_sock_level abi (rd m (off + 4) 4) = .done level ∧ level < 2 ^ 32) ∧
  arch.cmsgData ≤ rd m off 4 ∧ off + rd m off 4 ≤ len

/-- The guest record written for the host record at `off` of `src`. -/
def guestRecordOf (arch : Arch) (abi : Abi) (src : Mem) (off : Nat) (d : Mem) : Prop :=
  rd d off arch.word = rd src off 4 ∧
  (∃ level, native_to_linux_sock_level abi (rd src (off + 4) 4) = .done level ∧
    rd d (off + arch.word) 4 = level) ∧
  rd d (off + arch.word + 4) 4 = abi.LINUX_SCM_RIGHTS % 2 ^ 32 ∧
  ∀ i, off + arch.cmsgData ≤ i → i < off + rd src off 4 → d i = src i

/-! ## Theorems -/

/-! ### Bit tables -/

theorem isBit_iff {x : Nat} (h : isBit x) : ∃ k, x = 2 ^ k := by
  unfold isBit at h
  rcases List.mem_map.1 h with ⟨k, _, hk⟩
  exact ⟨k, hk.symm⟩

theorem and_two_pow_ne_zero_iff (src a : Nat) : src &&& 2 ^ a ≠ 0 ↔ src.testBit a = true := by
  constructor
  · intro h
    rcases Nat.ne_zero_implies_bit_true h with ⟨i, hi⟩
    rw [Nat.testBit_and, Nat.testBit_two_pow] at hi
    simp only [Bool.and_eq_true, decide_eq_true_eq] at hi
    rcases hi with ⟨h1, rfl⟩
    exact h1
  · intro h h0
    have : (src &&& 2 ^ a).testBit a = true := by
      rw [Nat.testBit_and, Nat.testBit_two_pow_self, h]; rfl
    rw [h0] at this
    simp at this

theorem testBit_orTable (tbl : List (Nat × Nat)) (src acc k : Nat) :
    (orTable tbl src acc).testBit k = true ↔
      acc.testBit k = true ∨ ∃ p ∈ tbl, src &&& p.1 ≠ 0 ∧ p.2.testBit k = true := by
  induction tbl generalizing acc with
  | nil => simp [orTable]
  | cons q tl ih =>
    have hstep : orTable (q :: tl) src acc = orTable tl src (orIf src q.1 q.2 acc) := rfl
    rw [hstep, ih]
    unfold orIf
    by_cases hq : src &&& q.1 ≠ 0
    · rw [if_pos hq, Nat.testBit_or]
      simp only [Bool.or_eq_true, List.mem_cons, exists_eq_or_imp]
      tauto
    · rw [if_neg hq]
      simp only [List.mem_cons, exists_eq_or_imp]
      tauto

theorem testBit_foldr_or (l : List Nat) (k : Nat) :
    (l.foldr (fun g acc => g ||| acc) 0).testBit k = true ↔ ∃ g ∈ l, g.testBit k = true := by
  induction l with
  | nil => simp
  | cons g tl ih =>
    simp only [List.foldr_cons, Nat.testBit_or, Bool.or_eq_true, ih, List.mem_cons,
      exists_eq_or_imp]

theorem testBit_orTable_swap (tbl : List (Nat × Nat)) (src k : Nat) :
    (orTable (tbl.map Prod.swap) src 0).testBit k = true ↔
      ∃ p ∈ tbl, src &&& p.2 ≠ 0 ∧ p.1.testBit k = true := by
  rw [testBit_orTable]
  constructor
  · rintro (h | ⟨q, hq, h1, h2⟩)
    · simp at h
    · rcases List.mem_map.1 hq with ⟨p, hp, rfl⟩
      exact ⟨p, hp, h1, h2⟩
  · rintro ⟨p, hp, h1, h2⟩
    exact Or.inr ⟨p.swap, List.mem_map.2 ⟨p, hp, rfl⟩, h1, h2⟩

/-- Translating through a table of single bits and back through the swapped table gives
back every word that lies within the union of the source bits. -/
theorem orTable_roundtrip (tbl : List (Nat × Nat))
    (hbit : ∀ p ∈ tbl, isBit p.1 ∧ isBit p.2)
    (hnd : (tbl.map Prod.snd).Nodup) (f : Nat)
    (hf : f &&& (tbl.map Prod.fst).foldr (fun g acc => g ||| acc) 0 = f) :
    orTable (tbl.map Prod.swap) (orTable tbl f 0) 0 = f := by
  have hinj : ∀ p ∈ tbl, ∀ q ∈ tbl, p.2 = q.2 → p = q :=
    fun p hp q hq h => List.inj_on_of_nodup_map hnd hp hq h
  apply Nat.eq_of_testBit_eq
  intro k
  rw [Bool.eq_iff_iff, testBit_orTable_swap]
  constructor
  · rintro ⟨p, hmem, hne, hk⟩
    rcases isBit_iff (hbit _ hmem).1 with ⟨a, ha⟩
    rcases isBit_iff (hbit _ hmem).2 with ⟨b, hb⟩
    rw [hb, and_two_pow_ne_zero_iff, testBit_orTable] at hne
    simp only [Nat.zero_testBit, Bool.false_eq_true, false_or] at hne
    rcases hne with ⟨q, hq, hqne, hqb⟩
    rcases isBit_iff (hbit _ hq).2 with ⟨b2, hb2⟩
    rw [hb2, Nat.testBit_two_pow] at hqb
    have hbb : b2 = b := by simpa using hqb
    have hqp : q = p := hinj q hq _ hmem (by rw [hb2, hb, hbb])
    rw [hqp, ha, and_two_pow_ne_zero_iff] at hqne
    rw [ha, Nat.testBit_two_pow] at hk
    have hak : a = k := by simpa using hk
    rw [← hak]; exact hqne
  · intro hk
    have hk2 : (f &&& (tbl.map Prod.fst).foldr (fun g acc => g ||| acc) 0).testBit k = true := by
      rw [hf]; exact hk
    rw [Nat.testBit_and, Bool.and_eq_true, testBit_foldr_or] at hk2
    rcases hk2.2 with ⟨g, hg, hgk⟩
    rcases List.mem_map.1 hg with ⟨p, hp, rfl⟩
    rcases isBit_iff (hbit _ hp).1 with ⟨a, ha⟩
    rcases isBit_iff (hbit _ hp).2 with ⟨b, hb⟩
    rw [ha, Nat.testBit_two_pow] at hgk
    have hak : a = k := by simpa using hgk
    refine ⟨p, hp, ?_, ?_⟩
    · rw [hb, and_two_pow_ne_zero_iff, testBit_orTable]
      right
      refine ⟨p, hp, ?_, ?_⟩
      · rw [ha, and_two_pow_ne_zero_iff, hak]; exact hk
      · rw [hb]; exact Nat.testBit_two_pow_self
    · rw [ha, hak]; exact Nat.testBit_two_pow_self

/-- Every bit of a translated word comes from one of the output bits of the table. -/
theorem orTable_subset (tbl : List (Nat × Nat)) (src mask : Nat)
    (h : ∀ p ∈ tbl, p.2 &&& mask = p.2) : orTable tbl src 0 &&& mask = orTable tbl src 0 := by
  apply Nat.eq_of_testBit_eq
  intro k
  rw [Nat.testBit_and]
  cases hk : (orTable tbl src 0).testBit k with
  | false => rfl
  | true =>
    rw [testBit_orTable] at hk
    simp only [Nat.zero_testBit, Bool.false_eq_true, false_or] at hk
    rcases hk with ⟨p, hp, _, hpk⟩
    have := h p hp
    rw [← this, Nat.testBit_and, Bool.and_eq_true] at hpk
    rw [hpk.2]; rfl

/-- A translated word shares no bit with a word that is disjoint from every output bit. -/
theorem orTable_disjoint (tbl : List (Nat × Nat)) (src x : Nat)
    (h : ∀ p ∈ tbl, p.2 &&& x = 0) : orTable tbl src 0 &&& x = 0 := by
  apply Nat.eq_of_testBit_eq
  intro k
  rw [Nat.testBit_and, Nat.zero_testBit]
  cases hk : (orTable tbl src 0).testBit k with
  | false => rfl
  | true =>
    rw [testBit_orTable] at hk
    simp only [Nat.zero_testBit, Bool.false_eq_true, false_or] at hk
    rcases hk with ⟨p, hp, _, hpk⟩
    have h0 : (p.2 &&& x).testBit k = false := by rw [h p hp]; simp
    rw [Nat.testBit_and, hpk] at h0
    simpa using h0

theorem linux_to_native_msg_flags_eq (abi : Abi) (f : Nat)
    (hf : f &&& abi.KNOWN_LINUX_MSG_FLAGS = f) :
    linux_to_native_msg_flags abi f = .done (orTable abi.msgFlagPairs f 0) := by
  unfold linux_to_native_msg_flags
  rw [if_neg (by simpa using hf)]
  rfl

theorem native_to_linux_msg_flags_eq (abi : Abi) (h : Nat)
    (h1 : h &&& abi.KNOWN_NATIVE_MSG_FLAGS = h) (h2 : h &&& abi.MSG_EOF = 0) :
    native_to_linux_msg_flags abi h = .done (orTable (abi.msgFlagPairs.map Prod.swap) h 0) := by
  unfold native_to_linux_msg_flags
  rw [if_neg (by simpa using h1)]
  simp only
  rw [if_neg (by simpa using h2)]
  rfl

/-- A translated guest flag word passes both checks of the reverse translator and is
translated back to the word it came from. -/
theorem native_to_linux_of_linux_to_native (abi : Abi) (hok : abi.MsgFlagsOK) (f : Nat)
    (hf : f &&& abi.KNOWN_LINUX_MSG_FLAGS = f) :
    native_to_linux_msg_flags abi (orTable abi.msgFlagPairs f 0) = .done f := by
  rcases hok with ⟨hall, hnd, hknown⟩
  rw [native_to_linux_msg_flags_eq abi _
    (orTable_subset _ _ _ (fun p hp => (hall p hp).2.2.1))
    (orTable_disjoint _ _ _ (fun p hp => (hall p hp).2.2.2))]
  rw [orTable_roundtrip _ (fun p hp => ⟨(hall p hp).1, (hall p hp).2.1⟩) hnd f
    (by rw [← hknown]; exact hf)]

/-! ### Memory -/

theorem wr_of_mem {m : Mem} {off w v i : Nat} (h1 : off ≤ i) (h2 : i < off + w) :
    wr m off w v i = v / 256 ^ (i - off) % 256 := by
  unfold wr; rw [if_pos ⟨h1, h2⟩]

theorem wr_of_not_mem {m : Mem} {off w v i : Nat} (h : i < off ∨ off + w ≤ i) :
    wr m off w v i = m i := by
  unfold wr; rw [if_neg]; omega

theorem memcpy_of_mem {dst src : Mem} {doff soff n i : Nat} (h1 : doff ≤ i)
    (h2 : i < doff + n) : memcpy dst doff src soff n i = src (soff + (i - doff)) := by
  unfold memcpy; rw [if_pos ⟨h1, h2⟩]

theorem memcpy_of_not_mem {dst src : Mem} {doff soff n i : Nat} (h : i < doff ∨ doff + n ≤ i) :
    memcpy dst doff src soff n i = dst i := by
  unfold memcpy; rw [if_neg]; omega

theorem rd_congr {m m2 : Mem} {w : Nat} : ∀ {off : Nat},
    (∀ i, off ≤ i → i < off + w → m i = m2 i) → rd m off w = rd m2 off w := by
  induction w with
  | zero => intro off _; rfl
  | succ w ih =>
    intro off h
    simp only [rd]
    rw [h off (Nat.le_refl _) (by omega), ih (fun i h1 h2 => h i (by omega) (by omega))]

theorem rd_lt (m : Mem) (w : Nat) : ∀ off, rd m off w < 256 ^ w := by
  induction w with
  | zero => intro off; simp [rd]
  | succ w ih =>
    intro off
    have := ih (off + 1)
    have h256 : m off % 256 < 256 := Nat.mod_lt _ (by decide)
    simp only [rd, Nat.pow_succ]
    omega

theorem rd_wr_same (m : Mem) (w : Nat) : ∀ off v, rd (wr m off w v) off w = v % 256 ^ w := by
  induction w with
  | zero => intro off v; simp [rd, Nat.mod_one]
  | succ w ih =>
    intro off v
    have hrest : rd (wr m off (w + 1) v) (off + 1) w = rd (wr m (off + 1) w (v / 256)) (off + 1) w := by
      apply rd_congr
      intro i h1 h2
      rw [wr_of_mem (by omega) (by omega), wr_of_mem h1 h2]
      have : i - off = (i - (off + 1)) + 1 := by omega
      rw [this, Nat.pow_succ, Nat.mul_comm, Nat.div_div_eq_div_mul]
    simp only [rd]
    rw [hrest, ih, wr_of_mem (Nat.le_refl _) (by omega)]
    simp only [Nat.sub_self, Nat.pow_zero, Nat.div_one, Nat.mod_mod]
    rw [Nat.pow_succ, Nat.mul_comm (256 ^ w) 256, Nat.mod_mul]

theorem rd_wr_other {m : Mem} {off w v off2 w2 : Nat} (h : off2 + w2 ≤ off ∨ off + w ≤ off2) :
    rd (wr m off w v) off2 w2 = rd m off2 w2 := by
  apply rd_congr
  intro i h1 h2
  exact wr_of_not_mem (by omega)

theorem rd_memcpy_other {dst src : Mem} {doff soff n off2 w2 : Nat}
    (h : off2 + w2 ≤ doff ∨ doff + n ≤ off2) :
    rd (memcpy dst doff src soff n) off2 w2 = rd dst off2 w2 := by
  apply rd_congr
  intro i h1 h2
  exact memcpy_of_not_mem (by omega)

theorem rd_add (m : Mem) (a b : Nat) : ∀ off,
    rd m off (a + b) = rd m off a + 256 ^ a * rd m (off + a) b := by
  induction a with
  | zero => intro off; simp [rd]
  | succ a ih =>
    intro off
    have : a + 1 + b = (a + b) + 1 := by omega
    rw [this]
    simp only [rd]
    rw [ih (off + 1), Nat.pow_succ]
    have : off + 1 + a = off + (a + 1) := by omega
    rw [this]
    ring

theorem length_bytes (m : Mem) (off n : Nat) : (bytes m off n).length = n := by
  simp [bytes]

theorem getD_bytes (m : Mem) (off n k : Nat) (h : k < n) : (bytes m off n).getD k 0 = m (off + k) := by
  simp [bytes, h]

theorem bytes_congr {m m2 : Mem} {off n : Nat}
    (h : ∀ i, off ≤ i → i < off + n → m i = m2 i) : bytes m off n = bytes m2 off n := by
  unfold bytes
  apply List.map_congr_left
  intro k hk
  rw [List.mem_range] at hk
  exact h _ (by omega) (by omega)

theorem wrBytes_of_mem {m : Mem} {off : Nat} {l : List Nat} {i : Nat} (h1 : off ≤ i)
    (h2 : i < off + l.length) : wrBytes m off l i = l.getD (i - off) 0 := by
  unfold wrBytes; rw [if_pos ⟨h1, h2⟩]

theorem wrBytes_of_not_mem {m : Mem} {off : Nat} {l : List Nat} {i : Nat}
    (h : i < off ∨ off + l.length ≤ i) : wrBytes m off l i = m i := by
  unfold wrBytes; rw [if_neg]; omega

/-- Cells stored from a window of another memory read back as that window. -/
theorem bytes_wrBytes_bytes (m src : Mem) (off soff n : Nat) :
    bytes (wrBytes m off (bytes src soff n)) off n = bytes src soff n := by
  unfold bytes
  apply List.map_congr_left
  intro k hk
  rw [List.mem_range] at hk
  have hlen : ((List.range n).map (fun k => src (soff + k))).length = n := by simp
  rw [wrBytes_of_mem (by omega) (by rw [hlen]; omega)]
  have : off + k - off = k := by omega
  rw [this]
  simp [hk]

/-! ### Strings -/

theorem bytes_add (m : Mem) (off a b : Nat) :
    bytes m off (a + b) = bytes m off a ++ bytes m (off + a) b := by
  unfold bytes
  rw [List.range_add, List.map_append, List.map_map]
  congr 1
  apply List.map_congr_left
  intro k _
  simp [Nat.add_assoc]

theorem bytes_eq_of_getD (m : Mem) (off : Nat) (l : List Nat)
    (h : ∀ k, k < l.length → m (off + k) = l.getD k 0) : bytes m off l.length = l := by
  apply List.ext_getElem
  · exact length_bytes _ _ _
  · intro k h1 h2
    have := h k h2
    rw [List.getD_eq_getElem _ _ h2] at this
    simp [bytes, this]

theorem getD_of_bytes_eq {m : Mem} {off : Nat} {l : List Nat} (h : bytes m off l.length = l)
    {k : Nat} (hk : k < l.length) : m (off + k) = l.getD k 0 := by
  have := getD_bytes m off l.length k hk
  rw [h] at this
  exact this.symm

/-- A memory that holds the nonzero characters `p` and then a terminator holds the C
string `p`, whatever the bound of the scan beyond it. -/
theorem cstrN_eq (m : Mem) (off : Nat) (p : List Nat) (bound : Nat)
    (h : bytes m off (p.length + 1) = p ++ [0]) (hnz : ∀ c ∈ p, c ≠ 0)
    (hb : p.length < bound) : cstrN m off bound = p := by
  have hsplit : bound = (p.length + 1) + (bound - (p.length + 1)) := by omega
  unfold cstrN
  rw [hsplit, bytes_add, h, List.append_assoc]
  rw [List.takeWhile_append_of_pos (by intro c hc; simpa using hnz c hc)]
  simp

/-- The effect of `strlcpy` on a source string that fits the destination. -/
theorem strlcpy_fits (dst src : Mem) (doff soff dsize : Nat) (p : List Nat)
    (h : bytes src soff (p.length + 1) = p ++ [0]) (hnz : ∀ c ∈ p, c ≠ 0)
    (hb : p.length < dsize) :
    (strlcpy dst doff src soff dsize).2 = p.length ∧
    bytes (strlcpy dst doff src soff dsize).1 doff (p.length + 1) = p ++ [0] ∧
    ∀ i, i < doff → (strlcpy dst doff src soff dsize).1 i = dst i := by
  have hc := cstrN_eq src soff p dsize h hnz hb
  have hk : min p.length (dsize - 1) = p.length := by omega
  have hd : dsize ≠ 0 := by omega
  refine ⟨by simp [strlcpy, hc], ?_, ?_⟩
  · have hl : (p ++ [0]).length = p.length + 1 := by simp
    rw [← hl]
    apply bytes_eq_of_getD
    intro k hklt
    rw [hl] at hklt
    simp only [strlcpy, hc, hk, if_neg hd]
    by_cases hkp : k < p.length
    · rw [if_pos ⟨by omega, by omega⟩]
      have : doff + k - doff = k := by omega
      rw [this]
      have hl2 : k < (p ++ [0]).length := by rw [hl]; omega
      rw [← hl] at h
      exact getD_of_bytes_eq h hl2
    · have hkeq : k = p.length := by omega
      rw [if_neg (by omega), if_pos (by omega), hkeq]
      simp
  · intro i hi
    simp only [strlcpy, hc, hk, if_neg hd]
    rw [if_neg (by omega), if_neg (by omega)]

/-- The effect of the `snprintf` call on a name that, after `"/var/run/"` and with its
terminator, fits the destination. -/
theorem snprintf_var_run_fits (dst src : Mem) (size soff : Nat) (n : List Nat)
    (h : bytes src soff (n.length + 1) = n ++ [0]) (hnz : ∀ c ∈ n, c ≠ 0)
    (hb : 9 + n.length < size) :
    bytes (snprintf_var_run dst size src soff) 0 ((varRun ++ n).length + 1)
      = (varRun ++ n) ++ [0] := by
  have hc := cstrN_eq src soff n size h hnz (by omega)
  have hlen : (varRun ++ n).length = 9 + n.length := by
    rw [List.length_append]; simp [varRun]
  generalize hs : varRun ++ n = s at hlen ⊢
  have hk : min s.length (size - 1) = s.length := by omega
  have hd : size ≠ 0 := by omega
  have hl : (s ++ [0]).length = s.length + 1 := by
    rw [List.length_append]; rfl
  rw [← hl]
  apply bytes_eq_of_getD
  intro k hklt
  rw [hl] at hklt
  simp only [snprintf_var_run, hc, hs, hk, if_neg hd, Nat.zero_add]
  by_cases hkp : k < s.length
  · rw [if_pos hkp, List.getD_append _ _ _ _ hkp]
  · have hkeq : k = s.length := by omega
    rw [if_neg hkp, if_pos hkeq, hkeq, List.getD_append_right _ _ _ _ (Nat.le_refl _)]
    simp

theorem varRun_ne_zero : ∀ c ∈ varRun, c ≠ 0 := by decide

/-- A scan that stops before the end of a string of nonzero characters reads as many
characters as its bound. -/
theorem length_cstrN_of_le (m : Mem) (off : Nat) (p : List Nat) (bound : Nat)
    (h : bytes m off (p.length + 1) = p ++ [0]) (hnz : ∀ c ∈ p, c ≠ 0)
    (hb : bound ≤ p.length) : (cstrN m off bound).length = bound := by
  have hall : ∀ x ∈ bytes m off bound, (fun c => decide (c ≠ 0)) x = true := by
    intro x hx
    unfold bytes at hx
    rcases List.mem_map.1 hx with ⟨k, hk, rfl⟩
    rw [List.mem_range] at hk
    have hl : (p ++ [0]).length = p.length + 1 := by
      rw [List.length_append]; rfl
    rw [← hl] at h
    have hcell := getD_of_bytes_eq h (k := k) (by rw [hl]; omega)
    rw [List.getD_append _ _ _ _ (by omega), List.getD_eq_getElem _ _ (by omega)] at hcell
    have := hnz _ (List.getElem_mem (by omega : k < p.length))
    simp only [ne_eq, decide_not, Bool.not_eq_true', decide_eq_false_iff_not]
    rw [hcell]; exact this
  unfold cstrN
  rw [List.takeWhile_eq_self_iff.2 hall, length_bytes]

/-! ### Address checks -/

theorem linux_to_native_sockaddr_un_cases (abi : Abi) (dest : sockaddr_un) (src : Mem)
    (len : Nat) :
    (unixRejected abi src len ∧ linux_to_native_sockaddr_un abi dest src len = .abort) ∨
    (¬ unixRejected abi src len ∧ ∃ a, linux_to_native_sockaddr_un abi dest src len = .done a) := by
  unfold linux_to_native_sockaddr_un unixRejected
  by_cases hlen : len = abi.sizeof_linux_sockaddr_un
  · rw [if_neg (by simpa using hlen)]
    simp only
    by_cases h0 : src 2 = 0
    · rw [if_pos h0]
      exact Or.inr ⟨by simp [hlen, h0], _, rfl⟩
    · rw [if_neg h0]
      by_cases hfit : (strlcpy dest.sun_path 0 src 2 abi.sizeof_sun_path).2 < abi.sizeof_sun_path
      · rw [if_neg (by simpa using hfit)]
        refine Or.inr ⟨?_, _, rfl⟩
        simp only [strlcpy] at hfit
        simp [hlen]
        intro _; exact hfit
      · rw [if_pos hfit]
        refine Or.inl ⟨Or.inr ⟨h0, ?_⟩, rfl⟩
        simp only [strlcpy] at hfit
        omega
  · rw [if_pos hlen]
    exact Or.inl ⟨Or.inl hlen, rfl⟩

theorem linux_to_native_sockaddr_in_cases (abi : Abi) (dest : sockaddr_in) (src : Mem)
    (len : Nat) :
    (inetRejected abi len ∧ linux_to_native_sockaddr_in abi dest src len = .abort) ∨
    (¬ inetRejected abi len ∧ ∃ a, linux_to_native_sockaddr_in abi dest src len = .done a) := by
  unfold linux_to_native_sockaddr_in inetRejected
  by_cases hlen : len = abi.sizeof_linux_sockaddr_in
  · rw [if_neg (by simpa using hlen)]
    exact Or.inr ⟨by simpa using hlen, _, rfl⟩
  · rw [if_pos hlen]
    exact Or.inl ⟨hlen, rfl⟩

theorem linux_to_native_msg_flags_cases (abi : Abi) (f : Nat) :
    (f &&& abi.KNOWN_LINUX_MSG_FLAGS ≠ f ∧ linux_to_native_msg_flags abi f = .abort) ∨
    (f &&& abi.KNOWN_LINUX_MSG_FLAGS = f ∧ ∃ h, linux_to_native_msg_flags abi f = .done h) := by
  by_cases hf : f &&& abi.KNOWN_LINUX_MSG_FLAGS = f
  · exact Or.inr ⟨hf, _, linux_to_native_msg_flags_eq abi f hf⟩
  · refine Or.inl ⟨hf, ?_⟩
    unfold linux_to_native_msg_flags
    rw [if_pos hf]

/-! ### Record loops -/

theorem linux_to_native_cmsgs_eq (arch : Arch) (abi : Abi) (fuel len : Nat) (src : Mem) :
    ∀ (off : Nat) (dst : Mem), linux_to_native_cmsgs arch abi fuel len src off dst
      = recordLoop arch (linux_to_native_record arch abi) fuel len src off dst := by
  induction fuel with
  | zero => intro off dst; rfl
  | succ fuel ih =>
    intro off dst
    simp only [linux_to_native_cmsgs, recordLoop, linux_to_native_record]
    by_cases ht : rd src (off + arch.word + 4) 4 = abi.LINUX_SCM_RIGHTS
    · simp only [ht, ne_eq, not_true_eq_false, if_false]
      cases linux_to_native_sock_level abi (rd src (off + arch.word) 4) with
      | done level => simp only [ih]
      | abort => rfl
      | fault => rfl
      | fuel => rfl
    · simp only [ne_eq, ht, not_false_eq_true, if_true]

theorem native_to_linux_cmsgs_eq (arch : Arch) (abi : Abi) (fuel len : Nat) (src : Mem) :
    ∀ (off : Nat) (dst : Mem), native_to_linux_cmsgs arch abi fuel len src off dst
      = recordLoop arch (native_to_linux_record arch abi) fuel len src off dst := by
  induction fuel with
  | zero => intro off dst; rfl
  | succ fuel ih =>
    intro off dst
    simp only [native_to_linux_cmsgs, recordLoop, native_to_linux_record]
    by_cases ht : rd src (off + 8) 4 = abi.SCM_RIGHTS
    · simp only [ht, ne_eq, not_true_eq_false, if_false]
      cases native_to_linux_sock_level abi (rd src (off + 4) 4) with
      | done level => simp only [ih]
      | abort => rfl
      | fault => rfl
      | fuel => rfl
    · simp only [ne_eq, ht, not_false_eq_true, if_true]

/-- The record loop returns when every record it reaches is handled by `step`, which
writes only within the aligned extent of the record and establishes `Post` there; the
cells before the first record are left alone and `Post` holds at every record. -/
theorem recordLoop_done (arch : Arch) (step : Mem → Nat → Mem → Outcome Mem) (len : Nat)
    (src : Mem) (Good : Nat → Prop) (Post : Nat → Mem → Prop)
    (hstep : ∀ o d, Good o → ∃ d1, step src o d = .done d1 ∧
      (∀ i, i < o ∨ o + ALIGN arch (rd src o 4) ≤ i → d1 i = d i) ∧ Post o d1)
    (hlocal : ∀ o d d2, Good o → Post o d →
      (∀ i, o ≤ i → i < o + ALIGN arch (rd src o 4) → d2 i = d i) → Post o d2)
    (hprog : ∀ o, Good o → 0 < ALIGN arch (rd src o 4)) :
    ∀ (fuel off : Nat) (dst : Mem), len < off + fuel → off + ALIGN arch sizeof_cmsghdr ≤ len →
      (∀ o ∈ cmsgOffsets arch fuel len src off, Good o) →
      ∃ d, recordLoop arch step fuel len src off dst = .done d ∧
        (∀ i, i < off → d i = dst i) ∧
        ∀ o ∈ cmsgOffsets arch fuel len src off, Post o d := by
  intro fuel
  induction fuel with
  | zero =>
    intro off dst h1 h2 _
    exfalso; omega
  | succ fuel ih =>
    intro off dst h1 h2 hgood
    have hg : Good off := hgood off (by simp [cmsgOffsets])
    obtain ⟨d1, hd1, hframe, hpost⟩ := hstep off dst hg
    have hp := hprog off hg
    simp only [recordLoop, hd1, cmsgOffsets]
    by_cases hstop : off + ALIGN arch (rd src off 4) + ALIGN arch sizeof_cmsghdr > len
    · rw [if_pos hstop]
      refine ⟨d1, rfl, fun i hi => hframe i (Or.inl hi), ?_⟩
      intro o ho
      rw [if_pos hstop] at ho
      simp only [List.mem_singleton, List.mem_cons, List.not_mem_nil, or_false] at ho
      rw [ho]; exact hpost
    · rw [if_neg hstop]
      have hgood2 : ∀ o ∈ cmsgOffsets arch fuel len src (off + ALIGN arch (rd src off 4)),
          Good o := by
        intro o ho
        apply hgood o
        simp only [cmsgOffsets, if_neg hstop, List.mem_cons]
        exact Or.inr ho
      obtain ⟨d, hd, hbefore, hall⟩ :=
        ih (off + ALIGN arch (rd src off 4)) d1 (by omega) (by omega) hgood2
      refine ⟨d, hd, fun i hi => ?_, ?_⟩
      · rw [hbefore i (by omega)]
        exact hframe i (Or.inl hi)
      · intro o ho
        rw [if_neg hstop] at ho
        rcases List.mem_cons.1 ho with h | h
        · rw [h]
          exact hlocal off d1 d hg hpost (fun i _ hi2 => hbefore i hi2)
        · exact hall o h

/-- The list of record offsets depends only on the `cmsg_len` fields at those offsets. -/
theorem cmsgOffsets_congr (arch : Arch) (len : Nat) (m m2 : Mem) :
    ∀ (fuel off : Nat), (∀ o ∈ cmsgOffsets arch fuel len m off, rd m2 o 4 = rd m o 4) →
      cmsgOffsets arch fuel len m2 off = cmsgOffsets arch fuel len m off := by
  intro fuel
  induction fuel with
  | zero => intro off _; rfl
  | succ fuel ih =>
    intro off h
    have h0 : rd m2 off 4 = rd m off 4 := h off (by simp [cmsgOffsets])
    simp only [cmsgOffsets, h0]
    by_cases hstop : off + ALIGN arch (rd m off 4) + ALIGN arch sizeof_cmsghdr > len
    · simp only [if_pos hstop]
    · simp only [if_neg hstop]
      congr 1
      apply ih
      intro o ho
      apply h o
      simp only [cmsgOffsets, if_neg hstop, List.mem_cons]
      exact Or.inr ho

/-! ### Records -/

theorem le_ALIGN (arch : Arch) (n : Nat) : n ≤ ALIGN arch n := by
  cases arch <;> simp only [ALIGN, Arch.word] <;> omega

theorem ALIGN_sizeof_cmsghdr (arch : Arch) : ALIGN arch sizeof_cmsghdr = arch.cmsgData := by
  cases arch <;> rfl

theorem cmsgData_ge (arch : Arch) : 12 ≤ arch.cmsgData := by
  cases arch <;> simp [Arch.cmsgData]

theorem word_add_eight_le (arch : Arch) : arch.word + 8 ≤ arch.cmsgData := by
  cases arch <;> simp [Arch.cmsgData, Arch.word]

theorem rd_four_of_word (arch : Arch) (m : Mem) (off : Nat) (h : rd m off arch.word < 2 ^ 32) :
    rd m off 4 = rd m off arch.word := by
  cases arch with
  | i386 => rfl
  | x86_64 =>
    have h1 := rd_add m 4 4 off
    have h2 := rd_lt m 4 off
    simp only [Arch.word] at h ⊢
    norm_num at h h1 h2 ⊢
    omega

theorem rd_word_of_lt (arch : Arch) (m : Mem) (off v : Nat) (h : v < 2 ^ 32) :
    rd (wr m off arch.word v) off arch.word = v := by
  rw [rd_wr_same]
  cases arch <;> simp only [Arch.word] <;> norm_num at h ⊢ <;> omega

theorem copy_len_guest (arch : Arch) (l : Nat) (h1 : arch.cmsgData ≤ l) (h2 : l < 2 ^ 32) :
    (l + 2 ^ (8 * arch.word) - arch.cmsgData) % 2 ^ (8 * arch.word) = l - arch.cmsgData := by
  cases arch <;> simp only [Arch.word, Arch.cmsgData] at h1 ⊢ <;> norm_num at h2 ⊢ <;> omega

theorem copy_len_host (arch : Arch) (l : Nat) (h1 : arch.cmsgData ≤ l) (h2 : l < 2 ^ 32) :
    (l + 2 ^ 32 - arch.cmsgData) % 2 ^ 32 = l - arch.cmsgData := by
  cases arch <;> simp only [Arch.cmsgData] at h1 ⊢ <;> norm_num at h2 ⊢ <;> omega

theorem linux_to_native_sock_level_of_mem (abi : Abi) (x : Nat)
    (h : x ∈ [abi.LINUX_SOL_SOCKET, abi.LINUX_SOL_IP, abi.LINUX_SOL_TCP, abi.LINUX_SOL_UDP]) :
    ∃ level, linux_to_native_sock_level abi x = .done level ∧
      level ∈ [abi.SOL_SOCKET, abi.IPPROTO_IP, abi.IPPROTO_TCP, abi.IPPROTO_UDP] := by
  unfold linux_to_native_sock_level
  by_cases h1 : x = abi.LINUX_SOL_SOCKET
  · exact ⟨_, by rw [if_pos h1], by simp⟩
  · by_cases h2 : x = abi.LINUX_SOL_IP
    · exact ⟨_, by rw [if_neg h1, if_pos h2], by simp⟩
    · by_cases h3 : x = abi.LINUX_SOL_TCP
      · exact ⟨_, by rw [if_neg h1, if_neg h2, if_pos h3], by simp⟩
      · by_cases h4 : x = abi.LINUX_SOL_UDP
        · exact ⟨_, by rw [if_neg h1, if_neg h2, if_neg h3, if_pos h4], by simp⟩
        · simp only [List.mem_cons, List.mem_singleton, List.not_mem_nil, or_false] at h
          tauto

/-- The host levels label one `switch`, so the reverse translator undoes the forward one. -/
theorem native_to_linux_of_linux_to_native_sock_level (abi : Abi)
    (hd : [abi.SOL_SOCKET, abi.IPPROTO_IP, abi.IPPROTO_TCP, abi.IPPROTO_UDP].Nodup)
    (x level : Nat) (h : linux_to_native_sock_level abi x = .done level) :
    native_to_linux_sock_level abi level = .done x := by
  simp only [List.nodup_cons, List.mem_cons, List.mem_singleton, List.not_mem_nil, or_false,
    not_or, List.nodup_nil, and_true, not_false_eq_true] at hd
  obtain ⟨⟨a1, a2, a3⟩, ⟨b1, b2⟩, c1⟩ := hd
  unfold linux_to_native_sock_level at h
  unfold native_to_linux_sock_level
  by_cases h1 : x = abi.LINUX_SOL_SOCKET
  · rw [if_pos h1] at h
    injection h with h; rw [← h, if_pos rfl, h1]
  · rw [if_neg h1] at h
    by_cases h2 : x = abi.LINUX_SOL_IP
    · rw [if_pos h2] at h
      injection h with h
      rw [← h, if_neg (Ne.symm a1), if_pos rfl, h2]
    · rw [if_neg h2] at h
      by_cases h3 : x = abi.LINUX_SOL_TCP
      · rw [if_pos h3] at h
        injection h with h
        rw [← h, if_neg (Ne.symm a2), if_neg (Ne.symm b1), if_pos rfl, h3]
      · rw [if_neg h3] at h
        by_cases h4 : x = abi.LINUX_SOL_UDP
        · rw [if_pos h4] at h
          injection h with h
          rw [← h, if_neg (Ne.symm a3), if_neg (Ne.symm b2), if_neg (Ne.symm c1), if_pos rfl, h4]
        · rw [if_neg h4] at h
          cases h

theorem mod_two_pow_32 (v : Nat) (h : v < 2 ^ 32) : v % 256 ^ 4 = v :=
  Nat.mod_eq_of_lt (by norm_num at h ⊢; omega)

theorem linux_to_native_record_ok (arch : Arch) (abi : Abi) (hok : abi.CmsgOK) (len : Nat)
    (hlen : len < 2 ^ 32) (src : Mem) (o : Nat) (d : Mem)
    (hg : guestRecordOK arch abi len src o) :
    ∃ d1, linux_to_native_record arch abi src o d = .done d1 ∧
      (∀ i, i < o ∨ o + ALIGN arch (rd src o 4) ≤ i → d1 i = d i) ∧
      hostRecordOf arch abi src o d1 := by
  obtain ⟨ht, hl, hH, hin⟩ := hg
  have hl32 : rd src o arch.word < 2 ^ 32 := by omega
  have h4 := rd_four_of_word arch src o hl32
  obtain ⟨level, hlev, hmem⟩ := linux_to_native_sock_level_of_mem abi _ hl
  have hlev32 : level < 2 ^ 32 := hok.2 level (by
    simp only [List.mem_cons, List.mem_singleton, List.not_mem_nil, or_false] at hmem ⊢
    tauto)
  have hscm : abi.SCM_RIGHTS < 2 ^ 32 := hok.2 _ (by simp)
  have hA := le_ALIGN arch (rd src o 4)
  have hH12 := cmsgData_ge arch
  have hstep : linux_to_native_record arch abi src o d = .done
      (memcpy (wr (wr (wr d o 4 (rd src o arch.word)) (o + 4) 4 level) (o + 8) 4 abi.SCM_RIGHTS)
        (o + arch.cmsgData) src (o + arch.cmsgData) (rd src o arch.word - arch.cmsgData)) := by
    unfold linux_to_native_record
    rw [if_neg (by simpa using ht)]
    simp only [hlev, copy_len_guest arch _ hH hl32]
  refine ⟨_, hstep, ?_, ?_, ⟨level, hlev, ?_⟩, ?_, ?_⟩
  · intro i hi
    rw [memcpy_of_not_mem (by omega), wr_of_not_mem (by omega), wr_of_not_mem (by omega),
      wr_of_not_mem (by omega)]
  · rw [rd_memcpy_other (by omega), rd_wr_other (by omega), rd_wr_other (by omega), rd_wr_same,
      mod_two_pow_32 _ hl32]
  · rw [rd_memcpy_other (by omega), rd_wr_other (by omega), rd_wr_same, mod_two_pow_32 _ hlev32]
  · rw [rd_memcpy_other (by omega), rd_wr_same, mod_two_pow_32 _ hscm]
  · intro i h1 h2
    rw [memcpy_of_mem h1 (by omega)]
    congr 1
    omega

theorem hostRecordOf_local (arch : Arch) (abi : Abi) (len : Nat) (hlen : len < 2 ^ 32)
    (src : Mem) (o : Nat) (d d2 : Mem) (hg : guestRecordOK arch abi len src o)
    (hp : hostRecordOf arch abi src o d)
    (hagree : ∀ i, o ≤ i → i < o + ALIGN arch (rd src o 4) → d2 i = d i) :
    hostRecordOf arch abi src o d2 := by
  obtain ⟨_, _, hH, hin⟩ := hg
  have hl32 : rd src o arch.word < 2 ^ 32 := by omega
  have h4 := rd_four_of_word arch src o hl32
  have hA := le_ALIGN arch (rd src o 4)
  have hH12 := cmsgData_ge arch
  obtain ⟨p1, ⟨level, p2, p3⟩, p4, p5⟩ := hp
  refine ⟨?_, ⟨level, p2, ?_⟩, ?_, ?_⟩
  · rw [← p1]; exact rd_congr (fun i h1 h2 => hagree i (by omega) (by omega))
  · rw [← p3]; exact rd_congr (fun i h1 h2 => hagree i (by omega) (by omega))
  · rw [← p4]; exact rd_congr (fun i h1 h2 => hagree i (by omega) (by omega))
  · intro i h1 h2
    rw [hagree i (by omega) (by omega)]
    exact p5 i h1 h2

theorem native_to_linux_record_ok (arch : Arch) (abi : Abi) (len : Nat)
    (hlen : len < 2 ^ 32) (src : Mem) (o : Nat) (d : Mem)
    (hg : hostRecordOK arch abi len src o) :
    ∃ d1, native_to_linux_record arch abi src o d = .done d1 ∧
      (∀ i, i < o ∨ o + ALIGN arch (rd src o 4) ≤ i → d1 i = d i) ∧
      guestRecordOf arch abi src o d1 := by
  obtain ⟨ht, ⟨level, hlev, hlev32⟩, hH, hin⟩ := hg
  have hl32 : rd src o 4 < 2 ^ 32 := by omega
  have hA := le_ALIGN arch (rd src o 4)
  have hH12 := cmsgData_ge arch
  have hw := word_add_eight_le arch
  have hstep : native_to_linux_record arch abi src o d = .done
      (memcpy (wr (wr (wr d o arch.word (rd src o 4)) (o + arch.word) 4 level)
          (o + arch.word + 4) 4 abi.LINUX_SCM_RIGHTS)
        (o + arch.cmsgData) src (o + arch.cmsgData) (rd src o 4 - arch.cmsgData)) := by
    unfold native_to_linux_record
    rw [if_neg (by simpa using ht)]
    simp only [hlev, copy_len_host arch _ hH hl32]
  refine ⟨_, hstep, ?_, ?_, ⟨level, hlev, ?_⟩, ?_, ?_⟩
  · intro i hi
    rw [memcpy_of_not_mem (by omega), wr_of_not_mem (by omega), wr_of_not_mem (by omega),
      wr_of_not_mem (by omega)]
  · rw [rd_memcpy_other (by omega), rd_wr_other (by omega), rd_wr_other (by omega),
      rd_word_of_lt arch _ _ _ hl32]
  · rw [rd_memcpy_other (by omega), rd_wr_other (by omega), rd_wr_same, mod_two_pow_32 _ hlev32]
  · rw [rd_memcpy_other (by omega), rd_wr_same]
    norm_num
  · intro i h1 h2
    rw [memcpy_of_mem h1 (by omega)]
    congr 1
    omega

theorem guestRecordOf_local (arch : Arch) (abi : Abi) (len : Nat) (src : Mem) (o : Nat)
    (d d2 : Mem) (hg : hostRecordOK arch abi len src o)
    (hp : guestRecordOf arch abi src o d)
    (hagree : ∀ i, o ≤ i → i < o + ALIGN arch (rd src o 4) → d2 i = d i) :
    guestRecordOf arch abi src o d2 := by
  obtain ⟨_, _, hH, hin⟩ := hg
  have hA := le_ALIGN arch (rd src o 4)
  have hw := word_add_eight_le arch
  obtain ⟨p1, ⟨level, p2, p3⟩, p4, p5⟩ := hp
  refine ⟨?_, ⟨level, p2, ?_⟩, ?_, ?_⟩
  · rw [← p1]; exact rd_congr (fun i h1 h2 => hagree i (by omega) (by omega))
  · rw [← p3]; exact rd_congr (fun i h1 h2 => hagree i (by omega) (by omega))
  · rw [← p4]; exact rd_congr (fun i h1 h2 => hagree i (by omega) (by omega))
  · intro i h1 h2
    rw [hagree i (by omega) (by omega)]
    exact p5 i h1 h2

/-! ### Message headers -/

theorem linux_to_native_cmsgs_done (arch : Arch) (abi : Abi) (hok : abi.CmsgOK) (len : Nat)
    (hlen : len < 2 ^ 32) (src : Mem) (fuel : Nat) (dst : Mem) (hfuel : len < fuel)
    (hall : ∀ o ∈ cmsgOffsets arch fuel len src 0, guestRecordOK arch abi len src o) :
    ∃ d, linux_to_native_cmsgs arch abi fuel len src 0 dst = .done d ∧
      ∀ o ∈ cmsgOffsets arch fuel len src 0, hostRecordOf arch abi src o d := by
  have h0 : guestRecordOK arch abi len src 0 := by
    apply hall
    cases fuel with
    | zero => omega
    | succ f => simp [cmsgOffsets]
  have hroom : 0 + ALIGN arch sizeof_cmsghdr ≤ len := by
    obtain ⟨_, _, hH, hin⟩ := h0
    rw [ALIGN_sizeof_cmsghdr]; omega
  rw [linux_to_native_cmsgs_eq]
  obtain ⟨d, hd, _, hpost⟩ := recordLoop_done arch (linux_to_native_record arch abi) len src
    (guestRecordOK arch abi len src) (hostRecordOf arch abi src)
    (fun o d hg => linux_to_native_record_ok arch abi hok len hlen src o d hg)
    (fun o d d2 hg hp hagree => hostRecordOf_local arch abi len hlen src o d d2 hg hp hagree)
    (fun o hg => by
      obtain ⟨_, _, hH, hin⟩ := hg
      have h4 := rd_four_of_word arch src o (by omega)
      have hA := le_ALIGN arch (rd src o 4)
      have := cmsgData_ge arch
      omega)
    fuel 0 dst (by omega) hroom hall
  exact ⟨d, hd, hpost⟩

theorem native_to_linux_cmsgs_done (arch : Arch) (abi : Abi) (len : Nat)
    (hlen : len < 2 ^ 32) (src : Mem) (fuel : Nat) (dst : Mem) (hfuel : len < fuel)
    (hall : ∀ o ∈ cmsgOffsets arch fuel len src 0, hostRecordOK arch abi len src o) :
    ∃ d, native_to_linux_cmsgs arch abi fuel len src 0 dst = .done d ∧
      ∀ o ∈ cmsgOffsets arch fuel len src 0, guestRecordOf arch abi src o d := by
  have h0 : hostRecordOK arch abi len src 0 := by
    apply hall
    cases fuel with
    | zero => omega
    | succ f => simp [cmsgOffsets]
  have hroom : 0 + ALIGN arch sizeof_cmsghdr ≤ len := by
    obtain ⟨_, _, hH, hin⟩ := h0
    rw [ALIGN_sizeof_cmsghdr]; omega
  rw [native_to_linux_cmsgs_eq]
  obtain ⟨d, hd, _, hpost⟩ := recordLoop_done arch (native_to_linux_record arch abi) len src
    (hostRecordOK arch abi len src) (guestRecordOf arch abi src)
    (fun o d hg => native_to_linux_record_ok arch abi len hlen src o d hg)
    (fun o d d2 hg hp hagree => guestRecordOf_local arch abi len src o d d2 hg hp hagree)
    (fun o hg => by
      obtain ⟨_, _, hH, hin⟩ := hg
      have hA := le_ALIGN arch (rd src o 4)
      have := cmsgData_ge arch
      omega)
    fuel 0 dst (by omega) hroom hall
  exact ⟨d, hd, hpost⟩

/-- The forward translation of a header, once its flags pass, the destination is large
enough and the record loop returns. -/
theorem linux_to_native_msghdr_done (arch : Arch) (abi : Abi) (fuel : Nat) (msg : msghdr)
    (linux_msg : linux_msghdr) (src buf d : Mem)
    (hflags : linux_msg.msg_flags &&& abi.KNOWN_LINUX_MSG_FLAGS = linux_msg.msg_flags)
    (hsrc : linux_msg.msg_control = some src) (hbuf : msg.msg_control = some buf)
    (hfirst : sizeof_cmsghdr ≤ linux_msg.msg_controllen)
    (hcap : linux_msg.msg_controllen ≤ msg.msg_controllen)
    (hcap32 : msg.msg_controllen < 2 ^ 32)
    (hwalk : linux_to_native_cmsgs arch abi fuel linux_msg.msg_controllen src 0
      (memset0 buf linux_msg.msg_controllen) = .done d) :
    linux_to_native_msghdr arch abi fuel msg linux_msg = .done
      ⟨linux_msg.msg_name, linux_msg.msg_namelen, linux_msg.msg_iov, linux_msg.msg_iovlen,
        some d, linux_msg.msg_controllen, orTable abi.msgFlagPairs linux_msg.msg_flags 0⟩ := by
  have hpos : linux_msg.msg_controllen > 0 := by
    have : sizeof_cmsghdr = 12 := rfl
    omega
  have hmod : linux_msg.msg_controllen % 2 ^ 32 = linux_msg.msg_controllen :=
    Nat.mod_eq_of_lt (by omega)
  unfold linux_to_native_msghdr
  simp only [linux_to_native_msg_flags_eq abi _ hflags, if_pos hpos, hbuf, hsrc,
    ge_iff_le, hcap, not_true_eq_false, if_false, if_pos hfirst, hwalk, hmod]

/-- The reverse translation of a header, once its flags pass, the destination is large
enough and the record loop returns. -/
theorem native_to_linux_msghdr_done (arch : Arch) (abi : Abi) (fuel : Nat)
    (linux_msg : linux_msghdr) (msg : msghdr) (src buf d : Mem) (f : Nat)
    (hflags : native_to_linux_msg_flags abi msg.msg_flags = .done f)
    (hsrc : msg.msg_control = some src) (hbuf : linux_msg.msg_control = some buf)
    (hfirst : sizeof_cmsghdr ≤ msg.msg_controllen)
    (hcap : msg.msg_controllen ≤ linux_msg.msg_controllen)
    (hwalk : native_to_linux_cmsgs arch abi fuel msg.msg_controllen src 0
      (memset0 buf msg.msg_controllen) = .done d) :
    native_to_linux_msghdr arch abi fuel linux_msg msg = .done
      ⟨msg.msg_name, msg.msg_namelen, msg.msg_iov, msg.msg_iovlen,
        some d, msg.msg_controllen, f⟩ := by
  have hpos : msg.msg_controllen > 0 := by
    have : sizeof_cmsghdr = 12 := rfl
    omega
  unfold native_to_linux_msghdr
  simp only [hflags, if_pos hpos, hbuf, hsrc, ge_iff_le, hcap, not_true_eq_false, if_false,
    if_pos hfirst, hwalk]

/-! ### Records of another type -/

theorem linux_to_native_record_cases (arch : Arch) (abi : Abi) (src : Mem) (o : Nat) (d : Mem) :
    linux_to_native_record arch abi src o d = .abort ∨
    (rd src (o + arch.word + 4) 4 = abi.LINUX_SCM_RIGHTS ∧
      ∃ d1, linux_to_native_record arch abi src o d = .done d1) := by
  unfold linux_to_native_record linux_to_native_sock_level
  by_cases ht : rd src (o + arch.word + 4) 4 = abi.LINUX_SCM_RIGHTS
  · rw [if_neg (not_not.mpr ht)]
    split_ifs <;> simp [ht]
  · rw [if_pos ht]
    exact Or.inl rfl

theorem native_to_linux_record_cases (arch : Arch) (abi : Abi) (src : Mem) (o : Nat) (d : Mem) :
    native_to_linux_record arch abi src o d = .abort ∨
    (rd src (o + 8) 4 = abi.SCM_RIGHTS ∧
      ∃ d1, native_to_linux_record arch abi src o d = .done d1) := by
  unfold native_to_linux_record native_to_linux_sock_level
  by_cases ht : rd src (o + 8) 4 = abi.SCM_RIGHTS
  · rw [if_neg (not_not.mpr ht)]
    split_ifs <;> simp [ht]
  · rw [if_pos ht]
    exact Or.inl rfl

/-- The record loop aborts when one of the records it reaches within its fuel is not
`Good`, provided `step` aborts on such a record and otherwise aborts or returns. -/
theorem recordLoop_abort (arch : Arch) (step : Mem → Nat → Mem → Outcome Mem) (len : Nat)
    (src : Mem) (Good : Nat → Prop)
    (hstep : ∀ o d, step src o d = .abort ∨ (Good o ∧ ∃ d1, step src o d = .done d1)) :
    ∀ (fuel off : Nat) (dst : Mem),
      (∃ o ∈ cmsgOffsets arch fuel len src off, ¬ Good o) →
      recordLoop arch step fuel len src off dst = .abort := by
  intro fuel
  induction fuel with
  | zero =>
    rintro off dst ⟨o, ho, _⟩
    simp [cmsgOffsets] at ho
  | succ fuel ih =>
    rintro off dst ⟨o, ho, hbad⟩
    rcases hstep off dst with habort | ⟨hgood, d1, hd1⟩
    · simp only [recordLoop, habort]
    · simp only [recordLoop, hd1]
      simp only [cmsgOffsets, List.mem_cons] at ho
      rcases ho with rfl | ho
      · exact absurd hgood hbad
      · by_cases hstop : off + ALIGN arch (rd src off 4) + ALIGN arch sizeof_cmsghdr > len
        · rw [if_pos hstop] at ho
          simp at ho
        · rw [if_neg hstop] at ho
          rw [if_neg hstop]
          exact ih _ d1 ⟨o, ho, hbad⟩

/-- The forward translation of a header aborts when the record loop is entered and
aborts. -/
theorem linux_to_native_msghdr_abort (arch : Arch) (abi : Abi) (fuel : Nat) (msg : msghdr)
    (linux_msg : linux_msghdr) (src buf : Mem)
    (hsrc : linux_msg.msg_control = some src) (hbuf : msg.msg_control = some buf)
    (hfirst : sizeof_cmsghdr ≤ linux_msg.msg_controllen)
    (hwalk : ∀ d, linux_to_native_cmsgs arch abi fuel linux_msg.msg_controllen src 0 d
      = .abort) :
    linux_to_native_msghdr arch abi fuel msg linux_msg = .abort := by
  have hpos : linux_msg.msg_controllen > 0 := by
    have : sizeof_cmsghdr = 12 := rfl
    omega
  unfold linux_to_native_msghdr
  rcases linux_to_native_msg_flags_cases abi linux_msg.msg_flags with ⟨_, he⟩ | ⟨_, h, he⟩
  · simp only [he]
  · simp only [he, if_pos hpos, hbuf, hsrc, ge_iff_le, if_pos hfirst, hwalk]
    split_ifs <;> rfl

/-- The reverse translation of a header aborts when the record loop is entered and
aborts. -/
theorem native_to_linux_msghdr_abort (arch : Arch) (abi : Abi) (fuel : Nat)
    (linux_msg : linux_msghdr) (msg : msghdr) (src buf : Mem)
    (hsrc : msg.msg_control = some src) (hbuf : linux_msg.msg_control = some buf)
    (hfirst : sizeof_cmsghdr ≤ msg.msg_controllen)
    (hwalk : ∀ d, native_to_linux_cmsgs arch abi fuel msg.msg_controllen src 0 d = .abort) :
    native_to_linux_msghdr arch abi fuel linux_msg msg = .abort := by
  have hpos : msg.msg_controllen > 0 := by
    have : sizeof_cmsghdr = 12 := rfl
    omega
  unfold native_to_linux_msghdr
  cases he : native_to_linux_msg_flags abi msg.msg_flags with
  | done f =>
    simp only [if_pos hpos, hbuf, hsrc, ge_iff_le, if_pos hfirst, hwalk]
    split_ifs <;> rfl
  | abort => rfl
  | fault =>
    exfalso
    unfold native_to_linux_msg_flags at he
    split_ifs at he
  | fuel =>
    exfalso
    unfold native_to_linux_msg_flags at he
    split_ifs at he

/-! ### Families -/

theorem linux_to_native_sock_type_cases (abi : Abi) (t : Nat) :
    (t &&& abi.KNOWN_LINUX_SOCKET_TYPES ≠ t ∧ linux_to_native_sock_type abi t = .abort) ∨
    (t &&& abi.KNOWN_LINUX_SOCKET_TYPES = t ∧ ∃ h, linux_to_native_sock_type abi t = .done h) := by
  unfold linux_to_native_sock_type
  by_cases ht : t &&& abi.KNOWN_LINUX_SOCKET_TYPES = t
  · exact Or.inr ⟨ht, _, by rw [if_neg (by simpa using ht)]⟩
  · exact Or.inl ⟨ht, by rw [if_pos ht]⟩

/-! ### Memory mapping -/

theorem or_and_right_self (x a : Nat) : (x ||| a) &&& a = a := by
  apply Nat.eq_of_testBit_eq
  intro k
  rw [Nat.testBit_and, Nat.testBit_or]
  cases a.testBit k <;> simp

/-- The run of `shim_mmap64_impl` on a flag word within the known mask that has the
anonymous bit: it ends at the descriptor `assert` or calls the host with descriptor -1
and `MAP_ANON`. -/
theorem shim_mmap64_impl_anon (abi : Abi) (w : World) (errno : Int)
    (addr len prot linux_flags : Nat) (fd offset : Int)
    (hk : linux_flags &&& KNOWN_LINUX_MMAP_FLAGS = linux_flags)
    (ha : linux_flags &&& LINUX_MAP_ANON ≠ 0) :
    ((fd = -1 ∨ fd = 0) ∧ ∃ flags,
        (shim_mmap64_impl abi w errno addr len prot linux_flags fd offset).calls
          = [HostCall.mmap addr len prot flags (-1) offset] ∧
        flags &&& abi.MAP_ANON = abi.MAP_ANON) ∨
    (¬ (fd = -1 ∨ fd = 0) ∧
      (shim_mmap64_impl abi w errno addr len prot linux_flags fd offset).out = .abort ∧
      (shim_mmap64_impl abi w errno addr len prot linux_flags fd offset).calls = []) := by
  unfold shim_mmap64_impl
  rw [if_neg (by simpa using hk)]
  simp only [if_pos ha]
  by_cases hfd : fd = -1 ∨ fd = 0
  · left
    refine ⟨hfd, ?_⟩
    rw [if_neg (not_not.mpr hfd)]
    exact ⟨_, rfl, or_and_right_self _ _⟩
  · right
    refine ⟨hfd, ?_⟩
    rw [if_pos hfd]
    exact ⟨rfl, rfl⟩

/-- The run of `shim_mmap64_impl` ends at its first `assert` exactly when the flag word
leaves the known mask, once the descriptor passes the `assert` of the anonymous case. -/
theorem shim_mmap64_impl_abort_iff (abi : Abi) (w : World) (errno : Int)
    (addr len prot linux_flags : Nat) (fd offset : Int)
    (hfd : linux_flags &&& LINUX_MAP_ANON ≠ 0 → fd = -1 ∨ fd = 0) :
    ((shim_mmap64_impl abi w errno addr len prot linux_flags fd offset).out = .abort ∧
      (shim_mmap64_impl abi w errno addr len prot linux_flags fd offset).calls = []) ↔
    linux_flags &&& KNOWN_LINUX_MMAP_FLAGS ≠ linux_flags := by
  unfold shim_mmap64_impl
  by_cases hk : linux_flags &&& KNOWN_LINUX_MMAP_FLAGS = linux_flags
  · rw [if_neg (by simpa using hk)]
    by_cases ha : linux_flags &&& LINUX_MAP_ANON ≠ 0
    · simp only [if_pos ha]
      rw [if_neg (not_not.mpr (hfd ha))]
      simp [hk]
    · simp only [if_neg ha]
      simp [hk]
  · rw [if_pos hk]
    simp [hk]

/-! ### File opening -/

/-- A path under `"/proc/"` is not under `"/sys/"`. -/
theorem str_starts_with_proc_not_sys (path : String)
    (h : str_starts_with path "/proc/" = true) : str_starts_with path "/sys/" = false := by
  unfold str_starts_with at h ⊢
  have h1 : path.toList.take 6 = "/proc/".toList := by simpa using h
  have h2 : path.toList.take 5 = (path.toList.take 6).take 5 := by
    rw [List.take_take]; rfl
  rw [h1] at h2
  have h3 : "/sys/".length = 5 := by decide
  rw [h3, h2]
  decide

/-! ### End of the record walk -/

theorem memset0_of_le (m : Mem) (n i : Nat) (h : n ≤ i) : memset0 m n i = m i := by
  simp only [memset0, if_neg (Nat.not_lt.mpr h)]

/-- The walk never goes back: every offset it reaches from `off` on is at least `off`. -/
theorem cmsgOffsets_ge (arch : Arch) (len : Nat) (m : Mem) :
    ∀ (fuel off o : Nat), o ∈ cmsgOffsets arch fuel len m off → off ≤ o := by
  intro fuel
  induction fuel with
  | zero => intro off o h; simp [cmsgOffsets] at h
  | succ fuel ih =>
    intro off o h
    simp only [cmsgOffsets, List.mem_cons] at h
    rcases h with rfl | h
    · exact le_rfl
    · by_cases hstop : off + ALIGN arch (rd m off 4) + ALIGN arch sizeof_cmsghdr > len
      · rw [if_pos hstop] at h; simp at h
      · rw [if_neg hstop] at h
        have := ih _ o h
        omega

/-- The offsets of the walk increase strictly when no record it reaches has the length
field zero. -/
theorem cmsgOffsets_pairwise (arch : Arch) (len : Nat) (m : Mem) :
    ∀ (fuel off : Nat), (∀ o ∈ cmsgOffsets arch fuel len m off, 0 < rd m o 4) →
      (cmsgOffsets arch fuel len m off).Pairwise (· < ·) := by
  intro fuel
  induction fuel with
  | zero => intro off _; simp [cmsgOffsets]
  | succ fuel ih =>
    intro off h
    have h0 : 0 < rd m off 4 := h off (by simp [cmsgOffsets])
    have hA := le_ALIGN arch (rd m off 4)
    simp only [cmsgOffsets]
    by_cases hstop : off + ALIGN arch (rd m off 4) + ALIGN arch sizeof_cmsghdr > len
    · rw [if_pos hstop]; simp
    · rw [if_neg hstop, List.pairwise_cons]
      constructor
      · intro o ho
        have := cmsgOffsets_ge arch len m fuel _ o ho
        omega
      · apply ih
        intro o ho
        apply h o
        simp only [cmsgOffsets, if_neg hstop, List.mem_cons]
        exact Or.inr ho

/-- Records of at least the header size, the first of which has room for its header, take
up the header size each: as many header sizes as there are records fit the buffer. -/
theorem cmsgOffsets_length (arch : Arch) (len : Nat) (m : Mem) :
    ∀ (fuel off : Nat), off + arch.cmsgData ≤ len →
      (∀ o ∈ cmsgOffsets arch fuel len m off, arch.cmsgData ≤ rd m o 4) →
      off + (cmsgOffsets arch fuel len m off).length * arch.cmsgData ≤ len := by
  intro fuel
  induction fuel with
  | zero => intro off hroom _; simp only [cmsgOffsets, List.length_nil]; omega
  | succ fuel ih =>
    intro off hroom h
    have h0 : arch.cmsgData ≤ rd m off 4 := h off (by simp [cmsgOffsets])
    have hA := le_ALIGN arch (rd m off 4)
    have hS := ALIGN_sizeof_cmsghdr arch
    simp only [cmsgOffsets]
    by_cases hstop : off + ALIGN arch (rd m off 4) + ALIGN arch sizeof_cmsghdr > len
    · rw [if_pos hstop]; simp only [List.length_cons, List.length_nil]; omega
    · rw [if_neg hstop]
      have := ih (off + ALIGN arch (rd m off 4)) (by omega) (by
        intro o ho
        apply h o
        simp only [cmsgOffsets, if_neg hstop, List.mem_cons]
        exact Or.inr ho)
      simp only [List.length_cons, Nat.succ_mul]
      omega

/-- The record loop ends, by an abort or by returning, within as many steps as header
sizes exceed the buffer, when `step` aborts or returns on every record reached and leaves
the cells from `len` on alone, and every record reached is at least a header long. -/
theorem recordLoop_ends (arch : Arch) (step : Mem → Nat → Mem → Outcome Mem) (len : Nat)
    (src : Mem) (Good : Nat → Prop)
    (hstep : ∀ o d, Good o → step src o d = .abort ∨
      ∃ d1, step src o d = .done d1 ∧ ∀ i, len ≤ i → d1 i = d i)
    (hprog : ∀ o, Good o → arch.cmsgData ≤ rd src o 4) :
    ∀ (fuel off : Nat) (dst : Mem), off + arch.cmsgData ≤ len →
      len < off + fuel * arch.cmsgData →
      (∀ o ∈ cmsgOffsets arch fuel len src off, Good o) →
      recordLoop arch step fuel len src off dst = .abort ∨
      ∃ d, recordLoop arch step fuel len src off dst = .done d ∧
        ∀ i, len ≤ i → d i = dst i := by
  intro fuel
  induction fuel with
  | zero => intro off dst h1 h2 _; exfalso; omega
  | succ fuel ih =>
    intro off dst h1 h2 hgood
    have hg : Good off := hgood off (by simp [cmsgOffsets])
    have hp := hprog off hg
    have hA := le_ALIGN arch (rd src off 4)
    have hS := ALIGN_sizeof_cmsghdr arch
    rcases hstep off dst hg with habort | ⟨d1, hd1, hframe⟩
    · left; simp only [recordLoop, habort]
    · simp only [recordLoop, hd1]
      by_cases hstop : off + ALIGN arch (rd src off 4) + ALIGN arch sizeof_cmsghdr > len
      · rw [if_pos hstop]
        exact Or.inr ⟨d1, rfl, hframe⟩
      · rw [if_neg hstop]
        rw [Nat.succ_mul] at h2
        rcases ih (off + ALIGN arch (rd src off 4)) d1 (by omega) (by omega) (by
          intro o ho
          apply hgood o
          simp only [cmsgOffsets, if_neg hstop, List.mem_cons]
          exact Or.inr ho) with h | ⟨d, hd, hfr⟩
        · exact Or.inl h
        · exact Or.inr ⟨d, hd, fun i hi => by rw [hfr i hi, hframe i hi]⟩

/-- The body of the forward loop, on a record that holds its header and lies within the
first `len` cells: it aborts, or returns with the cells from `len` on as they were. -/
theorem linux_to_native_record_frame (arch : Arch) (abi : Abi) (len : Nat)
    (hlen : len < 2 ^ 32) (src : Mem) (o : Nat) (d : Mem)
    (hH : arch.cmsgData ≤ rd src o arch.word) (hin : o + rd src o arch.word ≤ len) :
    linux_to_native_record arch abi src o d = .abort ∨
    ∃ d1, linux_to_native_record arch abi src o d = .done d1 ∧ ∀ i, len ≤ i → d1 i = d i := by
  have hl32 : rd src o arch.word < 2 ^ 32 := by omega
  have hH12 := cmsgData_ge arch
  have hc := copy_len_guest arch _ hH hl32
  unfold linux_to_native_record linux_to_native_sock_level
  simp only [hc]
  by_cases ht : rd src (o + arch.word + 4) 4 = abi.LINUX_SCM_RIGHTS
  · rw [if_neg (not_not.mpr ht)]
    split_ifs
    all_goals first
      | exact Or.inl rfl
      | exact Or.inr ⟨_, rfl, fun i hi => by
          rw [memcpy_of_not_mem (by omega), wr_of_not_mem (by omega), wr_of_not_mem (by omega),
            wr_of_not_mem (by omega)]⟩
  · rw [if_pos ht]
    exact Or.inl rfl

/-- The body of the reverse loop, on a record that holds its header and lies within the
first `len` cells: it aborts, or returns with the cells from `len` on as they were. -/
theorem native_to_linux_record_frame (arch : Arch) (abi : Abi) (len : Nat)
    (src : Mem) (o : Nat) (d : Mem)
    (hH : arch.cmsgData ≤ rd src o 4) (hin : o + rd src o 4 ≤ len) :
    native_to_linux_record arch abi src o d = .abort ∨
    ∃ d1, native_to_linux_record arch abi src o d = .done d1 ∧ ∀ i, len ≤ i → d1 i = d i := by
  have hl32 : rd src o 4 < 2 ^ 32 := by
    have := rd_lt src 4 o
    norm_num at this ⊢
    exact this
  have hw := word_add_eight_le arch
  have hc := copy_len_host arch _ hH hl32
  unfold native_to_linux_record native_to_linux_sock_level
  simp only [hc]
  by_cases ht : rd src (o + 8) 4 = abi.SCM_RIGHTS
  · rw [if_neg (not_not.mpr ht)]
    split_ifs
    all_goals first
      | exact Or.inl rfl
      | exact Or.inr ⟨_, rfl, fun i hi => by
          rw [memcpy_of_not_mem (by omega), wr_of_not_mem (by omega), wr_of_not_mem (by omega),
            wr_of_not_mem (by omega)]⟩
  · rw [if_pos ht]
    exact Or.inl rfl

/-- The forward translation of a header with a control buffer ends as its record loop
does: it aborts, or returns a header whose control buffer differs from the one given only
within the first `msg_controllen` cells. -/
theorem linux_to_native_msghdr_ends (arch : Arch) (abi : Abi) (fuel : Nat) (msg : msghdr)
    (linux_msg : linux_msghdr) (src buf : Mem)
    (hsrc : linux_msg.msg_control = some src) (hbuf : msg.msg_control = some buf)
    (hpos : 0 < linux_msg.msg_controllen)
    (hwalk : sizeof_cmsghdr ≤ linux_msg.msg_controllen →
      linux_msg.msg_controllen ≤ msg.msg_controllen → ∀ d,
      linux_to_native_cmsgs arch abi fuel linux_msg.msg_controllen src 0 d = .abort ∨
      ∃ d1, linux_to_native_cmsgs arch abi fuel linux_msg.msg_controllen src 0 d = .done d1 ∧
        ∀ i, linux_msg.msg_controllen ≤ i → d1 i = d i) :
    linux_to_native_msghdr arch abi fuel msg linux_msg = .abort ∨
    ∃ out dst, linux_to_native_msghdr arch abi fuel msg linux_msg = .done out ∧
      out.msg_control = some dst ∧ ∀ i, linux_msg.msg_controllen ≤ i → dst i = buf i := by
  unfold linux_to_native_msghdr
  rcases linux_to_native_msg_flags_cases abi linux_msg.msg_flags with ⟨_, he⟩ | ⟨_, h, he⟩
  · left; simp only [he]
  · simp only [he, if_pos hpos, hbuf, hsrc, ge_iff_le]
    by_cases hcap : linux_msg.msg_controllen ≤ msg.msg_controllen
    · rw [if_neg (not_not.mpr hcap)]
      by_cases hfirst : sizeof_cmsghdr ≤ linux_msg.msg_controllen
      · simp only [if_pos hfirst]
        rcases hwalk hfirst hcap (memset0 buf linux_msg.msg_controllen) with h | ⟨d1, h, hfr⟩
        · left; simp only [h]
        · right
          simp only [h]
          exact ⟨_, d1, rfl, rfl, fun i hi => by rw [hfr i hi, memset0_of_le _ _ _ hi]⟩
      · simp only [if_neg hfirst]
        exact Or.inr ⟨_, _, rfl, rfl, fun i hi => memset0_of_le _ _ _ hi⟩
    · rw [if_pos hcap]
      exact Or.inl rfl

/-- The reverse translation of a header with a control buffer ends as its record loop
does: it aborts, or returns a header whose control buffer differs from the one given only
within the first `msg_controllen` cells. -/
theorem native_to_linux_msghdr_ends (arch : Arch) (abi : Abi) (fuel : Nat)
    (linux_msg : linux_msghdr) (msg : msghdr) (src buf : Mem)
    (hsrc : msg.msg_control = some src) (hbuf : linux_msg.msg_control = some buf)
    (hpos : 0 < msg.msg_controllen)
    (hwalk : sizeof_cmsghdr ≤ msg.msg_controllen → ∀ d,
      native_to_linux_cmsgs arch abi fuel msg.msg_controllen src 0 d = .abort ∨
      ∃ d1, native_to_linux_cmsgs arch abi fuel msg.msg_controllen src 0 d = .done d1 ∧
        ∀ i, msg.msg_controllen ≤ i → d1 i = d i) :
    native_to_linux_msghdr arch abi fuel linux_msg msg = .abort ∨
    ∃ out dst, native_to_linux_msghdr arch abi fuel linux_msg msg = .done out ∧
      out.msg_control = some dst ∧ ∀ i, msg.msg_controllen ≤ i → dst i = buf i := by
  unfold native_to_linux_msghdr
  cases he : native_to_linux_msg_flags abi msg.msg_flags with
  | done f =>
    simp only [if_pos hpos, hbuf, hsrc, ge_iff_le]
    by_cases hcap : msg.msg_controllen ≤ linux_msg.msg_controllen
    · rw [if_neg (not_not.mpr hcap)]
      by_cases hfirst : sizeof_cmsghdr ≤ msg.msg_controllen
      · simp only [if_pos hfirst]
        rcases hwalk hfirst (memset0 buf msg.msg_controllen) with h | ⟨d1, h, hfr⟩
        · left; simp only [h]
        · right
          simp only [h]
          exact ⟨_, d1, rfl, rfl, fun i hi => by rw [hfr i hi, memset0_of_le _ _ _ hi]⟩
      · simp only [if_neg hfirst]
        exact Or.inr ⟨_, _, rfl, rfl, fun i hi => memset0_of_le _ _ _ hi⟩
    · rw [if_pos hcap]
      exact Or.inl rfl
  | abort => exact Or.inl rfl
  | fault =>
    exfalso
    unfold native_to_linux_msg_flags at he
    split_ifs at he
  | fuel =>
    exfalso
    unfold native_to_linux_msg_flags at he
    split_ifs at he

/-! ## The claims -/

/-- C3: for every guest message-flag word `f` within `KNOWN_LINUX_MSG_FLAGS`, the
translation to the host returns a word, and translating that word back neither aborts
nor changes anything: the result is `f`. The header constants are assumed to be what
`Abi.MsgFlagsOK` says. -/
theorem C3_msg_flags_roundtrip (abi : Abi) (hok : abi.MsgFlagsOK) (f : Nat)
    (hf : f &&& abi.KNOWN_LINUX_MSG_FLAGS = f) :
    ∃ h, linux_to_native_msg_flags abi f = .done h ∧
      native_to_linux_msg_flags abi h = .done f :=
  ⟨_, linux_to_native_msg_flags_eq abi f hf, native_to_linux_of_linux_to_native abi hok f hf⟩

/-- C3, at the guest word `MSG_PEEK | MSG_DONTWAIT | MSG_NOSIGNAL` with the FreeBSD
constants. -/
theorem C3_msg_flags_roundtrip_witness :
    freebsd.MsgFlagsOK ∧ 0x4042 &&& freebsd.KNOWN_LINUX_MSG_FLAGS = 0x4042 ∧
    ∃ h, linux_to_native_msg_flags freebsd 0x4042 = .done h ∧
      native_to_linux_msg_flags freebsd h = .done 0x4042 :=
  ⟨by decide, by decide, C3_msg_flags_roundtrip freebsd (by decide) 0x4042 (by decide)⟩

/-- C4, refuted as stated: with descriptor -1 the guest word private | no-reserve and
the guest word private | executable reach the host `mmap` with the same flag word as
private alone, `MAP_PRIVATE | MAP_ANON`: no host bit answers no-reserve or executable. -/
theorem C4_mmap_flags_counterexample :
    (shim_mmap64_impl freebsd World.idle 0 0 4096 3
        (LINUX_MAP_PRIVATE ||| LINUX_MAP_NORESERVE) (-1) 0).calls
      = [HostCall.mmap 0 4096 3 (freebsd.MAP_PRIVATE ||| freebsd.MAP_ANON) (-1) 0] ∧
    (shim_mmap64_impl freebsd World.idle 0 0 4096 3
        (LINUX_MAP_PRIVATE ||| LINUX_MAP_EXECUTABLE) (-1) 0).calls
      = [HostCall.mmap 0 4096 3 (freebsd.MAP_PRIVATE ||| freebsd.MAP_ANON) (-1) 0] ∧
    (shim_mmap64_impl freebsd World.idle 0 0 4096 3 LINUX_MAP_PRIVATE (-1) 0).calls
      = [HostCall.mmap 0 4096 3 (freebsd.MAP_PRIVATE ||| freebsd.MAP_ANON) (-1) 0] :=
  ⟨rfl, rfl, rfl⟩

/-- C4, amended: for every combination of the six guest bits with descriptor -1, the host
`mmap` is called once, with descriptor -1 and with the flag word made of `MAP_SHARED`
for shared, `MAP_PRIVATE | MAP_ANON` for private, `MAP_FIXED` for fixed and `MAP_ANON`
for anonymous; no-reserve and executable add nothing. When private is set the word
contains `MAP_ANON`. -/
theorem C4_mmap_flags (abi : Abi) (w : World) (errno : Int) (addr len prot : Nat)
    (offset : Int) (shared priv fixed anon noreserve executable : Bool) :
    (shim_mmap64_impl abi w errno addr len prot
        (mmapGuestFlags shared priv fixed anon noreserve executable) (-1) offset).calls
      = [HostCall.mmap addr len prot (mmapHostFlags abi shared priv fixed anon) (-1) offset] ∧
    (priv = false ∨
      mmapHostFlags abi shared priv fixed anon &&& abi.MAP_ANON = abi.MAP_ANON) := by
  constructor
  · cases shared <;> cases priv <;> cases fixed <;> cases anon <;> cases noreserve <;>
      cases executable <;>
      simp +decide [shim_mmap64_impl, mmapGuestFlags, mmapHostFlags, LINUX_MAP_SHARED,
        LINUX_MAP_PRIVATE, LINUX_MAP_FIXED, LINUX_MAP_ANON, LINUX_MAP_NORESERVE,
        LINUX_MAP_EXECUTABLE, KNOWN_LINUX_MMAP_FLAGS, Nat.or_assoc]
  · cases priv
    · exact Or.inl rfl
    · right
      apply Nat.eq_of_testBit_eq
      intro k
      simp only [mmapHostFlags, if_true, Nat.testBit_and, Nat.testBit_or]
      cases abi.MAP_ANON.testBit k <;> simp

/-- C5, the code at the failing input: the host `connect` to 127.0.0.1:80 fails with the
host code 61 (connection refused) and the host `bind` fails with the host code 48
(address in use). Both entry points return -1 and leave `errno` at the host code, while
the translator maps 61 to 111 and 48 to 98; `sendto` on the same failure stores the
translated code. -/
theorem C5_errno_not_translated :
    (shim_connect_impl freebsd (World.failing 61) 0 3 sampleInet 16).out = .done (-1, 61) ∧
    freebsd.native_to_linux_errno 61 = 111 ∧
    (shim_bind_impl freebsd (World.failing 48) 0 3 sampleInet 16).out = .done (-1, 48) ∧
    freebsd.native_to_linux_errno 48 = 98 ∧
    (shim_sendto_impl freebsd (World.failing 61) 0 3 0 0 0 sampleInet 16).out
      = .done (-1, 111) :=
  ⟨rfl, rfl, rfl, rfl, rfl⟩

/-- C6, the code at the failing input: `sendmsg` and `recvmsg` with a message header that
names the abstract Unix address `"\0myservice"` hand the host a header whose `msg_name`
is the guest address itself, while the address translator used by `bind`, `connect` and
`sendto` turns that address into the path `"/var/run/myservice"`; and `sendmsg` with an
address of another family returns where `sendto` aborts. -/
theorem C6_sendmsg_passes_guest_address :
    (shim_sendmsg_impl .x86_64 freebsd 0 World.idle 0 3
        ⟨some sampleAbstract, 110, 0, 0, none, 0, 0⟩ 0).calls
      = [HostCall.sendmsg 3 ⟨some sampleAbstract, 110, 0, 0, none, 0, 0⟩ 0] ∧
    (shim_recvmsg_impl .x86_64 freebsd 0 World.idle 0 3
        ⟨some sampleAbstract, 110, 0, 0, none, 0, 0⟩ 0).calls
      = [HostCall.recvmsg 3
          ⟨some sampleAbstract, 110, 0, 0, some World.idle.stack_buf, 0, 0⟩ 0] ∧
    hostPath freebsd (linux_to_native_sockaddr_un freebsd World.idle.stack_un sampleAbstract 110)
      = some varRunMyservice ∧
    (shim_sendmsg_impl .x86_64 freebsd 0 World.idle 0 3
        ⟨some sampleOther, 28, 0, 0, none, 0, 0⟩ 0).out = .done (0, 0) ∧
    (shim_sendto_impl freebsd World.idle 0 3 0 0 0 sampleOther 28).out = .abort := by
  refine ⟨rfl, rfl, ?_, rfl, rfl⟩
  decide

/-- C9: for every guest Inet address of the exact guest struct size, the translation to
the host returns an address whose length field is 0 and whose family is `PF_INET`,
whatever the guest cells hold; translating it back into any guest memory gives the same
two port cells and the same four address cells, and the family `LINUX_PF_INET` (as the
16-bit family field holds it). -/
theorem C9_sockaddr_in_roundtrip (abi : Abi) (dest : sockaddr_in) (gdest a : Mem)
    (addrlen fromlen : Nat) (hlen : addrlen = abi.sizeof_linux_sockaddr_in) :
    ∃ host, linux_to_native_sockaddr_in abi dest a addrlen = .done host ∧
      host.sin_len = 0 ∧ host.sin_family = abi.PF_INET ∧
      bytes (native_to_linux_sockaddr_in abi gdest host fromlen) 2 2 = bytes a 2 2 ∧
      bytes (native_to_linux_sockaddr_in abi gdest host fromlen) 4 4 = bytes a 4 4 ∧
      rd (native_to_linux_sockaddr_in abi gdest host fromlen) 0 2
        = abi.LINUX_PF_INET % 2 ^ 16 := by
  refine ⟨⟨0, abi.PF_INET, bytes a 2 2, bytes a 4 4, bytes a 8 8⟩, ?_, ?_, ?_, ?_, ?_, ?_⟩
  · unfold linux_to_native_sockaddr_in
    rw [if_neg (by simpa using hlen)]
  · rfl
  · rfl
  · simp only [native_to_linux_sockaddr_in]
    rw [← bytes_wrBytes_bytes (wr gdest 0 2 abi.LINUX_PF_INET) a 2 2 2]
    apply bytes_congr
    intro i h1 h2
    rw [wrBytes_of_not_mem (by simp [length_bytes]; omega),
      wrBytes_of_not_mem (by simp [length_bytes]; omega)]
    rw [bytes_wrBytes_bytes]
  · simp only [native_to_linux_sockaddr_in]
    rw [← bytes_wrBytes_bytes
      (wrBytes (wr gdest 0 2 abi.LINUX_PF_INET) 2 (bytes a 2 2)) a 4 4 4]
    apply bytes_congr
    intro i h1 h2
    rw [wrBytes_of_not_mem (by simp [length_bytes]; omega)]
    rw [bytes_wrBytes_bytes]
  · simp only [native_to_linux_sockaddr_in]
    have h16 : abi.LINUX_PF_INET % 2 ^ 16 = abi.LINUX_PF_INET % 256 ^ 2 := by norm_num
    rw [h16, ← rd_wr_same gdest 2 0 abi.LINUX_PF_INET]
    apply rd_congr
    intro i h1 h2
    rw [wrBytes_of_not_mem (by simp [length_bytes]; omega),
      wrBytes_of_not_mem (by simp [length_bytes]; omega),
      wrBytes_of_not_mem (by simp [length_bytes]; omega)]

/-- C9, at the guest address 127.0.0.1:80 with the FreeBSD constants. -/
theorem C9_sockaddr_in_roundtrip_witness :
    (16 : Nat) = freebsd.sizeof_linux_sockaddr_in ∧
    ∃ host, linux_to_native_sockaddr_in freebsd World.idle.stack_in sampleInet 16 = .done host ∧
      host.sin_len = 0 ∧ host.sin_family = freebsd.PF_INET ∧
      bytes (native_to_linux_sockaddr_in freebsd (fun _ => 0) host 16) 2 2
        = bytes sampleInet 2 2 ∧
      bytes (native_to_linux_sockaddr_in freebsd (fun _ => 0) host 16) 4 4
        = bytes sampleInet 4 4 ∧
      rd (native_to_linux_sockaddr_in freebsd (fun _ => 0) host 16) 0 2
        = freebsd.LINUX_PF_INET % 2 ^ 16 :=
  ⟨rfl, C9_sockaddr_in_roundtrip freebsd World.idle.stack_in (fun _ => 0) sampleInet 16 16 rfl⟩

set_option maxRecDepth 100000 in
/-- C7, refuted as stated: for the abstract name of 95 letters `a` the host path is
`"/var/run/"` followed by 94 of them: the last byte of the name is lost. -/
theorem C7_abstract_name_counterexample :
    hostPath freebsd
        (linux_to_native_sockaddr_un freebsd World.idle.stack_un sampleLongAbstract 110)
      = some (varRun ++ List.replicate 94 97) ∧
    varRun ++ List.replicate 94 97 ≠ varRun ++ List.replicate 95 97 := by
  decide

/-- C7, amended: for every guest Unix address of the exact guest struct size whose first
path byte is NUL, followed by a name `n` which, after `"/var/run/"` and with its
terminator, fits the host path array, the translation returns a host address with length
field 0 and family `PF_UNIX` whose path is the string `"/var/run/"` followed by all the
bytes of `n`, whatever else the guest memory and the destination held. -/
theorem C7_abstract_name (abi : Abi) (dest : sockaddr_un) (src : Mem) (addrlen : Nat)
    (n : List Nat) (hlen : addrlen = abi.sizeof_linux_sockaddr_un) (h0 : src 2 = 0)
    (hn : bytes src 3 (n.length + 1) = n ++ [0]) (hnz : ∀ c ∈ n, c ≠ 0)
    (hfit : 9 + n.length < abi.sizeof_sun_path) :
    ∃ host, linux_to_native_sockaddr_un abi dest src addrlen = .done host ∧
      host.sun_len = 0 ∧ host.sun_family = abi.PF_UNIX ∧
      cstrN host.sun_path 0 abi.sizeof_sun_path = varRun ++ n := by
  refine ⟨⟨0, abi.PF_UNIX, snprintf_var_run dest.sun_path abi.sizeof_sun_path src 3⟩,
    ?_, rfl, rfl, ?_⟩
  · unfold linux_to_native_sockaddr_un
    rw [if_neg (by simpa using hlen)]
    simp only
    rw [if_pos h0]
  · have hl : (varRun ++ n).length = 9 + n.length := by
      rw [List.length_append]; simp [varRun]
    apply cstrN_eq _ _ _ _ (snprintf_var_run_fits _ _ _ _ n hn hnz hfit)
    · intro c hc
      rcases List.mem_append.1 hc with h | h
      · exact varRun_ne_zero c h
      · exact hnz c h
    · omega

/-- C7, at the abstract name `"myservice"` with the FreeBSD constants: the host path is
`"/var/run/myservice"`. -/
theorem C7_abstract_name_witness :
    (110 : Nat) = freebsd.sizeof_linux_sockaddr_un ∧ sampleAbstract 2 = 0 ∧
    bytes sampleAbstract 3 10 = [109, 121, 115, 101, 114, 118, 105, 99, 101] ++ [0] ∧
    (∀ c ∈ [109, 121, 115, 101, 114, 118, 105, 99, 101], c ≠ 0) ∧
    9 + 9 < freebsd.sizeof_sun_path ∧
    ∃ host, linux_to_native_sockaddr_un freebsd World.idle.stack_un sampleAbstract 110
        = .done host ∧
      host.sun_len = 0 ∧ host.sun_family = freebsd.PF_UNIX ∧
      cstrN host.sun_path 0 freebsd.sizeof_sun_path = varRunMyservice :=
  ⟨rfl, rfl, by decide, by decide, by decide,
    C7_abstract_name freebsd World.idle.stack_un sampleAbstract 110
      [109, 121, 115, 101, 114, 118, 105, 99, 101] rfl rfl (by decide) (by decide) (by decide)⟩

/-- C8: for every guest Unix address of the exact guest struct size whose path `p` is not
abstract (it is not empty and holds no NUL before its terminator), lies with its
terminator within the guest path array and fits the host path array, the translation to
the host returns, the translation back returns, and the guest address it writes has the
family `LINUX_PF_UNIX` (as the 16-bit family field holds it) and the path `p`. -/
theorem C8_sockaddr_un_roundtrip (abi : Abi) (dest : sockaddr_un) (gdest src : Mem)
    (addrlen fromlen : Nat) (p : List Nat) (hlen : addrlen = abi.sizeof_linux_sockaddr_un)
    (hp : bytes src 2 (p.length + 1) = p ++ [0]) (hnz : ∀ c ∈ p, c ≠ 0) (hne : p ≠ [])
    (hguest : p.length < abi.sizeof_linux_sun_path) (hfit : p.length < abi.sizeof_sun_path) :
    ∃ host g, linux_to_native_sockaddr_un abi dest src addrlen = .done host ∧
      cstrN host.sun_path 0 abi.sizeof_sun_path = p ∧
      native_to_linux_sockaddr_un abi gdest host fromlen = .done g ∧
      rd g 0 2 = abi.LINUX_PF_UNIX % 2 ^ 16 ∧
      cstrN g 2 abi.sizeof_linux_sun_path = p := by
  have hfirst : src 2 ≠ 0 := by
    cases p with
    | nil => exact absurd rfl hne
    | cons c tl =>
      have := @getD_of_bytes_eq src 2 ((c :: tl) ++ [0]) (by simpa using hp) 0 (by simp)
      simp only [Nat.add_zero, List.cons_append, List.getD_cons_zero] at this
      rw [this]
      exact hnz c (List.mem_cons_self _ _)
  obtain ⟨h1, h2, _⟩ := strlcpy_fits dest.sun_path src 0 2 abi.sizeof_sun_path p hp hnz hfit
  obtain ⟨g1, g2, g3⟩ := strlcpy_fits (wr gdest 0 2 abi.LINUX_PF_UNIX)
    (strlcpy dest.sun_path 0 src 2 abi.sizeof_sun_path).1 2 0 abi.sizeof_linux_sun_path p
    h2 hnz hguest
  refine ⟨⟨0, abi.PF_UNIX, (strlcpy dest.sun_path 0 src 2 abi.sizeof_sun_path).1⟩,
    (strlcpy (wr gdest 0 2 abi.LINUX_PF_UNIX) 2
      (strlcpy dest.sun_path 0 src 2 abi.sizeof_sun_path).1 0 abi.sizeof_linux_sun_path).1,
    ?_, ?_, ?_, ?_, ?_⟩
  · unfold linux_to_native_sockaddr_un
    rw [if_neg (by simpa using hlen)]
    simp only
    rw [if_neg hfirst, if_neg (by rw [h1]; omega)]
  · exact cstrN_eq _ _ _ _ h2 hnz hfit
  · unfold native_to_linux_sockaddr_un
    simp only
    rw [if_neg (by rw [g1]; omega)]
  · have h16 : abi.LINUX_PF_UNIX % 2 ^ 16 = abi.LINUX_PF_UNIX % 256 ^ 2 := by norm_num
    rw [h16, ← rd_wr_same gdest 2 0 abi.LINUX_PF_UNIX]
    apply rd_congr
    intro i _ hi
    exact g3 i (by omega)
  · exact cstrN_eq _ _ _ _ g2 hnz hguest

/-- C8, at the path `"/tmp/s.sock"` with the FreeBSD constants. -/
theorem C8_sockaddr_un_roundtrip_witness :
    (110 : Nat) = freebsd.sizeof_linux_sockaddr_un ∧
    bytes sampleTmpSock 2 (tmpSock.length + 1) = tmpSock ++ [0] ∧
    (∀ c ∈ tmpSock, c ≠ 0) ∧ tmpSock ≠ [] ∧
    tmpSock.length < freebsd.sizeof_linux_sun_path ∧
    tmpSock.length < freebsd.sizeof_sun_path ∧
    ∃ host g, linux_to_native_sockaddr_un freebsd World.idle.stack_un sampleTmpSock 110
        = .done host ∧
      cstrN host.sun_path 0 freebsd.sizeof_sun_path = tmpSock ∧
      native_to_linux_sockaddr_un freebsd (fun _ => 0) host 106 = .done g ∧
      rd g 0 2 = freebsd.LINUX_PF_UNIX % 2 ^ 16 ∧
      cstrN g 2 freebsd.sizeof_linux_sun_path = tmpSock :=
  ⟨rfl, by decide, by decide, by decide, by decide, by decide,
    C8_sockaddr_un_roundtrip freebsd World.idle.stack_un (fun _ => 0) sampleTmpSock 110 106
      tmpSock rfl (by decide) (by decide) (by decide) (by decide) (by decide)⟩

/-- C10, refuted as stated: `sendto` to the Inet address 127.0.0.1:80, of the exact guest
struct size, with the guest flag `MSG_MORE` (0x8000, outside the known mask) aborts
before the host call although the address passes the size check. -/
theorem C10_sendto_counterexample :
    (shim_sendto_impl freebsd World.idle 0 3 0 0 0x8000 sampleInet 16).out = .abort ∧
    (shim_sendto_impl freebsd World.idle 0 3 0 0 0x8000 sampleInet 16).calls = [] ∧
    rd sampleInet 0 2 = freebsd.LINUX_PF_INET ∧
    ¬ addressRejected freebsd sampleInet 16 := by
  refine ⟨rfl, rfl, rfl, ?_⟩
  decide

/-- C10, amended: for a guest address of family Unix or Inet, `bind` and `connect` abort
without a host call if and only if the address length differs from the guest struct
size of the family or, for a Unix path that is not abstract, the path does not fit the
host path array; `sendto` aborts without a host call if and only if one of these holds
or the guest flag word has a bit outside `KNOWN_LINUX_MSG_FLAGS`. -/
theorem C10_address_checks (abi : Abi) (w : World) (errno s : Int) (addr : Mem)
    (len msg mlen flags : Nat)
    (hfam : rd addr 0 2 = abi.LINUX_PF_UNIX ∨ rd addr 0 2 = abi.LINUX_PF_INET) :
    (((shim_bind_impl abi w errno s addr len).out = .abort ∧
        (shim_bind_impl abi w errno s addr len).calls = []) ↔
      addressRejected abi addr len) ∧
    (((shim_connect_impl abi w errno s addr len).out = .abort ∧
        (shim_connect_impl abi w errno s addr len).calls = []) ↔
      addressRejected abi addr len) ∧
    (((shim_sendto_impl abi w errno s msg mlen flags addr len).out = .abort ∧
        (shim_sendto_impl abi w errno s msg mlen flags addr len).calls = []) ↔
      (addressRejected abi addr len ∨ flags &&& abi.KNOWN_LINUX_MSG_FLAGS ≠ flags)) := by
  unfold shim_bind_impl shim_connect_impl shim_sendto_impl addressRejected
  by_cases hu : rd addr 0 2 = abi.LINUX_PF_UNIX
  · simp only [if_pos hu]
    rcases linux_to_native_sockaddr_un_cases abi w.stack_un addr len with
      ⟨hr, he⟩ | ⟨hr, a, he⟩
    · simp [he, Outcome.andThen, hr]
    · rcases linux_to_native_msg_flags_cases abi flags with ⟨hf, hfe⟩ | ⟨hf, h, hfe⟩
      · simp [he, hfe, Outcome.andThen, hr, hf]
      · simp [he, hfe, Outcome.andThen, hr, hf]
  · have hi : rd addr 0 2 = abi.LINUX_PF_INET := by
      rcases hfam with h | h
      · exact absurd h hu
      · exact h
    simp only [if_neg hu, if_pos hi]
    rcases linux_to_native_sockaddr_in_cases abi w.stack_in addr len with
      ⟨hr, he⟩ | ⟨hr, a, he⟩
    · simp [he, Outcome.andThen, hr]
    · rcases linux_to_native_msg_flags_cases abi flags with ⟨hf, hfe⟩ | ⟨hf, h, hfe⟩
      · simp [he, hfe, Outcome.andThen, hr, hf]
      · simp [he, hfe, Outcome.andThen, hr, hf]

/-- C10, at the path `"/tmp/s.sock"` given with the length 109 instead of 110: `bind`
aborts without a host call. -/
theorem C10_address_checks_witness :
    (rd sampleTmpSock 0 2 = freebsd.LINUX_PF_UNIX ∨ rd sampleTmpSock 0 2 = freebsd.LINUX_PF_INET) ∧
    (((shim_bind_impl freebsd World.idle 0 3 sampleTmpSock 109).out = .abort ∧
        (shim_bind_impl freebsd World.idle 0 3 sampleTmpSock 109).calls = []) ↔
      addressRejected freebsd sampleTmpSock 109) :=
  ⟨Or.inl rfl, (C10_address_checks freebsd World.idle 0 3 sampleTmpSock 109 0 0 0 (Or.inl rfl)).1⟩

/-- C1, refuted as stated: for a guest header whose control buffer holds one record of
level socket and type descriptor-passing, `linux_to_native_msghdr` aborts when the
header's `msg_flags` has a bit outside the known mask (here 0x8000), and aborts when
the host header it is given has a smaller control capacity (here 16 for 24). -/
theorem C1_single_record_counterexample :
    linux_to_native_msghdr .x86_64 freebsd 25 ⟨none, 0, 0, 0, some (fun _ => 0), 24, 0⟩
        ⟨none, 0, 0, 0, some sampleCmsg, 24, 0x8000⟩ = .abort ∧
    linux_to_native_msghdr .x86_64 freebsd 25 ⟨none, 0, 0, 0, some (fun _ => 0), 16, 0⟩
        ⟨none, 0, 0, 0, some sampleCmsg, 24, 0⟩ = .abort :=
  ⟨rfl, rfl⟩

/-- C1, amended: for every guest message header whose `msg_flags` lies within the known
mask and whose control buffer holds one record with level `LINUX_SOL_SOCKET`, type
`LINUX_SCM_RIGHTS` and `cmsg_len` = H + n (H the record header size of the build
target), given a host header with a control buffer of at least `msg_controllen` bytes,
`linux_to_native_msghdr` returns a host header with the same `msg_controllen` whose
control buffer holds at offset 0 a record with `cmsg_len` = H + n, level `SOL_SOCKET`
and type `SCM_RIGHTS`, and whose n cells from offset H on are those of the guest. -/
theorem C1_single_record (arch : Arch) (abi : Abi) (hok : abi.CmsgOK) (fuel : Nat)
    (msg : msghdr) (linux_msg : linux_msghdr) (src buf : Mem) (n : Nat)
    (hfuel : linux_msg.msg_controllen < fuel)
    (hflags : linux_msg.msg_flags &&& abi.KNOWN_LINUX_MSG_FLAGS = linux_msg.msg_flags)
    (hsrc : linux_msg.msg_control = some src) (hbuf : msg.msg_control = some buf)
    (hcap : linux_msg.msg_controllen ≤ msg.msg_controllen)
    (hcap32 : msg.msg_controllen < 2 ^ 32)
    (hlen : rd src 0 arch.word = arch.cmsgData + n)
    (hlevel : rd src arch.word 4 = abi.LINUX_SOL_SOCKET)
    (htype : rd src (arch.word + 4) 4 = abi.LINUX_SCM_RIGHTS)
    (hin : arch.cmsgData + n ≤ linux_msg.msg_controllen)
    (hone : linux_msg.msg_controllen <
      ALIGN arch (arch.cmsgData + n) + ALIGN arch sizeof_cmsghdr) :
    ∃ out dst, linux_to_native_msghdr arch abi fuel msg linux_msg = .done out ∧
      out.msg_controllen = linux_msg.msg_controllen ∧ out.msg_control = some dst ∧
      rd dst 0 4 = arch.cmsgData + n ∧ rd dst 4 4 = abi.SOL_SOCKET ∧
      rd dst 8 4 = abi.SCM_RIGHTS ∧
      ∀ i, i < n → dst (arch.cmsgData + i) = src (arch.cmsgData + i) := by
  have hlen32 : linux_msg.msg_controllen < 2 ^ 32 := by omega
  have h4 : rd src 0 4 = arch.cmsgData + n := by
    rw [rd_four_of_word arch src 0 (by omega), hlen]
  have hoffs : cmsgOffsets arch fuel linux_msg.msg_controllen src 0 = [0] := by
    cases fuel with
    | zero => omega
    | succ f =>
      simp only [cmsgOffsets, h4, Nat.zero_add]
      rw [if_pos (by omega)]
  have hgood : guestRecordOK arch abi linux_msg.msg_controllen src 0 := by
    refine ⟨by rw [Nat.zero_add]; exact htype, ?_, by omega, by omega⟩
    rw [Nat.zero_add, hlevel]
    simp
  obtain ⟨d, hd, hpost⟩ := linux_to_native_cmsgs_done arch abi hok linux_msg.msg_controllen
    hlen32 src fuel (memset0 buf linux_msg.msg_controllen) hfuel
    (by rw [hoffs]; intro o ho; rw [List.mem_singleton.1 ho]; exact hgood)
  have hfirst : sizeof_cmsghdr ≤ linux_msg.msg_controllen := by
    have := cmsgData_ge arch
    have : sizeof_cmsghdr = 12 := rfl
    omega
  obtain ⟨p1, ⟨level, p2, p3⟩, p4, p5⟩ := hpost 0 (by rw [hoffs]; simp)
  refine ⟨_, d, linux_to_native_msghdr_done arch abi fuel msg linux_msg src buf d hflags hsrc
    hbuf hfirst hcap hcap32 hd, rfl, rfl, by rw [p1, hlen], ?_, ?_, ?_⟩
  · rw [Nat.zero_add] at p2 p3
    rw [hlevel] at p2
    unfold linux_to_native_sock_level at p2
    rw [if_pos rfl] at p2
    injection p2 with p2
    rw [p3, p2]
  · rw [Nat.zero_add] at p4; exact p4
  · intro i hi
    exact p5 _ (by omega) (by omega)

/-- C1, at the one-record buffer `sampleCmsg` on x86_64 with the FreeBSD constants. -/
theorem C1_single_record_witness :
    freebsd.CmsgOK ∧ (24 : Nat) < 25 ∧
    (0 : Nat) &&& freebsd.KNOWN_LINUX_MSG_FLAGS = 0 ∧
    (24 : Nat) ≤ 24 ∧ (24 : Nat) < 2 ^ 32 ∧
    rd sampleCmsg 0 Arch.x86_64.word = Arch.x86_64.cmsgData + 4 ∧
    rd sampleCmsg Arch.x86_64.word 4 = freebsd.LINUX_SOL_SOCKET ∧
    rd sampleCmsg (Arch.x86_64.word + 4) 4 = freebsd.LINUX_SCM_RIGHTS ∧
    Arch.x86_64.cmsgData + 4 ≤ 24 ∧
    24 < ALIGN .x86_64 (Arch.x86_64.cmsgData + 4) + ALIGN .x86_64 sizeof_cmsghdr ∧
    ∃ out dst, linux_to_native_msghdr .x86_64 freebsd 25
        ⟨none, 0, 0, 0, some (fun _ => 0xAA), 24, 0⟩
        ⟨none, 0, 0, 0, some sampleCmsg, 24, 0⟩ = .done out ∧
      out.msg_controllen = 24 ∧ out.msg_control = some dst ∧
      rd dst 0 4 = Arch.x86_64.cmsgData + 4 ∧ rd dst 4 4 = freebsd.SOL_SOCKET ∧
      rd dst 8 4 = freebsd.SCM_RIGHTS ∧
      ∀ i, i < 4 → dst (Arch.x86_64.cmsgData + i) = sampleCmsg (Arch.x86_64.cmsgData + i) :=
  ⟨by decide, by decide, by decide, by decide, by decide, by decide, by decide, by decide,
    by decide, by decide,
    C1_single_record .x86_64 freebsd (by decide) 25 ⟨none, 0, 0, 0, some (fun _ => 0xAA), 24, 0⟩
      ⟨none, 0, 0, 0, some sampleCmsg, 24, 0⟩ sampleCmsg (fun _ => 0xAA) 4
      (by decide) (by decide) rfl rfl (by decide) (by decide) (by decide) (by decide)
      (by decide) (by decide) (by decide)⟩

/-- C2, refuted as stated: for a guest control buffer made of two descriptor-passing
records at the socket level, the forward translation aborts when the header's
`msg_flags` has a bit outside the known mask (here 0x8000), and aborts when the host
header it is given has a smaller control capacity (here 24 for 48); no result is left to
translate back. -/
theorem C2_control_roundtrip_counterexample :
    linux_to_native_msghdr .x86_64 freebsd 49 ⟨none, 0, 0, 0, some (fun _ => 0), 48, 0⟩
        ⟨none, 0, 0, 0, some sampleChain, 48, 0x8000⟩ = .abort ∧
    linux_to_native_msghdr .x86_64 freebsd 49 ⟨none, 0, 0, 0, some (fun _ => 0), 24, 0⟩
        ⟨none, 0, 0, 0, some sampleChain, 48, 0⟩ = .abort :=
  ⟨rfl, rfl⟩

/-- C2, amended: for every guest message header whose `msg_flags` lies within the known
mask and whose control buffer is a chain of descriptor-passing records at the four known
levels, each holding its header and lying within the buffer, given a host header with a
control buffer of at least `msg_controllen` bytes: `linux_to_native_msghdr` returns,
`native_to_linux_msghdr` applied to its result and to a guest header with a control
buffer of at least `msg_controllen` bytes returns, and the guest header it leaves has the
same `msg_controllen` and, at the offset of every record of the chain, the same
`cmsg_len`, level and type and the same data cells. -/
theorem C2_control_roundtrip (arch : Arch) (abi : Abi) (hflagsok : abi.MsgFlagsOK)
    (hok : abi.CmsgOK) (fuel : Nat) (msg : msghdr) (linux_msg back : linux_msghdr)
    (src hbuf gbuf : Mem)
    (hfuel : linux_msg.msg_controllen < fuel)
    (hflags : linux_msg.msg_flags &&& abi.KNOWN_LINUX_MSG_FLAGS = linux_msg.msg_flags)
    (hsrc : linux_msg.msg_control = some src) (hhbuf : msg.msg_control = some hbuf)
    (hgbuf : back.msg_control = some gbuf)
    (hcap : linux_msg.msg_controllen ≤ msg.msg_controllen)
    (hcap32 : msg.msg_controllen < 2 ^ 32)
    (hbackcap : linux_msg.msg_controllen ≤ back.msg_controllen)
    (hchain : ∀ o ∈ cmsgOffsets arch fuel linux_msg.msg_controllen src 0,
      guestRecordOK arch abi linux_msg.msg_controllen src o) :
    ∃ host res out, linux_to_native_msghdr arch abi fuel msg linux_msg = .done host ∧
      native_to_linux_msghdr arch abi fuel back host = .done res ∧
      res.msg_controllen = linux_msg.msg_controllen ∧ res.msg_control = some out ∧
      ∀ o ∈ cmsgOffsets arch fuel linux_msg.msg_controllen src 0,
        rd out o arch.word = rd src o arch.word ∧
        rd out (o + arch.word) 4 = rd src (o + arch.word) 4 ∧
        rd out (o + arch.word + 4) 4 = rd src (o + arch.word + 4) 4 ∧
        ∀ i, o + arch.cmsgData ≤ i → i < o + rd src o arch.word → out i = src i := by
  have hlen32 : linux_msg.msg_controllen < 2 ^ 32 := by omega
  obtain ⟨d, hd, hpost⟩ := linux_to_native_cmsgs_done arch abi hok linux_msg.msg_controllen
    hlen32 src fuel (memset0 hbuf linux_msg.msg_controllen) hfuel hchain
  have h0 : guestRecordOK arch abi linux_msg.msg_controllen src 0 := by
    apply hchain
    cases fuel with
    | zero => omega
    | succ f => simp [cmsgOffsets]
  have hfirst : sizeof_cmsghdr ≤ linux_msg.msg_controllen := by
    obtain ⟨_, _, hH, hin⟩ := h0
    have := cmsgData_ge arch
    have : sizeof_cmsghdr = 12 := rfl
    omega
  have hfwd := linux_to_native_msghdr_done arch abi fuel msg linux_msg src hbuf d hflags hsrc
    hhbuf hfirst hcap hcap32 hd
  have hlenEq : ∀ o ∈ cmsgOffsets arch fuel linux_msg.msg_controllen src 0,
      rd d o 4 = rd src o arch.word ∧ rd src o 4 = rd src o arch.word := by
    intro o ho
    obtain ⟨_, _, hH, hin⟩ := hchain o ho
    exact ⟨(hpost o ho).1, rd_four_of_word arch src o (by omega)⟩
  have hoffs : cmsgOffsets arch fuel linux_msg.msg_controllen d 0
      = cmsgOffsets arch fuel linux_msg.msg_controllen src 0 :=
    cmsgOffsets_congr arch _ src d fuel 0
      (fun o ho => by rw [(hlenEq o ho).1, (hlenEq o ho).2])
  have hhost : ∀ o ∈ cmsgOffsets arch fuel linux_msg.msg_controllen d 0,
      hostRecordOK arch abi linux_msg.msg_controllen d o := by
    intro o ho
    rw [hoffs] at ho
    obtain ⟨_, _, hH, hin⟩ := hchain o ho
    obtain ⟨p1, ⟨level, p2, p3⟩, p4, _⟩ := hpost o ho
    refine ⟨p4, ⟨rd src (o + arch.word) 4, ?_, ?_⟩, by omega, by omega⟩
    · rw [p3]
      exact native_to_linux_of_linux_to_native_sock_level abi hok.1 _ _ p2
    · have := rd_lt src 4 (o + arch.word)
      norm_num at this ⊢
      exact this
  obtain ⟨g, hg, hgpost⟩ := native_to_linux_cmsgs_done arch abi linux_msg.msg_controllen
    hlen32 d fuel (memset0 gbuf linux_msg.msg_controllen) hfuel hhost
  have hrev := native_to_linux_msghdr_done arch abi fuel back
    ⟨linux_msg.msg_name, linux_msg.msg_namelen, linux_msg.msg_iov, linux_msg.msg_iovlen,
      some d, linux_msg.msg_controllen, orTable abi.msgFlagPairs linux_msg.msg_flags 0⟩
    d gbuf g linux_msg.msg_flags
    (native_to_linux_of_linux_to_native abi hflagsok _ hflags) rfl hgbuf hfirst hbackcap hg
  refine ⟨_, _, g, hfwd, hrev, rfl, rfl, ?_⟩
  intro o ho
  obtain ⟨ht, _, hH, hin⟩ := hchain o ho
  obtain ⟨p1, ⟨level, p2, p3⟩, p4, p5⟩ := hpost o ho
  obtain ⟨q1, ⟨level2, q2, q3⟩, q4, q5⟩ := hgpost o (by rw [hoffs]; exact ho)
  refine ⟨by rw [q1, p1], ?_, ?_, ?_⟩
  · rw [p3, native_to_linux_of_linux_to_native_sock_level abi hok.1 _ _ p2] at q2
    injection q2 with q2
    rw [q3, ← q2]
  · rw [q4, ht, ← ht]
    have := rd_lt src 4 (o + arch.word + 4)
    apply Nat.mod_eq_of_lt
    norm_num at this ⊢
    exact this
  · intro i h1 h2
    rw [q5 i h1 (by rw [p1]; exact h2)]
    exact p5 i h1 h2

/-- C2, at the two-record buffer `sampleChain` on x86_64 with the FreeBSD constants. -/
theorem C2_control_roundtrip_witness :
    freebsd.MsgFlagsOK ∧ freebsd.CmsgOK ∧ (48 : Nat) < 49 ∧
    (0 : Nat) &&& freebsd.KNOWN_LINUX_MSG_FLAGS = 0 ∧
    (48 : Nat) ≤ 48 ∧ (48 : Nat) < 2 ^ 32 ∧
    cmsgOffsets .x86_64 49 48 sampleChain 0 = [0, 24] ∧
    (∀ o ∈ cmsgOffsets .x86_64 49 48 sampleChain 0,
      guestRecordOK .x86_64 freebsd 48 sampleChain o) ∧
    ∃ host res out, linux_to_native_msghdr .x86_64 freebsd 49
        ⟨none, 0, 0, 0, some (fun _ => 0xAA), 48, 0⟩
        ⟨none, 0, 0, 0, some sampleChain, 48, 0⟩ = .done host ∧
      native_to_linux_msghdr .x86_64 freebsd 49 ⟨none, 0, 0, 0, some (fun _ => 0xBB), 48, 0⟩
        host = .done res ∧
      res.msg_controllen = 48 ∧ res.msg_control = some out ∧
      ∀ o ∈ cmsgOffsets .x86_64 49 48 sampleChain 0,
        rd out o Arch.x86_64.word = rd sampleChain o Arch.x86_64.word ∧
        rd out (o + Arch.x86_64.word) 4 = rd sampleChain (o + Arch.x86_64.word) 4 ∧
        rd out (o + Arch.x86_64.word + 4) 4 = rd sampleChain (o + Arch.x86_64.word + 4) 4 ∧
        ∀ i, o + Arch.x86_64.cmsgData ≤ i → i < o + rd sampleChain o Arch.x86_64.word →
          out i = sampleChain i :=
  ⟨by decide, by decide, by decide, by decide, by decide, by decide, by decide, by decide,
    C2_control_roundtrip .x86_64 freebsd (by decide) (by decide) 49
      ⟨none, 0, 0, 0, some (fun _ => 0xAA), 48, 0⟩ ⟨none, 0, 0, 0, some sampleChain, 48, 0⟩
      ⟨none, 0, 0, 0, some (fun _ => 0xBB), 48, 0⟩ sampleChain (fun _ => 0xAA) (fun _ => 0xBB)
      (by decide) (by decide) rfl rfl rfl (by decide) (by decide) (by decide) (by decide)⟩

/-- C14: `shim___recv_chk_impl` either has `len > buflen`, and then it aborts without any
host call, or has `len <= buflen`, and then it issues exactly one host `recv`, for
exactly `len` bytes, and returns its result; so it aborts before any host receive if and
only if `len > buflen`. -/
theorem C14_recv_chk (w : World) (errno fd : Int) (buf len buflen flags : Nat) :
    ((buflen < len ∧ (shim___recv_chk_impl w errno fd buf len buflen flags).out = .abort ∧
        (shim___recv_chk_impl w errno fd buf len buflen flags).calls = []) ∨
      (len ≤ buflen ∧
        (shim___recv_chk_impl w errno fd buf len buflen flags).calls
          = [HostCall.recv fd buf len flags] ∧
        (shim___recv_chk_impl w errno fd buf len buflen flags).out
          = .done (w.syscall (HostCall.recv fd buf len flags) errno))) ∧
    (((shim___recv_chk_impl w errno fd buf len buflen flags).out = .abort ∧
        (shim___recv_chk_impl w errno fd buf len buflen flags).calls = []) ↔ buflen < len) := by
  unfold shim___recv_chk_impl
  by_cases h : len ≤ buflen
  · simp [h]
  · simp [h]
    omega

/-- C15: for every socket, option length and option value that points to the integer 0,
`shim_setsockopt_impl` at level `LINUX_SOL_SOCKET` with option `LINUX_SO_SNDBUF` returns 0,
leaves `errno` alone and issues no host call. -/
theorem C15_setsockopt_sndbuf_zero (abi : Abi) (w : World) (errno s : Int) (m : Mem)
    (optlen : Nat) (hzero : rd m 0 4 = 0) :
    (shim_setsockopt_impl abi w errno s abi.LINUX_SOL_SOCKET abi.LINUX_SO_SNDBUF (some m)
        optlen).out = .done (0, errno) ∧
    (shim_setsockopt_impl abi w errno s abi.LINUX_SOL_SOCKET abi.LINUX_SO_SNDBUF (some m)
        optlen).calls = [] := by
  unfold shim_setsockopt_impl
  simp [optval_is_zero, hzero]

/-- C15, at the option value 0 held in four zero cells, with the FreeBSD constants and a
host on which every call would fail. -/
theorem C15_setsockopt_sndbuf_zero_witness :
    rd (fun _ => 0) 0 4 = 0 ∧
    (shim_setsockopt_impl freebsd (World.failing 22) 0 3 freebsd.LINUX_SOL_SOCKET
        freebsd.LINUX_SO_SNDBUF (some (fun _ => 0)) 4).out = .done (0, 0) ∧
    (shim_setsockopt_impl freebsd (World.failing 22) 0 3 freebsd.LINUX_SOL_SOCKET
        freebsd.LINUX_SO_SNDBUF (some (fun _ => 0)) 4).calls = [] :=
  ⟨rfl, C15_setsockopt_sndbuf_zero freebsd (World.failing 22) 0 3 (fun _ => 0) 4 rfl⟩

/-- C16, refuted as stated: with the anonymous bit set and the descriptor 5, and with the
anonymous bit set together with the bit 0x100 outside the known mask, `shim_mmap64_impl`
aborts and no descriptor reaches the host `mmap`. -/
theorem C16_mmap_anon_counterexample :
    (shim_mmap64_impl freebsd World.idle 0 0 4096 3
        (LINUX_MAP_PRIVATE ||| LINUX_MAP_ANON) 5 0).out = .abort ∧
    (shim_mmap64_impl freebsd World.idle 0 0 4096 3
        (LINUX_MAP_PRIVATE ||| LINUX_MAP_ANON) 5 0).calls = [] ∧
    (shim_mmap64_impl freebsd World.idle 0 0 4096 3
        (LINUX_MAP_PRIVATE ||| LINUX_MAP_ANON ||| 0x100) (-1) 0).out = .abort ∧
    (shim_mmap64_impl freebsd World.idle 0 0 4096 3
        (LINUX_MAP_PRIVATE ||| LINUX_MAP_ANON ||| 0x100) (-1) 0).calls = [] :=
  ⟨rfl, rfl, rfl, rfl⟩

/-- C16, amended: for every call of `shim_mmap64_impl` whose guest flags lie within the
known mask and contain the anonymous bit, either the descriptor passed is -1 or 0, and
then the host `mmap` is called once, with descriptor -1 and with flags that contain
`MAP_ANON`; or the descriptor is another one, and then the call aborts before the host
`mmap`. -/
theorem C16_mmap_anon (abi : Abi) (w : World) (errno : Int) (addr len prot linux_flags : Nat)
    (fd offset : Int) (hk : linux_flags &&& KNOWN_LINUX_MMAP_FLAGS = linux_flags)
    (ha : linux_flags &&& LINUX_MAP_ANON ≠ 0) :
    ((fd = -1 ∨ fd = 0) ∧ ∃ flags,
        (shim_mmap64_impl abi w errno addr len prot linux_flags fd offset).calls
          = [HostCall.mmap addr len prot flags (-1) offset] ∧
        flags &&& abi.MAP_ANON = abi.MAP_ANON) ∨
    (¬ (fd = -1 ∨ fd = 0) ∧
      (shim_mmap64_impl abi w errno addr len prot linux_flags fd offset).out = .abort ∧
      (shim_mmap64_impl abi w errno addr len prot linux_flags fd offset).calls = []) :=
  shim_mmap64_impl_anon abi w errno addr len prot linux_flags fd offset hk ha

/-- C16, at the guest flags private | anonymous with the descriptor 0 and the FreeBSD
constants: the host receives the descriptor -1. -/
theorem C16_mmap_anon_witness :
    (LINUX_MAP_PRIVATE ||| LINUX_MAP_ANON) &&& KNOWN_LINUX_MMAP_FLAGS
      = LINUX_MAP_PRIVATE ||| LINUX_MAP_ANON ∧
    (LINUX_MAP_PRIVATE ||| LINUX_MAP_ANON) &&& LINUX_MAP_ANON ≠ 0 ∧
    (shim_mmap64_impl freebsd World.idle 0 0 4096 3
        (LINUX_MAP_PRIVATE ||| LINUX_MAP_ANON) 0 0).calls
      = [HostCall.mmap 0 4096 3 (freebsd.MAP_PRIVATE ||| freebsd.MAP_ANON) (-1) 0] ∧
    ((((0 : Int) = -1 ∨ (0 : Int) = 0) ∧ ∃ flags,
        (shim_mmap64_impl freebsd World.idle 0 0 4096 3
            (LINUX_MAP_PRIVATE ||| LINUX_MAP_ANON) 0 0).calls
          = [HostCall.mmap 0 4096 3 flags (-1) 0] ∧
        flags &&& freebsd.MAP_ANON = freebsd.MAP_ANON) ∨
      (¬ ((0 : Int) = -1 ∨ (0 : Int) = 0) ∧
        (shim_mmap64_impl freebsd World.idle 0 0 4096 3
            (LINUX_MAP_PRIVATE ||| LINUX_MAP_ANON) 0 0).out = .abort ∧
        (shim_mmap64_impl freebsd World.idle 0 0 4096 3
            (LINUX_MAP_PRIVATE ||| LINUX_MAP_ANON) 0 0).calls = [])) :=
  ⟨by decide, by decide, rfl,
    C16_mmap_anon freebsd World.idle 0 0 4096 3 (LINUX_MAP_PRIVATE ||| LINUX_MAP_ANON) 0 0
      (by decide) (by decide)⟩

/-- C17: the known mask of `mmap` flags is 0x5073, and for a descriptor that passes the
`assert` of the anonymous case (it is -1 or 0 whenever the anonymous bit is set),
`shim_mmap64_impl`, and `shim_mmap_impl` which forwards to it, abort without calling the
host `mmap` if and only if the guest flag word has a bit outside that mask. -/
theorem C17_mmap_known_mask (abi : Abi) (w : World) (errno : Int)
    (addr len prot linux_flags : Nat) (fd offset : Int)
    (hfd : linux_flags &&& LINUX_MAP_ANON ≠ 0 → fd = -1 ∨ fd = 0) :
    KNOWN_LINUX_MMAP_FLAGS = 0x5073 ∧
    (((shim_mmap64_impl abi w errno addr len prot linux_flags fd offset).out = .abort ∧
        (shim_mmap64_impl abi w errno addr len prot linux_flags fd offset).calls = []) ↔
      linux_flags &&& 0x5073 ≠ linux_flags) ∧
    (((shim_mmap_impl abi w errno addr len prot linux_flags fd offset).out = .abort ∧
        (shim_mmap_impl abi w errno addr len prot linux_flags fd offset).calls = []) ↔
      linux_flags &&& 0x5073 ≠ linux_flags) := by
  have hmask : KNOWN_LINUX_MMAP_FLAGS = 0x5073 := by decide
  refine ⟨hmask, ?_, ?_⟩
  · rw [← hmask]
    exact shim_mmap64_impl_abort_iff abi w errno addr len prot linux_flags fd offset hfd
  · rw [← hmask]
    exact shim_mmap64_impl_abort_iff abi w errno addr len prot linux_flags fd offset hfd

/-- C17, at the guest flags private | 0x100 (a bit outside the mask) with descriptor 3 and
the FreeBSD constants: the call aborts before the host `mmap`. -/
theorem C17_mmap_known_mask_witness :
    ((LINUX_MAP_PRIVATE ||| 0x100) &&& LINUX_MAP_ANON ≠ 0 → (3 : Int) = -1 ∨ (3 : Int) = 0) ∧
    (((shim_mmap64_impl freebsd World.idle 0 0 4096 3 (LINUX_MAP_PRIVATE ||| 0x100) 3 0).out
          = .abort ∧
        (shim_mmap64_impl freebsd World.idle 0 0 4096 3 (LINUX_MAP_PRIVATE ||| 0x100) 3 0).calls
          = []) ↔
      (LINUX_MAP_PRIVATE ||| 0x100) &&& 0x5073 ≠ LINUX_MAP_PRIVATE ||| 0x100) :=
  ⟨by decide,
    (C17_mmap_known_mask freebsd World.idle 0 0 4096 3 (LINUX_MAP_PRIVATE ||| 0x100) 3 0
      (by decide)).2.1⟩

/-- C18, the code at the failing input: `shim___recv_chk_impl` with the guest flag
`MSG_DONTWAIT` (0x40) hands the host `recv` the raw word 0x40, which the host reads as
`MSG_WAITALL`, while the translation of 0x40 is 0x80 and `sendto` hands the host 0x80;
with the guest flag 0x8000, outside the known mask, it calls the host with 0x8000 where
`sendto` aborts. -/
theorem C18_recv_chk_raw_flags :
    (shim___recv_chk_impl World.idle 0 3 0 10 10 0x40).calls = [HostCall.recv 3 0 10 0x40] ∧
    freebsd.MSG_WAITALL = 0x40 ∧
    (shim_sendto_impl freebsd World.idle 0 3 0 10 0x40 sampleInet 16).calls
      = [HostCall.sendto 3 0 10 0x80 (.inet ⟨0, 2, [0, 80], [127, 0, 0, 1],
          [0, 0, 0, 0, 0, 0, 0, 0]⟩) 16] ∧
    (shim___recv_chk_impl World.idle 0 3 0 10 10 0x8000).calls
      = [HostCall.recv 3 0 10 0x8000] ∧
    (shim_sendto_impl freebsd World.idle 0 3 0 10 0x8000 sampleInet 16).out = .abort :=
  ⟨rfl, rfl, rfl, rfl, rfl⟩

/-- C20, the code at the failing input: opening `"/proc/driver/nvidia/params"` in mode
`"r"` asks the host for a memory stream of 22 bytes and writes 22 bytes into it: the 21
characters of `"ModifyDeviceFiles: 0\n"` and, after them, the NUL that ends the array. -/
theorem C20_params_stream_bytes (abi : Abi) (w : World) (errno : Int) :
    (shim_fopen_impl abi w errno "/proc/driver/nvidia/params" "r").calls
      = [HostCall.fmemopen 0 22 "r+",
         HostCall.fwrite (paramsText ++ [0]) 1 22 (w.syscall (HostCall.fmemopen 0 22 "r+") errno).1,
         HostCall.rewind (w.syscall (HostCall.fmemopen 0 22 "r+") errno).1] ∧
    (shim_fopen_impl abi w errno "/proc/driver/nvidia/params" "r").out
      = .done ((w.syscall (HostCall.fmemopen 0 22 "r+") errno).1,
          (w.syscall (HostCall.rewind (w.syscall (HostCall.fmemopen 0 22 "r+") errno).1)
            (w.syscall (HostCall.fwrite (paramsText ++ [0]) 1 22
              (w.syscall (HostCall.fmemopen 0 22 "r+") errno).1)
              (w.syscall (HostCall.fmemopen 0 22 "r+") errno).2).2).2) ∧
    paramsText.length = 21 ∧
    "ModifyDeviceFiles: 0\n".toList.map Char.toNat = paramsText :=
  ⟨rfl, rfl, rfl, by decide⟩

/-- C11: `socket` and `socketpair` abort without a host call if and only if the domain is
neither Unix nor Inet or the socket type leaves its known mask; `bind` and `connect`
abort without a host call if and only if the family of the guest address is neither Unix
nor Inet or the address fails its size and path check; `sendto` likewise, or when its
flag word leaves the known mask. So every other family aborts before any host call, and
a supported family aborts only on one of the other checks. -/
theorem C11_family_check (abi : Abi) (w : World) (errno s : Int) (domain type : Nat)
    (protocol : Int) (sv : Nat) (addr : Mem) (len msg mlen flags : Nat) :
    (((shim_socket_impl abi w errno domain type protocol).out = .abort ∧
        (shim_socket_impl abi w errno domain type protocol).calls = []) ↔
      (¬ familySupported abi domain ∨ type &&& abi.KNOWN_LINUX_SOCKET_TYPES ≠ type)) ∧
    (((shim_socketpair_impl abi w errno domain type protocol sv).out = .abort ∧
        (shim_socketpair_impl abi w errno domain type protocol sv).calls = []) ↔
      (¬ familySupported abi domain ∨ type &&& abi.KNOWN_LINUX_SOCKET_TYPES ≠ type)) ∧
    (((shim_bind_impl abi w errno s addr len).out = .abort ∧
        (shim_bind_impl abi w errno s addr len).calls = []) ↔
      (¬ familySupported abi (rd addr 0 2) ∨ addressRejected abi addr len)) ∧
    (((shim_connect_impl abi w errno s addr len).out = .abort ∧
        (shim_connect_impl abi w errno s addr len).calls = []) ↔
      (¬ familySupported abi (rd addr 0 2) ∨ addressRejected abi addr len)) ∧
    (((shim_sendto_impl abi w errno s msg mlen flags addr len).out = .abort ∧
        (shim_sendto_impl abi w errno s msg mlen flags addr len).calls = []) ↔
      (¬ familySupported abi (rd addr 0 2) ∨ addressRejected abi addr len ∨
        flags &&& abi.KNOWN_LINUX_MSG_FLAGS ≠ flags)) := by
  refine ⟨?_, ?_, ?_⟩
  · unfold shim_socket_impl familySupported
    by_cases hd : domain = abi.LINUX_PF_UNIX ∨ domain = abi.LINUX_PF_INET
    · rw [if_neg (not_not.mpr hd)]
      rcases linux_to_native_sock_type_cases abi type with ⟨ht, he⟩ | ⟨ht, h, he⟩
      · simp [he, Outcome.andThen, ht]
      · simp [he, Outcome.andThen, ht, hd]
    · rw [if_pos hd]
      simp [hd]
  · unfold shim_socketpair_impl familySupported
    by_cases hd : domain = abi.LINUX_PF_UNIX ∨ domain = abi.LINUX_PF_INET
    · rw [if_neg (not_not.mpr hd)]
      rcases linux_to_native_sock_type_cases abi type with ⟨ht, he⟩ | ⟨ht, h, he⟩
      · simp [he, Outcome.andThen, ht]
      · simp [he, Outcome.andThen, ht, hd]
    · rw [if_pos hd]
      simp [hd]
  · unfold shim_bind_impl shim_connect_impl shim_sendto_impl addressRejected familySupported
    by_cases hu : rd addr 0 2 = abi.LINUX_PF_UNIX
    · simp only [if_pos hu]
      rcases linux_to_native_sockaddr_un_cases abi w.stack_un addr len with
        ⟨hr, he⟩ | ⟨hr, a, he⟩
      · simp [he, Outcome.andThen, hr]
      · rcases linux_to_native_msg_flags_cases abi flags with ⟨hf, hfe⟩ | ⟨hf, h, hfe⟩
        · simp [he, hfe, Outcome.andThen, hr, hf, hu]
        · simp [he, hfe, Outcome.andThen, hr, hf, hu]
    · by_cases hi : rd addr 0 2 = abi.LINUX_PF_INET
      · simp only [if_neg hu, if_pos hi]
        rcases linux_to_native_sockaddr_in_cases abi w.stack_in addr len with
          ⟨hr, he⟩ | ⟨hr, a, he⟩
        · simp [he, Outcome.andThen, hr]
        · rcases linux_to_native_msg_flags_cases abi flags with ⟨hf, hfe⟩ | ⟨hf, h, hfe⟩
          · simp [he, hfe, Outcome.andThen, hr, hf, hu, hi]
          · simp [he, hfe, Outcome.andThen, hr, hf, hu, hi]
      · simp [if_neg hu, if_neg hi, hu, hi]

/-- C12: for every guest Unix address of the exact guest struct size whose path `p` is not
abstract (it is a string of at least one nonzero byte, followed by its terminator),
either the length of `p` is at least `sizeof(sun_path)` of the host, and
`linux_to_native_sockaddr_un` aborts; or it is less, and the function returns a host
address whose path array holds `p` and its terminator, byte for byte. So it aborts if and
only if the length of `p` is at least the host size. -/
theorem C12_path_capacity (abi : Abi) (dest : sockaddr_un) (src : Mem) (addrlen : Nat)
    (p : List Nat) (hlen : addrlen = abi.sizeof_linux_sockaddr_un)
    (hp : bytes src 2 (p.length + 1) = p ++ [0]) (hnz : ∀ c ∈ p, c ≠ 0) (hne : p ≠ []) :
    ((abi.sizeof_sun_path ≤ p.length ∧
        linux_to_native_sockaddr_un abi dest src addrlen = .abort) ∨
      (p.length < abi.sizeof_sun_path ∧ ∃ host,
        linux_to_native_sockaddr_un abi dest src addrlen = .done host ∧
        bytes host.sun_path 0 (p.length + 1) = p ++ [0] ∧
        cstrN host.sun_path 0 abi.sizeof_sun_path = p)) ∧
    (linux_to_native_sockaddr_un abi dest src addrlen = .abort ↔
      abi.sizeof_sun_path ≤ p.length) := by
  have hfirst : src 2 ≠ 0 := by
    cases p with
    | nil => exact absurd rfl hne
    | cons c tl =>
      have := @getD_of_bytes_eq src 2 ((c :: tl) ++ [0]) (by simpa using hp) 0 (by simp)
      simp only [Nat.add_zero, List.cons_append, List.getD_cons_zero] at this
      rw [this]
      exact hnz c (List.mem_cons_self _ _)
  have hunfold : linux_to_native_sockaddr_un abi dest src addrlen
      = if ¬ ((strlcpy dest.sun_path 0 src 2 abi.sizeof_sun_path).2 < abi.sizeof_sun_path)
        then .abort
        else .done ⟨0, abi.PF_UNIX, (strlcpy dest.sun_path 0 src 2 abi.sizeof_sun_path).1⟩ := by
    unfold linux_to_native_sockaddr_un
    rw [if_neg (by simpa using hlen)]
    simp only
    rw [if_neg hfirst]
  by_cases hfit : p.length < abi.sizeof_sun_path
  · obtain ⟨h1, h2, _⟩ := strlcpy_fits dest.sun_path src 0 2 abi.sizeof_sun_path p hp hnz hfit
    have hdone : linux_to_native_sockaddr_un abi dest src addrlen
        = .done ⟨0, abi.PF_UNIX, (strlcpy dest.sun_path 0 src 2 abi.sizeof_sun_path).1⟩ := by
      rw [hunfold, if_neg (by rw [h1]; omega)]
    refine ⟨Or.inr ⟨hfit, _, hdone, h2, cstrN_eq _ _ _ _ h2 hnz hfit⟩, ?_⟩
    rw [hdone]
    constructor
    · intro h; cases h
    · intro h; omega
  · have hn : (strlcpy dest.sun_path 0 src 2 abi.sizeof_sun_path).2 = abi.sizeof_sun_path := by
      simp only [strlcpy]
      exact length_cstrN_of_le src 2 p _ hp hnz (by omega)
    have habort : linux_to_native_sockaddr_un abi dest src addrlen = .abort := by
      rw [hunfold, if_pos (by rw [hn]; omega)]
    exact ⟨Or.inl ⟨by omega, habort⟩, by rw [habort]; simp; omega⟩

set_option maxRecDepth 100000 in
/-- C12, at the path `"/tmp/s.sock"` with the FreeBSD constants. -/
theorem C12_path_capacity_witness :
    (110 : Nat) = freebsd.sizeof_linux_sockaddr_un ∧
    bytes sampleTmpSock 2 (tmpSock.length + 1) = tmpSock ++ [0] ∧
    (∀ c ∈ tmpSock, c ≠ 0) ∧ tmpSock ≠ [] ∧
    (linux_to_native_sockaddr_un freebsd World.idle.stack_un sampleTmpSock 110 = .abort ↔
      freebsd.sizeof_sun_path ≤ tmpSock.length) :=
  ⟨rfl, by decide, by decide, by decide,
    (C12_path_capacity freebsd World.idle.stack_un sampleTmpSock 110 tmpSock rfl (by decide)
      (by decide) (by decide)).2⟩

/-- C13: in both directions, when the control pointer is set and the buffer holds a first
record header, a record that the walk reaches and whose type is not descriptor-passing
(`LINUX_SCM_RIGHTS` in a guest buffer, `SCM_RIGHTS` in a host buffer) makes the
translation abort: it returns no header, so the record is neither copied nor dropped.
The records that the walk reaches before it are well formed: each has `cmsg_len` at least
the record header size of the build target and ends within the buffer, so that the copy
of its data stays within the buffers; and the guest record in question has its header
within the buffer (a host record header always has, by the walk). The destination header
is one with a control buffer. -/
theorem C13_other_type_aborts (arch : Arch) (abi : Abi) (fuel : Nat) :
    (∀ (msg : msghdr) (linux_msg : linux_msghdr) (src buf : Mem) (o : Nat),
      linux_msg.msg_control = some src → msg.msg_control = some buf →
      sizeof_cmsghdr ≤ linux_msg.msg_controllen →
      o ∈ cmsgOffsets arch fuel linux_msg.msg_controllen src 0 →
      (∀ p ∈ cmsgOffsets arch fuel linux_msg.msg_controllen src 0, p < o →
        arch.cmsgData ≤ rd src p arch.word ∧
        p + rd src p arch.word ≤ linux_msg.msg_controllen) →
      o + arch.cmsgData ≤ linux_msg.msg_controllen →
      rd src (o + arch.word + 4) 4 ≠ abi.LINUX_SCM_RIGHTS →
      linux_to_native_msghdr arch abi fuel msg linux_msg = .abort) ∧
    (∀ (linux_msg : linux_msghdr) (msg : msghdr) (src buf : Mem) (o : Nat),
      msg.msg_control = some src → linux_msg.msg_control = some buf →
      sizeof_cmsghdr ≤ msg.msg_controllen →
      o ∈ cmsgOffsets arch fuel msg.msg_controllen src 0 →
      (∀ p ∈ cmsgOffsets arch fuel msg.msg_controllen src 0, p < o →
        arch.cmsgData ≤ rd src p 4 ∧ p + rd src p 4 ≤ msg.msg_controllen) →
      rd src (o + 8) 4 ≠ abi.SCM_RIGHTS →
      native_to_linux_msghdr arch abi fuel linux_msg msg = .abort) := by
  constructor
  · intro msg linux_msg src buf o hsrc hbuf hfirst ho _ _ hbad
    apply linux_to_native_msghdr_abort arch abi fuel msg linux_msg src buf hsrc hbuf hfirst
    intro d
    rw [linux_to_native_cmsgs_eq]
    exact recordLoop_abort arch (linux_to_native_record arch abi) _ src
      (fun o => rd src (o + arch.word + 4) 4 = abi.LINUX_SCM_RIGHTS)
      (fun o d => linux_to_native_record_cases arch abi src o d) fuel 0 d ⟨o, ho, hbad⟩
  · intro linux_msg msg src buf o hsrc hbuf hfirst ho _ hbad
    apply native_to_linux_msghdr_abort arch abi fuel linux_msg msg src buf hsrc hbuf hfirst
    intro d
    rw [native_to_linux_cmsgs_eq]
    exact recordLoop_abort arch (native_to_linux_record arch abi) _ src
      (fun o => rd src (o + 8) 4 = abi.SCM_RIGHTS)
      (fun o d => native_to_linux_record_cases arch abi src o d) fuel 0 d ⟨o, ho, hbad⟩

/-- C13, on x86_64 with the FreeBSD constants: a guest chain and a host chain of 48 bytes
whose first record, at offset 0, is well formed (`cmsg_len` 20) and whose second record,
at offset 24, has type 2. -/
theorem C13_other_type_aborts_witness :
    sizeof_cmsghdr ≤ 48 ∧ 24 ∈ cmsgOffsets .x86_64 49 48 sampleOtherType 0 ∧
    (∀ p ∈ cmsgOffsets .x86_64 49 48 sampleOtherType 0, p < 24 →
      Arch.x86_64.cmsgData ≤ rd sampleOtherType p Arch.x86_64.word ∧
      p + rd sampleOtherType p Arch.x86_64.word ≤ 48) ∧
    24 + Arch.x86_64.cmsgData ≤ 48 ∧
    rd sampleOtherType (24 + Arch.x86_64.word + 4) 4 ≠ freebsd.LINUX_SCM_RIGHTS ∧
    linux_to_native_msghdr .x86_64 freebsd 49 ⟨none, 0, 0, 0, some (fun _ => 0), 48, 0⟩
        ⟨none, 0, 0, 0, some sampleOtherType, 48, 0⟩ = .abort ∧
    24 ∈ cmsgOffsets .x86_64 49 48 sampleHostChainOtherType 0 ∧
    (∀ p ∈ cmsgOffsets .x86_64 49 48 sampleHostChainOtherType 0, p < 24 →
      Arch.x86_64.cmsgData ≤ rd sampleHostChainOtherType p 4 ∧
      p + rd sampleHostChainOtherType p 4 ≤ 48) ∧
    rd sampleHostChainOtherType (24 + 8) 4 ≠ freebsd.SCM_RIGHTS ∧
    native_to_linux_msghdr .x86_64 freebsd 49 ⟨none, 0, 0, 0, some (fun _ => 0), 48, 0⟩
        ⟨none, 0, 0, 0, some sampleHostChainOtherType, 48, 0⟩ = .abort :=
  ⟨by decide, by decide, by decide, by decide, by decide,
    (C13_other_type_aborts .x86_64 freebsd 49).1 ⟨none, 0, 0, 0, some (fun _ => 0), 48, 0⟩
      ⟨none, 0, 0, 0, some sampleOtherType, 48, 0⟩ sampleOtherType (fun _ => 0) 24 rfl rfl
      (by decide) (by decide) (by decide) (by decide) (by decide),
    by decide, by decide, by decide,
    (C13_other_type_aborts .x86_64 freebsd 49).2 ⟨none, 0, 0, 0, some (fun _ => 0), 48, 0⟩
      ⟨none, 0, 0, 0, some sampleHostChainOtherType, 48, 0⟩ sampleHostChainOtherType
      (fun _ => 0) 24 rfl rfl (by decide) (by decide) (by decide) (by decide)⟩

/-- C21: for every path and mode, a path that starts with `"/proc/"` and is not
`"/proc/driver/nvidia/params"`, and a path that starts with `"/sys/"`, make
`shim_fopen_impl` return `NULL` (the value 0) with `errno` set to `EACCES` and issue no
host call, whatever the mode; a path that starts with neither makes it issue one host
`fopen` with the same path and mode and return what the host returned, value and `errno`.
The path `"/proc/driver/nvidia/params"` itself is the one case left out: there the mode is
inspected. -/
theorem C21_fopen_policy (abi : Abi) (w : World) (errno : Int) (path mode : String) :
    (str_starts_with path "/proc/" = true ∧ path ≠ "/proc/driver/nvidia/params" →
      shim_fopen_impl abi w errno path mode = ⟨[], .done (0, abi.EACCES)⟩) ∧
    (str_starts_with path "/sys/" = true →
      shim_fopen_impl abi w errno path mode = ⟨[], .done (0, abi.EACCES)⟩) ∧
    (str_starts_with path "/proc/" = false ∧ str_starts_with path "/sys/" = false →
      shim_fopen_impl abi w errno path mode
        = ⟨[HostCall.fopen path mode], .done (w.syscall (HostCall.fopen path mode) errno)⟩) := by
  refine ⟨?_, ?_, ?_⟩
  · rintro ⟨h1, h2⟩
    unfold shim_fopen_impl
    rw [if_pos h1, if_neg h2]
  · intro h
    have hp : str_starts_with path "/proc/" = false := by
      cases hq : str_starts_with path "/proc/" with
      | false => rfl
      | true => rw [str_starts_with_proc_not_sys path hq] at h; cases h
    unfold shim_fopen_impl
    rw [if_neg (by simp [hp]), if_pos h]
  · rintro ⟨h1, h2⟩
    unfold shim_fopen_impl
    rw [if_neg (by simp [h1]), if_neg (by simp [h2])]

/-- C21, at the paths `"/proc/cpuinfo"`, `"/sys/class/drm"` and `"/tmp/x"` with the
FreeBSD constants, where `EACCES` is 13: the first two are refused without a host call,
and the third reaches a host that answers every call with the value 4096 and leaves
`errno`, here 7, alone; that answer comes back as it is. -/
theorem C21_fopen_policy_witness :
    (str_starts_with "/proc/cpuinfo" "/proc/" = true ∧
      "/proc/cpuinfo" ≠ "/proc/driver/nvidia/params") ∧
    shim_fopen_impl freebsd World.idle 7 "/proc/cpuinfo" "r" = ⟨[], .done (0, 13)⟩ ∧
    str_starts_with "/sys/class/drm" "/sys/" = true ∧
    shim_fopen_impl freebsd World.idle 7 "/sys/class/drm" "w" = ⟨[], .done (0, 13)⟩ ∧
    (str_starts_with "/tmp/x" "/proc/" = false ∧ str_starts_with "/tmp/x" "/sys/" = false) ∧
    shim_fopen_impl freebsd (World.answering 4096) 7 "/tmp/x" "a+"
      = ⟨[HostCall.fopen "/tmp/x" "a+"], .done (4096, 7)⟩ :=
  ⟨by decide, (C21_fopen_policy freebsd World.idle 7 "/proc/cpuinfo" "r").1 (by decide),
    by decide, (C21_fopen_policy freebsd World.idle 7 "/sys/class/drm" "w").2.1 (by decide),
    by decide, (C21_fopen_policy freebsd (World.answering 4096) 7 "/tmp/x" "a+").2.2 (by decide)⟩

/-- C22: in both directions, take a source header whose control buffer has length L > 0
(its `msg_controllen`) and in which every record that the walk reaches has `cmsg_len` at
least H, the record header size of the build target (16 on x86_64, 12 on i386), and ends
within the first L bytes; take a destination header that has a control buffer, and any
fuel above L / H. Then the translation ends: it aborts, or it returns a header whose
control buffer differs from the destination buffer given only within its first L cells.
The offsets of the walk increase strictly, there are at most L / H of them, and at each
of them the length passed to `memcpy`, computed in the unsigned type of `cmsg_len`, gives
`cmsg_len` back when H is added: the subtraction did not wrap. In the forward direction
the walk is entered only past `assert(msg->msg_controllen >= linux_msg->msg_controllen)`,
where the host field has 32 bits, and the facts on the walk are stated for that case; in
the reverse direction L is that host field itself. -/
theorem C22_record_walk (arch : Arch) (abi : Abi) (fuel : Nat) :
    (∀ (msg : msghdr) (linux_msg : linux_msghdr) (src buf : Mem),
      linux_msg.msg_control = some src → msg.msg_control = some buf →
      msg.msg_controllen < 2 ^ 32 → 0 < linux_msg.msg_controllen →
      linux_msg.msg_controllen / arch.cmsgData < fuel →
      (∀ o ∈ walkOffsets arch fuel linux_msg.msg_controllen src,
        arch.cmsgData ≤ rd src o arch.word ∧
        o + rd src o arch.word ≤ linux_msg.msg_controllen) →
      (linux_to_native_msghdr arch abi fuel msg linux_msg = .abort ∨
        ∃ out dst, linux_to_native_msghdr arch abi fuel msg linux_msg = .done out ∧
          out.msg_control = some dst ∧
          ∀ i, linux_msg.msg_controllen ≤ i → dst i = buf i) ∧
      (linux_msg.msg_controllen ≤ msg.msg_controllen →
        (walkOffsets arch fuel linux_msg.msg_controllen src).Pairwise (· < ·) ∧
        (walkOffsets arch fuel linux_msg.msg_controllen src).length
          ≤ linux_msg.msg_controllen / arch.cmsgData ∧
        ∀ o ∈ walkOffsets arch fuel linux_msg.msg_controllen src,
          (rd src o arch.word + 2 ^ (8 * arch.word) - arch.cmsgData) % 2 ^ (8 * arch.word)
            + arch.cmsgData = rd src o arch.word)) ∧
    (∀ (linux_msg : linux_msghdr) (msg : msghdr) (src buf : Mem),
      msg.msg_control = some src → linux_msg.msg_control = some buf →
      0 < msg.msg_controllen → msg.msg_controllen / arch.cmsgData < fuel →
      (∀ o ∈ walkOffsets arch fuel msg.msg_controllen src,
        arch.cmsgData ≤ rd src o 4 ∧ o + rd src o 4 ≤ msg.msg_controllen) →
      (native_to_linux_msghdr arch abi fuel linux_msg msg = .abort ∨
        ∃ out dst, native_to_linux_msghdr arch abi fuel linux_msg msg = .done out ∧
          out.msg_control = some dst ∧ ∀ i, msg.msg_controllen ≤ i → dst i = buf i) ∧
      (walkOffsets arch fuel msg.msg_controllen src).Pairwise (· < ·) ∧
      (walkOffsets arch fuel msg.msg_controllen src).length
        ≤ msg.msg_controllen / arch.cmsgData ∧
      ∀ o ∈ walkOffsets arch fuel msg.msg_controllen src,
        (rd src o 4 + 2 ^ 32 - arch.cmsgData) % 2 ^ 32 + arch.cmsgData = rd src o 4) := by
  have hH12 := cmsgData_ge arch
  have hHpos : 0 < arch.cmsgData := by omega
  constructor
  · intro msg linux_msg src buf hsrc hbuf hcap32 hpos hfuel hrec
    have hfl : linux_msg.msg_controllen < fuel * arch.cmsgData :=
      (Nat.div_lt_iff_lt_mul hHpos).1 hfuel
    have hf0 : 0 < fuel := lt_of_le_of_lt (Nat.zero_le _) hfuel
    constructor
    · apply linux_to_native_msghdr_ends arch abi fuel msg linux_msg src buf hsrc hbuf hpos
      intro hfirst hcap d
      have hrec2 : ∀ o ∈ cmsgOffsets arch fuel linux_msg.msg_controllen src 0,
          arch.cmsgData ≤ rd src o arch.word ∧
          o + rd src o arch.word ≤ linux_msg.msg_controllen := by
        simpa only [walkOffsets, ge_iff_le, if_pos hfirst] using hrec
      have h0 := hrec2 0 (by
        cases fuel with
        | zero => omega
        | succ f => simp [cmsgOffsets])
      rw [linux_to_native_cmsgs_eq]
      exact recordLoop_ends arch (linux_to_native_record arch abi) _ src
        (fun o => arch.cmsgData ≤ rd src o arch.word ∧
          o + rd src o arch.word ≤ linux_msg.msg_controllen)
        (fun o d hg => linux_to_native_record_frame arch abi _ (by omega) src o d hg.1 hg.2)
        (fun o hg => by rw [rd_four_of_word arch src o (by omega)]; exact hg.1)
        fuel 0 d (by omega) (by omega) hrec2
    · intro hcap
      by_cases hfirst : sizeof_cmsghdr ≤ linux_msg.msg_controllen
      · simp only [walkOffsets, ge_iff_le, if_pos hfirst] at hrec ⊢
        have h0 := hrec 0 (by
          cases fuel with
          | zero => omega
          | succ f => simp [cmsgOffsets])
        have h4 : ∀ o ∈ cmsgOffsets arch fuel linux_msg.msg_controllen src 0,
            rd src o 4 = rd src o arch.word := fun o ho =>
          rd_four_of_word arch src o (by have := hrec o ho; omega)
        refine ⟨?_, ?_, ?_⟩
        · apply cmsgOffsets_pairwise
          intro o ho
          rw [h4 o ho]
          have := hrec o ho
          omega
        · have := cmsgOffsets_length arch linux_msg.msg_controllen src fuel 0 (by omega)
            (fun o ho => by rw [h4 o ho]; exact (hrec o ho).1)
          rw [Nat.le_div_iff_mul_le hHpos]
          omega
        · intro o ho
          have := hrec o ho
          rw [copy_len_guest arch _ this.1 (by omega)]
          omega
      · simp [walkOffsets, hfirst]
  · intro linux_msg msg src buf hsrc hbuf hpos hfuel hrec
    have hfl : msg.msg_controllen < fuel * arch.cmsgData :=
      (Nat.div_lt_iff_lt_mul hHpos).1 hfuel
    have hf0 : 0 < fuel := lt_of_le_of_lt (Nat.zero_le _) hfuel
    constructor
    · apply native_to_linux_msghdr_ends arch abi fuel linux_msg msg src buf hsrc hbuf hpos
      intro hfirst d
      have hrec2 : ∀ o ∈ cmsgOffsets arch fuel msg.msg_controllen src 0,
          arch.cmsgData ≤ rd src o 4 ∧ o + rd src o 4 ≤ msg.msg_controllen := by
        simpa only [walkOffsets, ge_iff_le, if_pos hfirst] using hrec
      have h0 := hrec2 0 (by
        cases fuel with
        | zero => omega
        | succ f => simp [cmsgOffsets])
      rw [native_to_linux_cmsgs_eq]
      exact recordLoop_ends arch (native_to_linux_record arch abi) _ src
        (fun o => arch.cmsgData ≤ rd src o 4 ∧ o + rd src o 4 ≤ msg.msg_controllen)
        (fun o d hg => native_to_linux_record_frame arch abi _ src o d hg.1 hg.2)
        (fun o hg => hg.1)
        fuel 0 d (by omega) (by omega) hrec2
    · by_cases hfirst : sizeof_cmsghdr ≤ msg.msg_controllen
      · simp only [walkOffsets, ge_iff_le, if_pos hfirst] at hrec ⊢
        have h0 := hrec 0 (by
          cases fuel with
          | zero => omega
          | succ f => simp [cmsgOffsets])
        refine ⟨?_, ?_, ?_⟩
        · apply cmsgOffsets_pairwise
          intro o ho
          have := hrec o ho
          omega
        · have := cmsgOffsets_length arch msg.msg_controllen src fuel 0 (by omega)
            (fun o ho => (hrec o ho).1)
          rw [Nat.le_div_iff_mul_le hHpos]
          omega
        · intro o ho
          have := hrec o ho
          have hl32 : rd src o 4 < 2 ^ 32 := by
            have := rd_lt src 4 o
            norm_num at this ⊢
            exact this
          rw [copy_len_host arch _ this.1 hl32]
          omega
      · simp [walkOffsets, hfirst]

/-- C22, with the FreeBSD constants: forward on i386 at `sampleDense`, whose four records
of 12 bytes fill the 48 bytes (48 / 12 = 4 records), and reverse on x86_64 at
`sampleHostChain`, whose two records lie at the offsets 0 and 24. -/
theorem C22_record_walk_witness :
    walkOffsets .i386 5 48 sampleDense = [0, 12, 24, 36] ∧
    (48 : Nat) < 2 ^ 32 ∧ (0 : Nat) < 48 ∧ 48 / Arch.i386.cmsgData < 5 ∧
    (∀ o ∈ walkOffsets .i386 5 48 sampleDense,
      Arch.i386.cmsgData ≤ rd sampleDense o Arch.i386.word ∧
      o + rd sampleDense o Arch.i386.word ≤ 48) ∧
    (linux_to_native_msghdr .i386 freebsd 5 ⟨none, 0, 0, 0, some (fun _ => 0xAA), 48, 0⟩
        ⟨none, 0, 0, 0, some sampleDense, 48, 0⟩ = .abort ∨
      ∃ out dst, linux_to_native_msghdr .i386 freebsd 5
          ⟨none, 0, 0, 0, some (fun _ => 0xAA), 48, 0⟩
          ⟨none, 0, 0, 0, some sampleDense, 48, 0⟩ = .done out ∧
        out.msg_control = some dst ∧ ∀ i, 48 ≤ i → dst i = 0xAA) ∧
    (walkOffsets .i386 5 48 sampleDense).length ≤ 48 / Arch.i386.cmsgData ∧
    walkOffsets .x86_64 4 48 sampleHostChain = [0, 24] ∧
    48 / Arch.x86_64.cmsgData < 4 ∧
    (∀ o ∈ walkOffsets .x86_64 4 48 sampleHostChain,
      Arch.x86_64.cmsgData ≤ rd sampleHostChain o 4 ∧ o + rd sampleHostChain o 4 ≤ 48) ∧
    (native_to_linux_msghdr .x86_64 freebsd 4 ⟨none, 0, 0, 0, some (fun _ => 0xBB), 48, 0⟩
        ⟨none, 0, 0, 0, some sampleHostChain, 48, 0⟩ = .abort ∨
      ∃ out dst, native_to_linux_msghdr .x86_64 freebsd 4
          ⟨none, 0, 0, 0, some (fun _ => 0xBB), 48, 0⟩
          ⟨none, 0, 0, 0, some sampleHostChain, 48, 0⟩ = .done out ∧
        out.msg_control = some dst ∧ ∀ i, 48 ≤ i → dst i = 0xBB) ∧
    (walkOffsets .x86_64 4 48 sampleHostChain).Pairwise (· < ·) :=
  ⟨by decide, by decide, by decide, by decide, by decide,
    ((C22_record_walk .i386 freebsd 5).1 ⟨none, 0, 0, 0, some (fun _ => 0xAA), 48, 0⟩
      ⟨none, 0, 0, 0, some sampleDense, 48, 0⟩ sampleDense (fun _ => 0xAA) rfl rfl (by decide)
      (by decide) (by decide) (by decide)).1,
    (((C22_record_walk .i386 freebsd 5).1 ⟨none, 0, 0, 0, some (fun _ => 0xAA), 48, 0⟩
      ⟨none, 0, 0, 0, some sampleDense, 48, 0⟩ sampleDense (fun _ => 0xAA) rfl rfl (by decide)
      (by decide) (by decide) (by decide)).2 (by decide)).2.1,
    by decide, by decide, by decide,
    ((C22_record_walk .x86_64 freebsd 4).2 ⟨none, 0, 0, 0, some (fun _ => 0xBB), 48, 0⟩
      ⟨none, 0, 0, 0, some sampleHostChain, 48, 0⟩ sampleHostChain (fun _ => 0xBB) rfl rfl
      (by decide) (by decide) (by decide)).1,
    ((C22_record_walk .x86_64 freebsd 4).2 ⟨none, 0, 0, 0, some (fun _ => 0xBB), 48, 0⟩
      ⟨none, 0, 0, 0, some sampleHostChain, 48, 0⟩ sampleHostChain (fun _ => 0xBB) rfl rfl
      (by decide) (by decide) (by decide)).2.1⟩

end Libc6Shim
